import Mathlib

/-!
# openMSX: board lifecycle and session management

A shallow embedding of the board (`MSXMotherBoard.cc`) and session (`Reactor.cc`)
layers of openMSX.  Pointers to boards and devices are natural numbers, the
effects on external collaborators (CPU, mixer, LED, notification bus, event
distributor) are recorded in an effect log in program order, and code that can
throw returns `Except`.  The device files `memory/MSXMegaRam.cc`,
`fdc/NationalFDC.cc` and `MSXPPI.cc` are embedded on natural numbers, with the
explicit reductions modulo a power of two where the source narrows a value.
-/

namespace openmsx

/-! ## Utilities of `stl.hh` used by the sources

The header `stl.hh` is not among the given sources.  Its three utilities are
modelled after their names and their use in `Reactor.cc` and
`MSXMotherBoard.cc`: the unguarded searches return the position of an element
that must be present, and `move_pop_back` removes in constant time (the source
uses `vector::erase` instead where the order of a vector has to be kept, as in
`MSXMotherBoard::removeExtension`).
-/

/-- Position of the first element equal to `x`, counted from `i` (helper of `find_unguarded`). -/
def findFrom {α : Type} [DecidableEq α] (x : α) : List α → Nat → Option Nat
  | [], _ => none
  | y :: ys, i => if y = x then some i else findFrom x ys (i + 1)

/-- The call `find_unguarded(v, x)`: the position of the first element equal to `x`.
The search is unguarded, the element must be present; `none` stands for the
undefined behaviour of searching an absent element. -/
def find_unguarded {α : Type} [DecidableEq α] (v : List α) (x : α) : Option Nat :=
  findFrom x v 0

/-- The call `rfind_unguarded(v, x)`: the position of the last element equal to `x`
(the search runs from the back); `none` when the element is absent. -/
def rfind_unguarded {α : Type} [DecidableEq α] (v : List α) (x : α) : Option Nat :=
  match findFrom x v.reverse 0 with
  | none => none
  | some j => some (v.length - 1 - j)

/-- The call `move_pop_back(v, it)`: unless `it` already points at the last element,
the last element is moved into position `it`; then the last element is popped.
The relative order of the remaining elements is not kept. -/
def move_pop_back {α : Type} (v : List α) (it : Nat) : List α :=
  match v.getLast? with
  | none => v
  | some back => if it + 1 = v.length then v.dropLast else (v.set it back).dropLast

/-! ## Session layer (`Reactor.cc`) -/

/-- A board is referred to through a shared pointer; the pointer of the n-th
constructed board is `n`, and its machine ID is `machine<n>`. -/
abbrev BoardPtr := Nat

/-- The kinds of `CliComm::UpdateType` used here. -/
inductive UpdateType
  | HARDWARE
  | EXTENSION
  | STATUS
  deriving DecidableEq, Repr

/-- Effects of the session layer on boards and on global services, in program order. -/
inductive ReactorEffect
  /-- The call `board->activate(active)`. -/
  | activate (board : BoardPtr) (active : Bool)
  /-- The assignment `activeBoard = newBoard` under `mbMutex`. -/
  | swapActive (newBoard : Option BoardPtr)
  /-- The call `eventDistributor->distributeEvent(MachineLoadedEvent())`. -/
  | machineLoadedEvent
  /-- The call `globalCliComm->update(type, name, value)`. -/
  | cliUpdate (type : UpdateType) (name : String) (value : String)
  /-- The call `board->loadMachine(machine)` on a freshly created board. -/
  | loadMachine (board : BoardPtr) (machine : String)
  /-- Loading a board from an `XmlInputArchive` of the given file. -/
  | loadArchive (board : BoardPtr) (filename : String)
  /-- Creation of the display and its video system. -/
  | createDisplay
  /-- The call `stopReplay` on the state change distributor of a restored board. -/
  | stopReplay (board : BoardPtr)
  /-- The call `eventDistributor->deliverEvents()`. -/
  | deliverEvents
  /-- The call `copy->execute()` on the active board. -/
  | execute (board : BoardPtr)
  /-- The call `eventDistributor->sleep(us)`. -/
  | sleep (us : Nat)
  /-- The call `activeBoard->exitCPULoopSync()` (main thread). -/
  | exitCPULoopSync (board : BoardPtr)
  /-- The call `activeBoard->exitCPULoopAsync()` (other threads, under `mbMutex`). -/
  | exitCPULoopAsync (board : BoardPtr)
  /-- The call `getMixer().mute()`. -/
  | mixerMute
  /-- The call `getMixer().unmute()`. -/
  | mixerUnmute
  deriving DecidableEq, Repr

/-- The session state: the board vector, the active board, and the effect log.
Boards are held by shared pointers; `heldElsewhere` lists the boards to which a
shared pointer exists outside `boards` and `activeBoard` (a copy kept by a
caller, such as the one `Reactor::run` keeps while the board executes). -/
structure Reactor where
  boards : List BoardPtr
  activeBoard : Option BoardPtr
  display : Bool
  machineIDCounter : Nat
  effects : List ReactorEffect
  blockedCounter : Int := 0
  paused : Bool := false
  running : Bool := true
  heldElsewhere : List BoardPtr := []
  deriving DecidableEq, Repr

/-- The state of a session right after start-up: no boards and no active board. -/
def Reactor.initial : Reactor :=
  { boards := [], activeBoard := none, display := false, machineIDCounter := 0, effects := [] }

/-- The machine ID of a board, `strCat("machine", n)`. -/
def machineIDOf (b : BoardPtr) : String := "machine" ++ toString b

/-- The method `Reactor::getMachineID`: the ID of the active board, empty when there is none. -/
def Reactor.getMachineID (r : Reactor) : String :=
  match r.activeBoard with
  | some b => machineIDOf b
  | none => ""

/-- Append one effect to the log. -/
def Reactor.emit (r : Reactor) (e : ReactorEffect) : Reactor :=
  { r with effects := r.effects ++ [e] }

/-- The method `Reactor::createEmptyMotherBoard`: constructs a board; the constructor
takes the next machine ID and announces the hardware (`AddRemoveUpdate`). -/
def Reactor.createEmptyMotherBoard (r : Reactor) : BoardPtr × Reactor :=
  let n := r.machineIDCounter + 1
  (n, { r with machineIDCounter := n,
               effects := r.effects ++ [ReactorEffect.cliUpdate UpdateType.HARDWARE (machineIDOf n) "add"] })

/-- Destruction of a board that is owned by nobody else (`AddRemoveUpdate` destructor). -/
def Reactor.destroyBoard (r : Reactor) (b : BoardPtr) : Reactor :=
  r.emit (ReactorEffect.cliUpdate UpdateType.HARDWARE (machineIDOf b) "remove")

/-- The release of a local or vector-held shared pointer to the board `b`: when no
shared pointer to the board is left (in the board vector, as active board or
outside the session), the board is destroyed at this point. -/
def Reactor.releaseBoard (r : Reactor) (b : BoardPtr) : Reactor :=
  if b ∈ r.boards ∨ r.activeBoard = some b ∨ b ∈ r.heldElsewhere then r
  else r.destroyBoard b

/-- The assertions at the head of `Reactor::switchBoard`. -/
def Reactor.switchBoardAsserts (r : Reactor) (newBoard : Option BoardPtr) : Prop :=
  (newBoard = none ∨ ∃ b, newBoard = some b ∧ b ∈ r.boards) ∧
  (r.activeBoard = none ∨ ∃ a, r.activeBoard = some a ∧ a ∈ r.boards)

/-- The method `Reactor::switchBoard`. -/
def Reactor.switchBoard (r : Reactor) (newBoard : Option BoardPtr) : Reactor :=
  let r1 := match r.activeBoard with
    | some old => r.emit (ReactorEffect.activate old false)
    | none => r
  let r2 := { r1 with activeBoard := newBoard,
                      effects := r1.effects ++ [ReactorEffect.swapActive newBoard] }
  let r3 := r2.emit ReactorEffect.machineLoadedEvent
  let r4 := r3.emit (ReactorEffect.cliUpdate UpdateType.HARDWARE r3.getMachineID "select")
  match r4.activeBoard with
  | some b => r4.emit (ReactorEffect.activate b true)
  | none => r4

/-- The method `Reactor::deleteBoard`. -/
def Reactor.deleteBoard (r : Reactor) (board : Option BoardPtr) : Option Reactor :=
  match board with
  | none => some r
  | some b =>
    let r1 := if r.activeBoard = some b then r.switchBoard none else r
    match rfind_unguarded r1.boards b with
    | none => none
    | some it => some { r1 with boards := move_pop_back r1.boards it }

/-- The method `Reactor::replaceBoard`.  The old board is passed by reference, so
`move_pop_back` releases the shared pointer the vector holds to it; when that
was the last one, the old board is destroyed inside this call. -/
def Reactor.replaceBoard (r : Reactor) (oldBoard : BoardPtr) (newBoard : BoardPtr) : Option Reactor :=
  let r1 := { r with boards := r.boards ++ [newBoard] }
  match find_unguarded r1.boards oldBoard with
  | none => none
  | some it =>
    let r2 := if r1.boards.get? it = r1.activeBoard then r1.switchBoard (some newBoard) else r1
    let r3 := { r2 with boards := move_pop_back r2.boards it }
    some (r3.releaseBoard oldBoard)

/-- Creation of the display on first use, at the head of `switchMachine` and
`switchMachineFromSetup`. -/
def Reactor.ensureDisplay (r : Reactor) : Reactor :=
  if r.display then r else { r with display := true, effects := r.effects ++ [ReactorEffect.createDisplay] }

/-- The tail shared by `switchMachine` and `switchMachineFromSetup`: track the new
board, switch to it, delete the previously active board.  The local `oldBoard`
is released when the method is left, which destroys the old board unless
somebody else holds it. -/
def Reactor.installBoard (r : Reactor) (newBoard : BoardPtr) : Option Reactor :=
  let r1 := { r with boards := r.boards ++ [newBoard] }
  let oldBoard := r1.activeBoard
  match (r1.switchBoard (some newBoard)).deleteBoard oldBoard with
  | none => none
  | some r2 =>
    match oldBoard with
    | some old => some (r2.releaseBoard old)
    | none => some r2

/-- The method `Reactor::switchMachine`.  `loadResult` is the outcome of
`newBoard->loadMachine(machine)`: an error message when it throws.  The result
is the state after the call together with the exception that left it, if any. -/
def Reactor.switchMachine (r : Reactor) (machine : String) (loadResult : Except String Unit) :
    Option (Reactor × Except String Unit) :=
  let r0 := r.ensureDisplay
  let (newBoard, r1) := r0.createEmptyMotherBoard
  let r2 := r1.emit (ReactorEffect.loadMachine newBoard machine)
  match loadResult with
  | Except.error msg => some (r2.destroyBoard newBoard, Except.error msg)
  | Except.ok _ =>
    match r2.installBoard newBoard with
    | none => none
    | some r3 => some (r3, Except.ok ())

/-- The two kinds of exception caught while reading a setup file. -/
inductive ArchiveError
  | xml (msg : String)
  | msx (msg : String)
  deriving DecidableEq, Repr

/-- The method `Reactor::switchMachineFromSetup`.  `loadResult` is the outcome of
reading the archive into the new board. -/
def Reactor.switchMachineFromSetup (r : Reactor) (filename : String)
    (loadResult : Except ArchiveError Unit) : Option (Reactor × Except String Unit) :=
  let r0 := r.ensureDisplay
  let (newBoard, r1) := r0.createEmptyMotherBoard
  let r2 := r1.emit (ReactorEffect.loadArchive newBoard filename)
  match loadResult with
  | Except.error (ArchiveError.xml msg) =>
    some (r2.destroyBoard newBoard, Except.error ("Cannot load setup, bad file format: " ++ msg))
  | Except.error (ArchiveError.msx msg) =>
    some (r2.destroyBoard newBoard, Except.error ("Cannot load setup: " ++ msg))
  | Except.ok _ =>
    match r2.installBoard newBoard with
    | none => none
    | some r3 => some (r3, Except.ok ())

/-- The command `create_machine` (`CreateMachineCommand::execute` without arguments):
the new board is tracked and its ID is the result. -/
def Reactor.create_machine (r : Reactor) : Reactor × String :=
  let (newBoard, r1) := r.createEmptyMotherBoard
  ({ r1 with boards := r1.boards ++ [newBoard] }, machineIDOf newBoard)

/-- The session operations of the lifecycle protocol. -/
inductive SessionOp
  | create_machine
  | switchBoard (newBoard : Option BoardPtr)
  | deleteBoard (board : Option BoardPtr)
  | replaceBoard (oldBoard : BoardPtr) (newBoard : BoardPtr)
  | switchMachine (machine : String) (loadResult : Except String Unit)
  | switchMachineFromSetup (filename : String) (loadResult : Except ArchiveError Unit)

/-- The conditions under which an operation is called: boards handed to
`switchBoard`, `deleteBoard` and (as old board) `replaceBoard` are tracked. -/
def SessionOp.pre (r : Reactor) : SessionOp → Prop
  | SessionOp.create_machine => True
  | SessionOp.switchBoard nb => nb = none ∨ ∃ b, nb = some b ∧ b ∈ r.boards
  | SessionOp.deleteBoard ob => ob = none ∨ ∃ b, ob = some b ∧ b ∈ r.boards
  | SessionOp.replaceBoard o _ => o ∈ r.boards
  | SessionOp.switchMachine _ _ => True
  | SessionOp.switchMachineFromSetup _ _ => True

/-- The state after an operation, whether it returned or threw. -/
def SessionOp.apply (r : Reactor) : SessionOp → Option Reactor
  | SessionOp.create_machine => some r.create_machine.1
  | SessionOp.switchBoard nb => some (r.switchBoard nb)
  | SessionOp.deleteBoard ob => r.deleteBoard ob
  | SessionOp.replaceBoard o n => r.replaceBoard o n
  | SessionOp.switchMachine m res => (r.switchMachine m res).map Prod.fst
  | SessionOp.switchMachineFromSetup f res => (r.switchMachineFromSetup f res).map Prod.fst

/-- The session states reachable from the initial state. -/
inductive Reactor.Reachable : Reactor → Prop
  | init : Reactor.Reachable Reactor.initial
  | step (r r' : Reactor) (op : SessionOp) :
      Reactor.Reachable r → op.pre r → op.apply r = some r' → Reactor.Reachable r'

/-- The active board is absent or tracked in the board vector. -/
def Reactor.activeTracked (r : Reactor) : Prop :=
  r.activeBoard = none ∨ ∃ a, r.activeBoard = some a ∧ a ∈ r.boards

/-! ## Board layer (`MSXMotherBoard.cc`) -/

/-- A device is referred to through its pointer. -/
abbrev DevicePtr := Nat

/-- The enumeration `HardwareConfig::Type`. -/
inductive ConfigType
  | MACHINE
  | EXTENSION
  | ROM
  deriving DecidableEq, Repr

/-- Modelled from the spec: `HardwareConfig` (declared in `HardwareConfig.hh`, used but
not defined in these sources) is "a parsed, validated description (name, kind) that
owns the set of Devices it instantiated".  The description also fixes what its
methods do when called: the devices `createDevices` instantiates in creation
order, and whether `parseSlots`, `createDevices` (after how many created devices)
and `testRemove` throw. -/
structure HardwareConfig where
  name : String
  configName : String
  type : ConfigType
  devices : List DevicePtr
  parseSlotsError : Option String
  createDevicesError : Option (Nat × String)
  testRemoveError : Option String
  deriving DecidableEq, Repr

/-- Effects of a board on its collaborators, in program order. -/
inductive BoardEffect
  /-- The call `getLedStatus().setLed(LedStatus::POWER, lit)`. -/
  | setPowerLed (lit : Bool)
  /-- The call `getCPUInterface().reset()`. -/
  | cpuInterfaceReset
  /-- The hook `d->powerUp(time)`; `powered` is the board flag a query from inside the hook sees. -/
  | devicePowerUp (d : DevicePtr) (time : Nat) (powered : Bool)
  /-- The hook `d->powerDown(time)`, with the board flag seen from inside the hook. -/
  | devicePowerDown (d : DevicePtr) (time : Nat) (powered : Bool)
  /-- The hook `d->reset(time)`. -/
  | deviceReset (d : DevicePtr) (time : Nat)
  /-- The call `getCPU().doReset(time)`. -/
  | cpuDoReset (time : Nat)
  /-- The call `msxMixer->mute()`. -/
  | mixerMute
  /-- The call `msxMixer->unmute()`. -/
  | mixerUnmute
  /-- The call `reactor.getEventDistributor().distributeEvent(BootEvent())`. -/
  | bootEvent
  /-- The call `getMSXCliComm().update(type, name, value)`. -/
  | cliUpdate (type : UpdateType) (name : String) (value : String)
  /-- The call `realTime->disable()`. -/
  | realTimeDisable
  /-- The call `realTime->enable()`. -/
  | realTimeEnable
  /-- The call `realTime->resync()`. -/
  | realTimeResync
  /-- The call `fastForwardHelper->setTarget(time)`, which is `setSyncPoint(time)`. -/
  | setSyncPoint (time : Nat)
  /-- The call `getCPU().execute(fastForward)`. -/
  | cpuExecute (fastForward : Bool)
  /-- The call `msxEventDistributor->distributeEvent` of a machine (de)activated event. -/
  | machineActivatedEvent (activated : Bool) (time : Nat)
  /-- Construction of `MSXCPU` and `MSXCPUInterface` in `setMachineConfig`. -/
  | createCPU
  /-- The call `getMSXCliComm().setSuppressMessages(value)`. -/
  | setSuppressMessages (value : Bool)
  /-- The call `connector->plug(pluggable, time)`, connector and pluggable given by name. -/
  | plug (connector : String) (pluggable : String) (time : Nat)
  /-- The call `provider->setMedia(info, time)` on the media provider of the given name. -/
  | setMedia (provider : String) (info : String) (time : Nat)
  /-- The line written to `std::cerr` when `deleteMachine` fails to remove an extension. -/
  | internalError (msg : String)
  /-- The call `msxMixer->reInit()` of the loader. -/
  | mixerReInit
  /-- The call `getCPU().exitCPULoopSync()`. -/
  | cpuExitLoopSync
  /-- The call `getCPU().exitCPULoopAsync()`. -/
  | cpuExitLoopAsync
  deriving DecidableEq, Repr

/-- The state of one board.  `machineConfig2` is the owning pointer of the machine
configuration and `machineConfig` the raw pointer read by `getMachineConfig()`;
`powerSetting` is the value of the power setting the board observes and
`currentTime` the scheduler time. -/
structure MSXMotherBoard where
  machineID : String
  machineName : String
  machineConfig2 : Option HardwareConfig
  machineConfig : Option HardwareConfig
  msxCpu : Bool
  extensions : List HardwareConfig
  availableDevices : List DevicePtr
  powered : Bool
  active : Bool
  fastForwarding : Bool
  powerSetting : Bool
  currentTime : Nat
  effects : List BoardEffect
  deriving DecidableEq, Repr

namespace MSXMotherBoard

/-- Append one effect to the board log. -/
def emit (b : MSXMotherBoard) (e : BoardEffect) : MSXMotherBoard :=
  { b with effects := b.effects ++ [e] }

/-- The board as its constructor leaves it: empty (no machine configuration, no
extensions, no devices), unpowered and not active.  `powerSetting` is the value
of the global power setting at that moment. -/
def create (machineID : String) (powerSetting : Bool) : MSXMotherBoard :=
  { machineID := machineID, machineName := "", machineConfig2 := none, machineConfig := none,
    msxCpu := false, extensions := [], availableDevices := [], powered := false,
    active := false, fastForwarding := false, powerSetting := powerSetting, currentTime := 0,
    effects := [] }

/-- The loop `for (auto& d : availableDevices) hook(d)`: the hooks run in list
order over the device list as it is when the loop starts. -/
def forEachDevice (b : MSXMotherBoard) (hook : MSXMotherBoard → DevicePtr → BoardEffect) :
    MSXMotherBoard :=
  b.availableDevices.foldl (fun acc d => acc.emit (hook acc d)) b

/-- The method `MSXMotherBoard::addDevice`. -/
def addDevice (b : MSXMotherBoard) (device : DevicePtr) : MSXMotherBoard :=
  { b with availableDevices := b.availableDevices ++ [device] }

/-- The method `MSXMotherBoard::removeDevice`; `none` when the device is not registered. -/
def removeDevice (b : MSXMotherBoard) (device : DevicePtr) : Option MSXMotherBoard :=
  match rfind_unguarded b.availableDevices device with
  | none => none
  | some it => some { b with availableDevices := move_pop_back b.availableDevices it }

/-- The method `MSXMotherBoard::doReset`. -/
def doReset (b : MSXMotherBoard) : MSXMotherBoard :=
  if !b.powered then b
  else
    let time := b.currentTime
    let b1 := b.emit BoardEffect.cpuInterfaceReset
    let b2 := b1.forEachDevice (fun _ d => BoardEffect.deviceReset d time)
    let b3 := b2.emit (BoardEffect.cpuDoReset time)
    b3.emit BoardEffect.bootEvent

mutual
/-- The method `MSXMotherBoard::powerUp`.  The fuel bounds the depth of the calls
that re-enter the board through the observer of the power setting. -/
def powerUp : Nat → MSXMotherBoard → Option MSXMotherBoard
  | 0, _ => none
  | fuel + 1, b =>
    if b.powered then some b
    else if b.machineConfig.isNone then some b
    else
      let b1 := { b with powered := true }
      match powerSetting_setBoolean fuel true b1 with
      | none => none
      | some b2 =>
        let b3 := b2.emit (BoardEffect.setPowerLed true)
        let time := b3.currentTime
        let b4 := b3.emit BoardEffect.cpuInterfaceReset
        let b5 := b4.forEachDevice (fun acc d => BoardEffect.devicePowerUp d time acc.powered)
        let b6 := b5.emit (BoardEffect.cpuDoReset time)
        let b7 := b6.emit BoardEffect.mixerUnmute
        some (b7.emit BoardEffect.bootEvent)
/-- The method `MSXMotherBoard::powerDown`. -/
def powerDown : Nat → MSXMotherBoard → Option MSXMotherBoard
  | 0, _ => none
  | fuel + 1, b =>
    if !b.powered then some b
    else
      let b1 := { b with powered := false }
      match powerSetting_setBoolean fuel false b1 with
      | none => none
      | some b2 =>
        let b3 := b2.emit (BoardEffect.setPowerLed false)
        let b4 := b3.emit BoardEffect.mixerMute
        let time := b4.currentTime
        some (b4.forEachDevice (fun acc d => BoardEffect.devicePowerDown d time acc.powered))
/-- Modelled from the spec: `powerSetting.setBoolean(v)` (`BooleanSetting` is not among
these sources) stores the value and, when the value changed, notifies the
board's observer ("an observer reacting to a boolean setting change"). -/
def powerSetting_setBoolean : Nat → Bool → MSXMotherBoard → Option MSXMotherBoard
  | 0, _, _ => none
  | fuel + 1, v, b =>
    if b.powerSetting = v then some b
    else SettingObserver_update fuel { b with powerSetting := v }
/-- The method `SettingObserver::update` for the power setting. -/
def SettingObserver_update : Nat → MSXMotherBoard → Option MSXMotherBoard
  | 0, _ => none
  | fuel + 1, b =>
    if b.powerSetting then powerUp fuel b else powerDown fuel b
end

/-- The method `MSXMotherBoard::activate`. -/
def activate (b : MSXMotherBoard) (active_ : Bool) : MSXMotherBoard :=
  let b1 := { b with active := active_ }
  let b2 := b1.emit (BoardEffect.machineActivatedEvent b1.active b1.currentTime)
  if b2.active then b2.emit BoardEffect.realTimeResync else b2

/-- One call `getCPU().execute(fastForward)`: the CPU runs until it is asked to
leave its loop; `cpu` gives the scheduler time at which it returns. -/
def cpuExecute (cpu : Nat → Nat) (b : MSXMotherBoard) (fastForward : Bool) : MSXMotherBoard :=
  { b with currentTime := cpu b.currentTime,
           effects := b.effects ++ [BoardEffect.cpuExecute fastForward] }

/-- The loop `while (time > getCurrentTime()) getCPU().execute(true)` of `fastForward`;
`none` when the fuel is used up before the loop ends. -/
def fastForwardLoop (cpu : Nat → Nat) (time : Nat) : Nat → MSXMotherBoard → Option MSXMotherBoard
  | fuel, b =>
    if time > b.currentTime then
      match fuel with
      | 0 => none
      | fuel + 1 => fastForwardLoop cpu time fuel (b.cpuExecute cpu true)
    else some b

/-- The assertions at the head of `MSXMotherBoard::fastForward`. -/
def fastForwardAsserts (b : MSXMotherBoard) : Prop :=
  b.powered = true ∧ b.machineConfig.isSome = true

/-- The method `MSXMotherBoard::fastForward`. -/
def fastForward (cpu : Nat → Nat) (fuel : Nat) (b : MSXMotherBoard) (time : Nat) (fast : Bool) :
    Option MSXMotherBoard :=
  if time ≤ b.currentTime then some b
  else
    let saved := b.fastForwarding
    let b1 := { b with fastForwarding := fast }
    let b2 := b1.emit BoardEffect.realTimeDisable
    let b3 := b2.emit BoardEffect.mixerMute
    let b4 := b3.emit (BoardEffect.setSyncPoint time)
    match fastForwardLoop cpu time fuel b4 with
    | none => none
    | some b5 =>
      let b6 := b5.emit BoardEffect.realTimeEnable
      let b7 := b6.emit BoardEffect.mixerUnmute
      some { b7 with fastForwarding := saved }

end MSXMotherBoard

/-- The method `HardwareConfig::parseSlots`, which throws when the description says so. -/
def HardwareConfig.parseSlots (c : HardwareConfig) : Except String Unit :=
  match c.parseSlotsError with
  | some msg => Except.error msg
  | none => Except.ok ()

/-- The method `HardwareConfig::createDevices`: the devices are instantiated in
order and each one is registered with `addDevice`; when the description makes
the creation fail after `k` devices, the exception leaves with those `k`
devices registered.  The result holds the board, the devices created and the
outcome. -/
def HardwareConfig.createDevices (c : HardwareConfig) (b : MSXMotherBoard) :
    MSXMotherBoard × List DevicePtr × Except String Unit :=
  match c.createDevicesError with
  | none => (c.devices.foldl MSXMotherBoard.addDevice b, c.devices, Except.ok ())
  | some (k, msg) =>
    ((c.devices.take k).foldl MSXMotherBoard.addDevice b, c.devices.take k, Except.error msg)

/-- Modelled from the spec: the destructor of `HardwareConfig` (not among these
sources) has to "destroy devices in reverse creation order", and a destroyed
device leaves the board through `removeDevice`. -/
def HardwareConfig.destroyDevices : List DevicePtr → MSXMotherBoard → Option MSXMotherBoard
  | created, b => created.reverse.foldlM MSXMotherBoard.removeDevice b

/-- The two kinds of exception caught around `HardwareConfig::createMachineConfig`. -/
inductive ConfigError
  | file (msg : String)
  | msx (msg : String)
  deriving DecidableEq, Repr

namespace MSXMotherBoard

/-- The assertions at the head of `MSXMotherBoard::loadMachine`. -/
def loadMachineAsserts (b : MSXMotherBoard) : Prop :=
  b.machineName = "" ∧ b.extensions = [] ∧ b.machineConfig2 = none ∧ b.machineConfig = none

/-- The method `MSXMotherBoard::setMachineConfig`. -/
def setMachineConfig (b : MSXMotherBoard) (machineConfig_ : HardwareConfig) : MSXMotherBoard :=
  { b with machineConfig := some machineConfig_, msxCpu := true,
           effects := b.effects ++ [BoardEffect.createCPU] }

/-- The method `MSXMotherBoard::loadMachine`.  `createMachineConfig` stands for
`HardwareConfig::createMachineConfig`, the loader of machine descriptions.  The
result is the board after the call and either the returned machine name or the
message of the exception thrown. -/
def loadMachine (createMachineConfig : String → Except ConfigError HardwareConfig)
    (fuel : Nat) (b : MSXMotherBoard) (machine : String) :
    Option (MSXMotherBoard × Except String String) :=
  match createMachineConfig machine with
  | Except.error (ConfigError.file msg) =>
    some (b, Except.error ("Machine \"" ++ machine ++ "\" not found: " ++ msg))
  | Except.error (ConfigError.msx msg) =>
    some (b, Except.error ("Error in \"" ++ machine ++ "\" machine: " ++ msg))
  | Except.ok cfg =>
    let b1 := { b with machineConfig2 := some cfg }
    let b2 := b1.setMachineConfig cfg
    match cfg.parseSlots with
    | Except.error msg =>
      some (b2, Except.error ("Error in \"" ++ machine ++ "\" machine: " ++ msg))
    | Except.ok _ =>
      match cfg.createDevices b2 with
      | (b3, _, Except.error msg) =>
        some (b3, Except.error ("Error in \"" ++ machine ++ "\" machine: " ++ msg))
      | (b3, _, Except.ok _) =>
        match (if b3.powerSetting then b3.powerUp fuel else some b3) with
        | none => none
        | some b4 => some ({ b4 with machineName := machine }, Except.ok machine)

/-- The method `MSXMotherBoard::insertExtension`.  When the `try` block throws, the
extension, owned by the parameter, is destroyed while the exception leaves. -/
def insertExtension (b : MSXMotherBoard) (name : String) (extension : HardwareConfig) :
    Option (MSXMotherBoard × Except String String) :=
  match extension.parseSlots with
  | Except.error msg =>
    some (b, Except.error ("Error in \"" ++ name ++ "\" extension: " ++ msg))
  | Except.ok _ =>
    match extension.createDevices b with
    | (b1, created, Except.error msg) =>
      match HardwareConfig.destroyDevices created b1 with
      | none => none
      | some b2 => some (b2, Except.error ("Error in \"" ++ name ++ "\" extension: " ++ msg))
    | (b1, _, Except.ok _) =>
      let result := extension.name
      let b2 := { b1 with extensions := b1.extensions ++ [extension] }
      let b3 := b2.emit (BoardEffect.cliUpdate UpdateType.EXTENSION result "add")
      some (b3, Except.ok result)

end MSXMotherBoard

/-- The exceptions that leave a command: the argument-count error raised by
`checkNumArgs`, a `CommandException` with a message, any other `MSXException`, or
a `SyntaxError`. -/
inductive CommandError
  | wrongNumArgs (usage : String)
  | command (msg : String)
  | msx (msg : String)
  | syntaxError
  deriving DecidableEq, Repr

/-- The method `LoadMachineCmd::execute`; `tokens` holds the command name and its arguments. -/
def LoadMachineCmd.execute (createMachineConfig : String → Except ConfigError HardwareConfig)
    (fuel : Nat) (motherBoard : MSXMotherBoard) (tokens : List String) :
    Option (MSXMotherBoard × Except CommandError String) :=
  if tokens.length ≠ 2 then some (motherBoard, Except.error (CommandError.wrongNumArgs "machine"))
  else if motherBoard.machineConfig.isSome then
    some (motherBoard, Except.error (CommandError.command "Already loaded a config in this machine."))
  else
    match motherBoard.loadMachine createMachineConfig fuel (tokens.getD 1 "") with
    | none => none
    | some (b, Except.error msg) => some (b, Except.error (CommandError.msx msg))
    | some (b, Except.ok result) => some (b, Except.ok result)

/-! ## Histories of the device list -/

/-- A call that changes the device list of a board. -/
inductive DeviceOp
  | addDevice (d : DevicePtr)
  | removeDevice (d : DevicePtr)
  deriving DecidableEq, Repr

/-- The board after a history of `addDevice`/`removeDevice` calls. -/
def MSXMotherBoard.applyDeviceOps : List DeviceOp → MSXMotherBoard → Option MSXMotherBoard
  | [], b => some b
  | DeviceOp.addDevice d :: ops, b => MSXMotherBoard.applyDeviceOps ops (b.addDevice d)
  | DeviceOp.removeDevice d :: ops, b =>
    match b.removeDevice d with
    | none => none
    | some b1 => MSXMotherBoard.applyDeviceOps ops b1

/-- A history is well formed when a device is registered only while it is not
installed and removed only while it is installed. -/
def DeviceOp.wellFormed : List DeviceOp → List DevicePtr → Bool
  | [], _ => true
  | DeviceOp.addDevice d :: ops, installed =>
    !(installed.contains d) && DeviceOp.wellFormed ops (installed ++ [d])
  | DeviceOp.removeDevice d :: ops, installed =>
    installed.contains d && DeviceOp.wellFormed ops (installed.erase d)

/-- The installed devices in the order in which they were registered with
`addDevice`, as the specification words it: a removed device drops out and the
others keep their relative order. -/
def DeviceOp.registrationOrder : List DeviceOp → List DevicePtr → List DevicePtr
  | [], installed => installed
  | DeviceOp.addDevice d :: ops, installed => DeviceOp.registrationOrder ops (installed ++ [d])
  | DeviceOp.removeDevice d :: ops, installed => DeviceOp.registrationOrder ops (installed.erase d)

/-- The devices whose hook of the given kind was invoked, in invocation order. -/
def BoardEffect.hookDevice? (kind : Nat) : BoardEffect → Option DevicePtr
  | BoardEffect.devicePowerUp d _ _ => if kind = 0 then some d else none
  | BoardEffect.devicePowerDown d _ _ => if kind = 1 then some d else none
  | BoardEffect.deviceReset d _ => if kind = 2 then some d else none
  | _ => none

/-- The devices of the `powerUp` hooks in a log, in invocation order. -/
def poweredUpDevices (log : List BoardEffect) : List DevicePtr :=
  log.filterMap (BoardEffect.hookDevice? 0)

/-- The devices of the `powerDown` hooks in a log, in invocation order. -/
def poweredDownDevices (log : List BoardEffect) : List DevicePtr :=
  log.filterMap (BoardEffect.hookDevice? 1)

/-- The devices of the `reset` hooks in a log, in invocation order. -/
def resetDevices (log : List BoardEffect) : List DevicePtr :=
  log.filterMap (BoardEffect.hookDevice? 2)

/-! ## Extensions: lookup, removal and the extension commands

A reference to an installed extension is modelled by the position of the
extension in the extension vector: every entry of the vector owns its own
configuration, so a search for the address of an installed extension ends at
exactly that position.
-/

/-- The method `HardwareConfig::testRemove`, which throws when the description says so. -/
def HardwareConfig.testRemove (c : HardwareConfig) : Except String Unit :=
  match c.testRemoveError with
  | some msg => Except.error msg
  | none => Except.ok ()

namespace MSXMotherBoard

/-- The method `MSXMotherBoard::findExtension`: the first installed extension with
the given name, `none` for the null pointer. -/
def findExtension (b : MSXMotherBoard) (extensionName : String) : Option Nat :=
  findFrom extensionName (b.extensions.map HardwareConfig.name) 0

/-- The method `MSXMotherBoard::removeExtension`, called with a reference to the
extension at position `extension`; `none` when that is no installed extension
(the unguarded search) or when a device of the extension is not registered.
Erasing the entry destroys the configuration, which destroys its devices. -/
def removeExtension (b : MSXMotherBoard) (extension : Nat) :
    Option (MSXMotherBoard × Except String Unit) :=
  match b.extensions.get? extension with
  | none => none
  | some ext =>
    match ext.testRemove with
    | Except.error msg => some (b, Except.error msg)
    | Except.ok _ =>
      let b1 := b.emit (BoardEffect.cliUpdate UpdateType.EXTENSION ext.name "remove")
      let b2 := { b1 with extensions := b1.extensions.eraseIdx extension }
      match HardwareConfig.destroyDevices ext.devices b2 with
      | none => none
      | some b3 => some (b3, Except.ok ())

/-- The method `MSXMotherBoard::loadExtension`.  `createExtensionConfig` stands for
`HardwareConfig::createExtensionConfig`, the loader of extension descriptions,
called with the name and the slot name. -/
def loadExtension (createExtensionConfig : String → String → Except ConfigError HardwareConfig)
    (name : String) (slotName : String) : Except String HardwareConfig :=
  match createExtensionConfig name slotName with
  | Except.error (ConfigError.file msg) =>
    Except.error ("Extension \"" ++ name ++ "\" not found: " ++ msg)
  | Except.error (ConfigError.msx msg) =>
    Except.error ("Error in \"" ++ name ++ "\" extension: " ++ msg)
  | Except.ok cfg => Except.ok cfg

end MSXMotherBoard

/-- The method `RemoveExtCmd::execute`; `tokens` holds the command name and its arguments. -/
def RemoveExtCmd.execute (motherBoard : MSXMotherBoard) (tokens : List String) :
    Option (MSXMotherBoard × Except CommandError Unit) :=
  if tokens.length ≠ 2 then
    some (motherBoard, Except.error (CommandError.wrongNumArgs "extension"))
  else
    let extName := tokens.getD 1 ""
    match motherBoard.findExtension extName with
    | none => some (motherBoard, Except.error (CommandError.command ("No such extension: " ++ extName)))
    | some extension =>
      match motherBoard.removeExtension extension with
      | none => none
      | some (b, Except.error msg) =>
        some (b, Except.error
          (CommandError.command ("Can't remove extension '" ++ extName ++ "': " ++ msg)))
      | some (b, Except.ok _) => some (b, Except.ok ())

/-- The slot name of an extension command: the fourth character of a command name
of four characters (`exta` ... `extp`), else `any`. -/
def ExtCmd.slotName (commandName : String) : String :=
  if commandName.length = 4 then String.singleton (commandName.data.getD 3 'a') else "any"

/-- The method `ExtCmd::execute`.  `getConfigForSlot` stands for the query of the
cartridge slot manager (not among these sources): the installed extension that
occupies the slot, if any. -/
def ExtCmd.execute (createExtensionConfig : String → String → Except ConfigError HardwareConfig)
    (getConfigForSlot : Nat → Option Nat) (motherBoard : MSXMotherBoard) (commandName : String)
    (tokens : List String) : Option (MSXMotherBoard × Except CommandError String) :=
  if ¬ (2 ≤ tokens.length ∧ tokens.length ≤ 3) then
    some (motherBoard, Except.error (CommandError.wrongNumArgs "extension"))
  else if tokens.length = 3 ∧ tokens.getD 1 "" ≠ "insert" then
    some (motherBoard, Except.error CommandError.syntaxError)
  else
    let name := tokens.getD (tokens.length - 1) ""
    let slotName := ExtCmd.slotName commandName
    match MSXMotherBoard.loadExtension createExtensionConfig name slotName with
    | Except.error msg => some (motherBoard, Except.error (CommandError.command msg))
    | Except.ok extension =>
      let removed : Option (MSXMotherBoard × Except String Unit) :=
        if slotName ≠ "any" then
          match getConfigForSlot ((commandName.data.getD 3 'a').toNat - 'a'.toNat) with
          | some extConf => motherBoard.removeExtension extConf
          | none => some (motherBoard, Except.ok ())
        else some (motherBoard, Except.ok ())
      match removed with
      | none => none
      | some (b1, Except.error msg) => some (b1, Except.error (CommandError.command msg))
      | some (b1, Except.ok _) =>
        match b1.insertExtension name extension with
        | none => none
        | some (b2, Except.error msg) => some (b2, Except.error (CommandError.command msg))
        | some (b2, Except.ok result) => some (b2, Except.ok result)

/-! ## Storing a setup (`MSXMotherBoard::storeAsSetup`) -/

/-- The enumeration `SetupDepth`, in its order. -/
inductive SetupDepth
  | NONE
  | MACHINE
  | EXTENSIONS
  | CONNECTORS
  | MEDIA
  | COMPLETE_STATE
  deriving DecidableEq, Repr

/-- The rank of a depth in the enumeration order, used for `depth >= ...`. -/
def SetupDepth.toNat : SetupDepth → Nat
  | SetupDepth.NONE => 0
  | SetupDepth.MACHINE => 1
  | SetupDepth.EXTENSIONS => 2
  | SetupDepth.CONNECTORS => 3
  | SetupDepth.MEDIA => 4
  | SetupDepth.COMPLETE_STATE => 5

/-- What `storeAsSetup` does to the `XmlOutputArchive`. -/
inductive ArchiveEffect
  /-- The construction `XmlOutputArchive out(filename)`, which creates the file. -/
  | create (filename : String)
  /-- The call `out.serialize("machine", board)`. -/
  | serialize (board : MSXMotherBoard)
  /-- The call `out.close()`. -/
  | close
  deriving DecidableEq, Repr

/-- The collaborators of `storeAsSetup` that are not among these sources, taken as
parameters: the loaders of machine and extension descriptions for the
temporary board; the slot manager of the stored board (`findSlotWith`, by
position of the extension); the connectors of the stored board as pairs of
connector name and name of what is plugged (empty when nothing is);
`findConnector` and `findPluggable` of the plugging controller of the temporary
board and the outcome of `plug`; the media providers of the stored board as
pairs of name and media info; `findMediaProvider` of the temporary board and
the outcome of `setMedia`. -/
structure SetupEnv where
  createMachineConfig : String → Except ConfigError HardwareConfig
  createExtensionConfig : String → String → Except ConfigError HardwareConfig
  findSlotWith : Nat → Option Nat
  connectors : List (String × String)
  findConnector : String → Bool
  findPluggable : String → Bool
  plug : String → String → Except String Unit
  mediaProviders : List (String × String)
  findMediaProvider : String → Bool
  setMedia : String → String → Except String Unit

/-- What a call of `storeAsSetup` did: the session after the call, the archive
effects, the temporary board in its last state (if one was constructed), the
pairs of configuration name and slot specification that were loaded and
inserted into it, and whether the call returned or threw. -/
structure SetupStore where
  reactor : Reactor
  archive : List ArchiveEffect
  newBoard : Option MSXMotherBoard
  inserted : List (String × String)
  outcome : Except String Unit

/-- The slot specification `slot ? std::string(1, char('a' + *slot)) : "any"`. -/
def slotSpecOf : Option Nat → String
  | some slot => String.singleton (Char.ofNat ('a'.toNat + slot))
  | none => "any"

namespace MSXMotherBoard

/-- The loop of `storeAsSetup` over the extensions of the stored board, from
position `i` on; `newBoard` is the temporary board and `inserted` the pairs
loaded and inserted so far.  An exception of `loadExtension` or
`insertExtension` leaves the loop. -/
def storeExtensions (env : SetupEnv) :
    Nat → List HardwareConfig → MSXMotherBoard → List (String × String) →
    Option (MSXMotherBoard × List (String × String) × Except String Unit)
  | _, [], newBoard, inserted => some (newBoard, inserted, Except.ok ())
  | i, extension :: rest, newBoard, inserted =>
    if extension.type = ConfigType.EXTENSION then
      let configName := extension.configName
      let slotSpec := slotSpecOf (env.findSlotWith i)
      match loadExtension env.createExtensionConfig configName slotSpec with
      | Except.error msg => some (newBoard, inserted, Except.error msg)
      | Except.ok extConfig =>
        match newBoard.insertExtension configName extConfig with
        | none => none
        | some (nb, Except.error msg) => some (nb, inserted, Except.error msg)
        | some (nb, Except.ok _) =>
          storeExtensions env (i + 1) rest nb (inserted ++ [(configName, slotSpec)])
    else storeExtensions env (i + 1) rest newBoard inserted

/-- The loop of `storeAsSetup` over the connectors of the stored board. -/
def storeConnectors (env : SetupEnv) (newTime : Nat) :
    List (String × String) → MSXMotherBoard → MSXMotherBoard × Except String Unit
  | [], newBoard => (newBoard, Except.ok ())
  | (connectorName, pluggedName) :: rest, newBoard =>
    if pluggedName ≠ "" then
      if env.findConnector connectorName then
        if env.findPluggable pluggedName then
          match env.plug connectorName pluggedName with
          | Except.error msg => (newBoard, Except.error msg)
          | Except.ok _ =>
            storeConnectors env newTime rest
              (newBoard.emit (BoardEffect.plug connectorName pluggedName newTime))
        else storeConnectors env newTime rest newBoard
      else storeConnectors env newTime rest newBoard
    else storeConnectors env newTime rest newBoard

/-- The loop of `storeAsSetup` over the media providers of the stored board. -/
def storeMedia (env : SetupEnv) (newTime : Nat) :
    List (String × String) → MSXMotherBoard → MSXMotherBoard × Except String Unit
  | [], newBoard => (newBoard, Except.ok ())
  | (name, info) :: rest, newBoard =>
    if env.findMediaProvider name then
      match env.setMedia name info with
      | Except.error msg => (newBoard, Except.error msg)
      | Except.ok _ =>
        storeMedia env newTime rest (newBoard.emit (BoardEffect.setMedia name info newTime))
    else storeMedia env newTime rest newBoard

/-- The method `MSXMotherBoard::storeAsSetup` of the board `b` in the session
`reactor`.  The temporary board is constructed by the session and destroyed
when the method is left. -/
def storeAsSetup (env : SetupEnv) (fuel : Nat) (reactor : Reactor) (b : MSXMotherBoard)
    (filename : String) (depth : SetupDepth) : Option SetupStore :=
  if depth = SetupDepth.NONE then
    some { reactor := reactor, archive := [], newBoard := none, inserted := [],
           outcome := Except.ok () }
  else if depth = SetupDepth.COMPLETE_STATE then
    some { reactor := reactor,
           archive := [ArchiveEffect.create filename, ArchiveEffect.serialize b,
                       ArchiveEffect.close],
           newBoard := none, inserted := [], outcome := Except.ok () }
  else
    let created := reactor.createEmptyMotherBoard
    let left := created.2.destroyBoard created.1
    let failed (nb : MSXMotherBoard) (inserted : List (String × String)) (msg : String) :
        SetupStore :=
      { reactor := left, archive := [ArchiveEffect.create filename], newBoard := some nb,
        inserted := inserted, outcome := Except.error msg }
    match (create (machineIDOf created.1) b.powerSetting).loadMachine
        env.createMachineConfig fuel b.machineName with
    | none => none
    | some (nb1, Except.error msg) => some (failed nb1 [] msg)
    | some (nb1, Except.ok _) =>
      let newTime := nb1.currentTime
      match (if SetupDepth.EXTENSIONS.toNat ≤ depth.toNat then
               storeExtensions env 0 b.extensions
                 (nb1.emit (BoardEffect.setSuppressMessages true)) []
             else some (nb1, [], Except.ok ())) with
      | none => none
      | some (nb2, inserted, Except.error msg) => some (failed nb2 inserted msg)
      | some (nb2, inserted, Except.ok _) =>
        match (if SetupDepth.CONNECTORS.toNat ≤ depth.toNat then
                 storeConnectors env newTime env.connectors nb2
               else (nb2, Except.ok ())) with
        | (nb3, Except.error msg) => some (failed nb3 inserted msg)
        | (nb3, Except.ok _) =>
          match (if SetupDepth.MEDIA.toNat ≤ depth.toNat then
                   storeMedia env newTime env.mediaProviders nb3
                 else (nb3, Except.ok ())) with
          | (nb4, Except.error msg) => some (failed nb4 inserted msg)
          | (nb4, Except.ok _) =>
            some { reactor := left,
                   archive := [ArchiveEffect.create filename, ArchiveEffect.serialize nb4,
                               ArchiveEffect.close],
                   newBoard := some nb4, inserted := inserted, outcome := Except.ok () }

end MSXMotherBoard

/-- The table `depthOptionMap` of the `store_setup` command. -/
def depthOptionMap : List (String × SetupDepth) :=
  [("none", SetupDepth.NONE), ("machine", SetupDepth.MACHINE),
   ("extensions", SetupDepth.EXTENSIONS), ("connectors", SetupDepth.CONNECTORS),
   ("media", SetupDepth.MEDIA), ("complete_state", SetupDepth.COMPLETE_STATE)]

/-- The method `StoreSetupCmd::execute`.  `parseCommandFileArgument` stands for
`FileOperations::parseCommandFileArgument`, called with the file name argument
and the machine name; it computes the file name or throws.  The result holds
what `storeAsSetup` did, when it was called, and the command result. -/
def StoreSetupCmd.execute (env : SetupEnv)
    (parseCommandFileArgument : String → String → Except String String) (fuel : Nat)
    (reactor : Reactor) (motherBoard : MSXMotherBoard) (tokens : List String) :
    Option (Option SetupStore × Except CommandError String) :=
  if ¬ (2 ≤ tokens.length ∧ tokens.length ≤ 3) then
    some (none, Except.error (CommandError.wrongNumArgs "depth ?filename?"))
  else
    let depthArg := tokens.getD 1 ""
    match depthOptionMap.lookup depthArg with
    | none => some (none, Except.error (CommandError.command ("Unknown depth argument: " ++ depthArg)))
    | some depth =>
      if depth = SetupDepth.NONE then some (none, Except.ok "")
      else
        let filenameArg := if tokens.length = 3 then tokens.getD 2 "" else ""
        match parseCommandFileArgument filenameArg motherBoard.machineName with
        | Except.error msg => some (none, Except.error (CommandError.msx msg))
        | Except.ok filename =>
          match motherBoard.storeAsSetup env fuel reactor filename depth with
          | none => none
          | some store =>
            match store.outcome with
            | Except.error msg => some (some store, Except.error (CommandError.msx msg))
            | Except.ok _ => some (some store, Except.ok filename)

/-- The pairs of configuration name and slot specification of the installed
extensions of type EXTENSION, in list order from position `i` on, as the
specification words what a stored setup reinserts. -/
def setupExtensionRequests (env : SetupEnv) (i : Nat) (extensions : List HardwareConfig) :
    List (String × String) :=
  ((extensions.enumFrom i).filter (fun p => decide (p.2.type = ConfigType.EXTENSION))).map
    (fun p => (p.2.configName, slotSpecOf (env.findSlotWith p.1)))

/-- The method `RestoreMachineCommand::execute`.  `expandTilde` stands for
`FileOperations::expandTilde` and `loadResult` is the outcome of reading the
archive into the new board.  The result is the session after the command and
the command result. -/
def RestoreMachineCommand.execute (expandTilde : String → String) (r : Reactor)
    (tokens : List String) (loadResult : Except ArchiveError Unit) :
    Reactor × Except CommandError String :=
  if tokens.length ≠ 2 then (r, Except.error (CommandError.wrongNumArgs "filename"))
  else
    let created := r.createEmptyMotherBoard
    let newBoard := created.1
    let filename := expandTilde (tokens.getD 1 "")
    let r2 := created.2.emit (ReactorEffect.loadArchive newBoard filename)
    match loadResult with
    | Except.error (ArchiveError.xml msg) =>
      (r2.destroyBoard newBoard,
        Except.error (CommandError.command ("Cannot load state, bad file format: " ++ msg)))
    | Except.error (ArchiveError.msx msg) =>
      (r2.destroyBoard newBoard,
        Except.error (CommandError.command ("Cannot load state: " ++ msg)))
    | Except.ok _ =>
      let r3 := r2.emit (ReactorEffect.stopReplay newBoard)
      ({ r3 with boards := r3.boards ++ [newBoard] }, Except.ok (machineIDOf newBoard))

/-! ## The run loop (`Reactor::run`) -/

/-- The method `MSXMotherBoard::execute`: the board after the call and the value returned. -/
def MSXMotherBoard.execute (cpu : Nat → Nat) (b : MSXMotherBoard) : MSXMotherBoard × Bool :=
  if !b.powered then (b, false)
  else (b.cpuExecute cpu false, true)

/-- The board objects behind the board pointers of a session. -/
abbrev BoardStore := BoardPtr → MSXMotherBoard

/-- The store in which the board behind `p` is `b`. -/
def BoardStore.update (store : BoardStore) (p : BoardPtr) (b : MSXMotherBoard) : BoardStore :=
  fun q => if q = p then b else store q

/-- One pass through the body of the loop of `Reactor::run`.  `deliverEvents` stands
for what the handlers of the queued events do to the session and its boards. -/
def Reactor.runBody (deliverEvents : Reactor × BoardStore → Reactor × BoardStore)
    (cpu : Nat → Nat) (s : Reactor × BoardStore) : Reactor × BoardStore :=
  let delivered := deliverEvents (s.1.emit ReactorEffect.deliverEvents, s.2)
  let r1 := delivered.1
  let store1 := delivered.2
  let blocked := decide (r1.blockedCounter > 0) || r1.activeBoard.isNone
  let ran : Reactor × BoardStore × Bool :=
    if !blocked then
      match r1.activeBoard with
      | some copy =>
        let res := (store1 copy).execute cpu
        (r1.emit (ReactorEffect.execute copy), store1.update copy res.1, !res.2)
      | none => (r1, store1, blocked)
    else (r1, store1, blocked)
  if ran.2.2 then (ran.1.emit (ReactorEffect.sleep (20 * 1000)), ran.2.1)
  else (ran.1, ran.2.1)

/-- The method `Reactor::run`: the loop `while (running)`; `none` when the fuel is
used up before `running` is cleared. -/
def Reactor.run (deliverEvents : Reactor × BoardStore → Reactor × BoardStore)
    (cpu : Nat → Nat) : Nat → Reactor × BoardStore → Option (Reactor × BoardStore)
  | fuel, s =>
    if s.1.running then
      match fuel with
      | 0 => none
      | fuel + 1 => Reactor.run deliverEvents cpu fuel (Reactor.runBody deliverEvents cpu s)
    else some s

/-! ## Pause and block accounting (`Reactor::pause`, `unpause`, `block`, `unblock`) -/

/-- The assertion `assert(getMachineConfig())` of `MSXMotherBoard::getCPU`. -/
def MSXMotherBoard.getCPUAsserts (b : MSXMotherBoard) : Prop :=
  b.machineConfig.isSome = true

/-- The method `MSXMotherBoard::exitCPULoopSync`: it calls `getCPU()`, which returns
`*msxCpu`, without a guard.  `none` stands for the dereference of the null
pointer on a board whose CPU was never constructed, which is every board
without a machine configuration (there the assertion of `getCPU` fails too). -/
def MSXMotherBoard.exitCPULoopSync (b : MSXMotherBoard) : Option MSXMotherBoard :=
  if b.msxCpu then some (b.emit BoardEffect.cpuExitLoopSync) else none

/-- The method `MSXMotherBoard::exitCPULoopAsync`: the call of `getCPU()` is guarded
by `getMachineConfig()`. -/
def MSXMotherBoard.exitCPULoopAsync (b : MSXMotherBoard) : Option MSXMotherBoard :=
  if b.machineConfig.isSome then
    if b.msxCpu then some (b.emit BoardEffect.cpuExitLoopAsync) else none
  else some b

/-- The method `Reactor::enterMainLoop` on the session and its boards; `isMainThread`
is the value of `Thread::isMainThread()` for the calling thread.  `none` when
the call on the active board does not return. -/
def Reactor.enterMainLoop (isMainThread : Bool) (s : Reactor × BoardStore) :
    Option (Reactor × BoardStore) :=
  match s.1.activeBoard with
  | some a =>
    if isMainThread then
      match (s.2 a).exitCPULoopSync with
      | none => none
      | some b => some (s.1.emit (ReactorEffect.exitCPULoopSync a), s.2.update a b)
    else
      match (s.2 a).exitCPULoopAsync with
      | none => none
      | some b => some (s.1.emit (ReactorEffect.exitCPULoopAsync a), s.2.update a b)
  | none => some s

/-- The method `Reactor::block`. -/
def Reactor.block (isMainThread : Bool) (s : Reactor × BoardStore) :
    Option (Reactor × BoardStore) :=
  let s1 : Reactor × BoardStore := ({ s.1 with blockedCounter := s.1.blockedCounter + 1 }, s.2)
  match Reactor.enterMainLoop isMainThread s1 with
  | none => none
  | some s2 => some (s2.1.emit ReactorEffect.mixerMute, s2.2)

/-- The assertion inside `Reactor::unblock`, read on the state before the call. -/
def Reactor.unblockAsserts (r : Reactor) : Prop :=
  0 ≤ r.blockedCounter - 1

/-- The method `Reactor::unblock`. -/
def Reactor.unblock (r : Reactor) : Reactor :=
  let r1 := { r with blockedCounter := r.blockedCounter - 1 }
  r1.emit ReactorEffect.mixerUnmute

/-- The method `Reactor::pause`. -/
def Reactor.pause (isMainThread : Bool) (s : Reactor × BoardStore) :
    Option (Reactor × BoardStore) :=
  if !s.1.paused then
    let r1 := { s.1 with paused := true }
    let r2 := r1.emit (ReactorEffect.cliUpdate UpdateType.STATUS "paused" "true")
    Reactor.block isMainThread (r2, s.2)
  else some s

/-- The method `Reactor::unpause`. -/
def Reactor.unpause (r : Reactor) : Reactor :=
  if r.paused then
    let r1 := { r with paused := false }
    let r2 := r1.emit (ReactorEffect.cliUpdate UpdateType.STATUS "paused" "false")
    r2.unblock
  else r

/-- One call of the pause and block interface. -/
inductive PauseOp
  | pause
  | unpause
  | block
  | unblock
  deriving DecidableEq, Repr

/-- The session and its boards after one call of the interface. -/
def PauseOp.apply (isMainThread : Bool) (s : Reactor × BoardStore) :
    PauseOp → Option (Reactor × BoardStore)
  | PauseOp.pause => Reactor.pause isMainThread s
  | PauseOp.unpause => some (s.1.unpause, s.2)
  | PauseOp.block => Reactor.block isMainThread s
  | PauseOp.unblock => some (s.1.unblock, s.2)

/-- The session and its boards after a sequence of calls, in order; `none` when one
of the calls does not return. -/
def Reactor.runPauseOps (isMainThread : Bool) :
    List PauseOp → Reactor × BoardStore → Option (Reactor × BoardStore)
  | [], s => some s
  | op :: ops, s =>
    match op.apply isMainThread s with
    | none => none
    | some s1 => Reactor.runPauseOps isMainThread ops s1

/-- The number of outstanding `block()` calls of a sequence: direct `block()` calls
minus direct `unblock()` calls. -/
def outstandingBlocks : List PauseOp → Int
  | [] => 0
  | PauseOp.block :: ops => 1 + outstandingBlocks ops
  | PauseOp.unblock :: ops => -1 + outstandingBlocks ops
  | _ :: ops => outstandingBlocks ops

/-- At no moment of the sequence has `unblock()` been called more often than `block()`. -/
def unblockNeverAhead (ops : List PauseOp) : Prop :=
  ∀ pre ∈ ops.inits, 0 ≤ outstandingBlocks pre

/-- The contribution of the pause flag to the block counter. -/
def pausedCount (r : Reactor) : Int :=
  if r.paused then 1 else 0

/-- The active board, if there is one, has its CPU. -/
def Reactor.activeHasCPU (s : Reactor × BoardStore) : Prop :=
  ∀ a, s.1.activeBoard = some a → (s.2 a).msxCpu = true

/-- The session after `create_machine` and the activation of the new board
(`activate_machine machine1`), with the boards as their constructor leaves them:
the active board has no machine configuration. -/
def emptyActiveSession : Reactor × BoardStore :=
  (Reactor.initial.create_machine.1.switchBoard (some 1),
   fun p => MSXMotherBoard.create (machineIDOf p) false)

/-- The same session with a machine loaded into every board: the boards have a
machine configuration and a CPU. -/
def loadedActiveSession : Reactor × BoardStore :=
  (Reactor.initial.create_machine.1.switchBoard (some 1),
   fun p => { MSXMotherBoard.create (machineIDOf p) false with
              machineName := "m"
              machineConfig2 := some ⟨"m", "m", ConfigType.MACHINE, [], none, none, none⟩
              machineConfig := some ⟨"m", "m", ConfigType.MACHINE, [], none, none, none⟩
              msxCpu := true })

/-! ## The media provider registry of a board

The three methods touch only the member `mediaProviders`, a vector of
`MediaProviderInfo`; they are given on that vector.
-/

/-- The record `MediaProviderInfo`: a name and the pointer of the provider. -/
structure MediaProviderInfo where
  name : String
  provider : Nat
  deriving DecidableEq, Repr

/-- The two assertions at the head of `MSXMotherBoard::registerMediaProvider`. -/
def MSXMotherBoard.registerMediaProviderAsserts (mediaProviders : List MediaProviderInfo)
    (name : String) (provider : Nat) : Bool :=
  !(mediaProviders.map MediaProviderInfo.name).contains name &&
  !(mediaProviders.map MediaProviderInfo.provider).contains provider

/-- The method `MSXMotherBoard::registerMediaProvider`. -/
def MSXMotherBoard.registerMediaProvider (mediaProviders : List MediaProviderInfo)
    (name : String) (provider : Nat) : List MediaProviderInfo :=
  mediaProviders ++ [{ name := name, provider := provider }]

/-- The method `MSXMotherBoard::unregisterMediaProvider`; `none` when the provider is
not registered (the search is unguarded). -/
def MSXMotherBoard.unregisterMediaProvider (mediaProviders : List MediaProviderInfo)
    (provider : Nat) : Option (List MediaProviderInfo) :=
  match rfind_unguarded (mediaProviders.map MediaProviderInfo.provider) provider with
  | none => none
  | some it => some (move_pop_back mediaProviders it)

/-- The method `MSXMotherBoard::findMediaProvider`; `none` is the null pointer. -/
def MSXMotherBoard.findMediaProvider (mediaProviders : List MediaProviderInfo)
    (name : String) : Option Nat :=
  match mediaProviders.find? (fun info => info.name = name) with
  | some info => some info.provider
  | none => none

/-- A call that changes the registry. -/
inductive RegistryOp
  | register (name : String) (provider : Nat)
  | unregister (provider : Nat)
  deriving DecidableEq, Repr

/-- The condition under which a call is made: a registration has a name and a
provider that are both not registered, an unregistration a registered provider. -/
def RegistryOp.pre (mediaProviders : List MediaProviderInfo) : RegistryOp → Bool
  | RegistryOp.register name provider =>
    MSXMotherBoard.registerMediaProviderAsserts mediaProviders name provider
  | RegistryOp.unregister provider =>
    (mediaProviders.map MediaProviderInfo.provider).contains provider

/-- The registry after one call. -/
def RegistryOp.apply (mediaProviders : List MediaProviderInfo) :
    RegistryOp → Option (List MediaProviderInfo)
  | RegistryOp.register name provider =>
    some (MSXMotherBoard.registerMediaProvider mediaProviders name provider)
  | RegistryOp.unregister provider =>
    MSXMotherBoard.unregisterMediaProvider mediaProviders provider

/-- The registry after a sequence of calls, in order. -/
def runRegistryOps : List RegistryOp → List MediaProviderInfo → Option (List MediaProviderInfo)
  | [], mediaProviders => some mediaProviders
  | op :: ops, mediaProviders =>
    match op.apply mediaProviders with
    | none => none
    | some next => runRegistryOps ops next

/-- Every call of the sequence is made under its condition, read on the registry at
that moment. -/
def RegistryOp.admissible : List RegistryOp → List MediaProviderInfo → Bool
  | [], _ => true
  | op :: ops, mediaProviders =>
    op.pre mediaProviders &&
    match op.apply mediaProviders with
    | none => true
    | some next => RegistryOp.admissible ops next

/-- The registry of the specification: a map from names to providers. -/
abbrev MediaRegistrySpec := String → Option Nat

/-- The specification of `register(name, provider)`. -/
def MediaRegistrySpec.register (m : MediaRegistrySpec) (name : String) (provider : Nat) :
    MediaRegistrySpec :=
  fun k => if k = name then some provider else m k

/-- The specification of `unregister(provider)`. -/
def MediaRegistrySpec.unregister (m : MediaRegistrySpec) (provider : Nat) : MediaRegistrySpec :=
  fun k => if m k = some provider then none else m k

/-- The specification of `find(name)`. -/
def MediaRegistrySpec.find (m : MediaRegistrySpec) (name : String) : Option Nat :=
  m name

/-- The map of the specification after one call. -/
def RegistryOp.specApply (m : MediaRegistrySpec) : RegistryOp → MediaRegistrySpec
  | RegistryOp.register name provider => m.register name provider
  | RegistryOp.unregister provider => m.unregister provider

/-- The map of the specification after a sequence of calls. -/
def specRunRegistryOps (ops : List RegistryOp) (m : MediaRegistrySpec) : MediaRegistrySpec :=
  ops.foldl RegistryOp.specApply m

/-- The vector represents the map: names and providers are pairwise distinct and
the lookups agree. -/
def registryRefines (mediaProviders : List MediaProviderInfo) (m : MediaRegistrySpec) : Prop :=
  (mediaProviders.map MediaProviderInfo.name).Nodup ∧
  (mediaProviders.map MediaProviderInfo.provider).Nodup ∧
  ∀ name, MSXMotherBoard.findMediaProvider mediaProviders name = m.find name

/-! ## Tearing a machine down (`MSXMotherBoard::deleteMachine`) -/

/-- Modelled from the spec: the devices a machine configuration owns once
`loadMachine` has run `parseSlots` and `createDevices` on it: none when
`parseSlots` threw, the devices created before the failure when `createDevices`
threw, all its devices otherwise. -/
def HardwareConfig.ownedDevices (c : HardwareConfig) : List DevicePtr :=
  match c.parseSlotsError with
  | some _ => []
  | none =>
    match c.createDevicesError with
    | none => c.devices
    | some (k, _) => c.devices.take k

namespace MSXMotherBoard

end MSXMotherBoard

/-- A loaded board used as a concrete input: machine `m` with devices 1 and 2,
extension `fmpac` (device 3) inserted before extension `scc` (devices 4 and 5). -/
def teardownExample : MSXMotherBoard :=
  { MSXMotherBoard.create "machine1" false with
    machineName := "m"
    machineConfig2 := some ⟨"m", "m", ConfigType.MACHINE, [1, 2], none, none, none⟩
    machineConfig := some ⟨"m", "m", ConfigType.MACHINE, [1, 2], none, none, none⟩
    msxCpu := true
    extensions := [⟨"fmpac", "fmpac", ConfigType.EXTENSION, [3], none, none, none⟩,
                   ⟨"scc", "scc", ConfigType.EXTENSION, [4, 5], none, none, none⟩]
    availableDevices := [1, 2, 3, 4, 5] }

/-! ## Serializing a board (`MSXMotherBoard::serialize`) -/

/-- Modelled from the spec: the archive classes (`serialize.hh`) are not among these
sources; the serialization layer is a "named, nested, versioned read/write of
board state" that "embeds scheduler time".  This is the element of a board in
an archive, with the fields `MSXMotherBoard::serialize` names first: the
scheduler, the machine name, the machine configuration and the extensions.
The state of the CPU, the ports and the devices is left out. -/
structure MachineArchive where
  scheduler : Nat
  name : String
  config : Option HardwareConfig
  extensions : List HardwareConfig
  deriving DecidableEq, Repr

/-- The content of the file an archive leaves behind once it is closed: the element
of the serialized board. -/
def archiveContent (board : MSXMotherBoard → MachineArchive) :
    List ArchiveEffect → Option MachineArchive
  | [ArchiveEffect.create _, ArchiveEffect.serialize b, ArchiveEffect.close] => some (board b)
  | _ => none

/-- Modelled from the spec: the loader of `HardwareConfig::serialize` (not among these
sources).  A machine configuration installs itself on the board; then the
description is turned into "instantiated Devices registered with the board" as
on loading: the slots are parsed and the devices are created. -/
def HardwareConfig.serializeLoader (c : HardwareConfig) (b : MSXMotherBoard) :
    MSXMotherBoard × Except String Unit :=
  let b1 := if c.type = ConfigType.MACHINE then b.setMachineConfig c else b
  match c.parseSlots with
  | Except.error msg => (b1, Except.error msg)
  | Except.ok _ =>
    match c.createDevices b1 with
    | (b2, _, outcome) => (b2, outcome)

namespace MSXMotherBoard

/-- The method `MSXMotherBoard::serialize` instantiated for a saver. -/
def serializeSaver (b : MSXMotherBoard) : MachineArchive :=
  { scheduler := b.currentTime, name := b.machineName, config := b.machineConfig2,
    extensions := b.extensions }

/-- The loader of the field "extensions": each extension is loaded and appended to
the extension vector, in the order of the archive. -/
def loadExtensionsField :
    List HardwareConfig → MSXMotherBoard → MSXMotherBoard × Except String Unit
  | [], b => (b, Except.ok ())
  | extension :: rest, b =>
    match extension.serializeLoader b with
    | (b1, Except.error msg) => (b1, Except.error msg)
    | (b1, Except.ok _) =>
      loadExtensionsField rest { b1 with extensions := b1.extensions ++ [extension] }

/-- The method `MSXMotherBoard::serialize` instantiated for a loader, on the board `b`
and the element `ar` of the archive.  The fuel is that of the observer of the
power setting. -/
def serializeLoader (fuel : Nat) (b : MSXMotherBoard) (ar : MachineArchive) :
    Option (MSXMotherBoard × Except String Unit) :=
  let b1 := { b with currentTime := ar.scheduler }
  let b2 := b1.emit BoardEffect.mixerReInit
  let b3 := { b2 with machineName := ar.name }
  let config : MSXMotherBoard × Except String Unit :=
    match ar.config with
    | none => (b3, Except.ok ())
    | some cfg =>
      match cfg.serializeLoader b3 with
      | (b4, Except.error msg) => (b4, Except.error msg)
      | (b4, Except.ok _) => ({ b4 with machineConfig2 := some cfg }, Except.ok ())
  match config with
  | (b4, Except.error msg) => some (b4, Except.error msg)
  | (b4, Except.ok _) =>
    match loadExtensionsField ar.extensions b4 with
    | (b5, Except.error msg) => some (b5, Except.error msg)
    | (b5, Except.ok _) =>
      let b6 := { b5 with powered := true }
      match powerSetting_setBoolean fuel true b6 with
      | none => none
      | some b7 =>
        let b8 := b7.emit (BoardEffect.setPowerLed true)
        some (b8.emit BoardEffect.mixerUnmute, Except.ok ())

end MSXMotherBoard

/-- A configuration that loaded: neither `parseSlots` nor `createDevices` throws on it. -/
def HardwareConfig.loads (c : HardwareConfig) : Prop :=
  c.parseSlotsError = none ∧ c.createDevicesError = none

/-! ## The MegaRAM (`memory/MSXMegaRam.cc`) -/

/-- Helper of `bit_ceil`: the first of `p`, `2p`, `4p`, ... that is at least `n`. -/
def bitCeilFrom : Nat → Nat → Nat → Nat
  | 0, p, _ => p
  | fuel + 1, p, n => if n ≤ p then p else bitCeilFrom fuel (2 * p) n

/-- The function `std::bit_ceil` of the C++ library: the smallest power of two that
is not smaller than `n`. -/
def bit_ceil (n : Nat) : Nat :=
  bitCeilFrom n 1 n

/-- The function `getNumBlocks`; `size` is the child `size` of the device
configuration (in kB), read as an `int`. -/
def getNumBlocks (size : Int) : Except String Nat :=
  let err : Option String :=
    if size < 0 then some "Cannot be negative."
    else if size > 8 * 256 then some "Cannot be larger than 2048."
    else if size % 8 ≠ 0 then some "Must be a multiple of 8."
    else none
  match err with
  | some e => Except.error ("Invalid MegaRam size: " ++ toString size ++ ". " ++ e)
  | none => Except.ok (size / 8).toNat

/-- What a cache line points at: the unmapped area, a byte of the RAM or a byte of
the ROM, by index. -/
inductive MegaRamLine
  | unmapped
  | ram (index : Nat)
  | rom (index : Nat)
  deriving DecidableEq, Repr

/-- The state of a `MSXMegaRam`: `ram` holds `numBlocks * 0x2000` bytes, `hasRom` says
whether the device has a ROM, `bank` holds the four bank registers. -/
structure MSXMegaRam where
  numBlocks : Nat
  ram : Nat → Nat
  hasRom : Bool
  bank : Nat → Nat
  writeMode : Bool
  romMode : Bool
  maskBlocks : Nat

namespace MSXMegaRam

/-- The method `MSXMegaRam::setBank` (the invalidation of the CPU cache is left out). -/
def setBank (m : MSXMegaRam) (page : Nat) (block : Nat) : MSXMegaRam :=
  { m with bank := fun p => if p = page then block &&& m.maskBlocks else m.bank p }

/-- The method `MSXMegaRam::reset`. -/
def reset (m : MSXMegaRam) : MSXMegaRam :=
  { m with romMode := m.hasRom }

/-- The method `MSXMegaRam::powerUp`; `cleared` is the content `ram.clear()` leaves. -/
def powerUp (cleared : Nat → Nat) (m : MSXMegaRam) : MSXMegaRam :=
  let m1 := (List.range 4).foldl (fun acc i => acc.setBank i 0) m
  let m2 := { m1 with writeMode := false }
  let m3 := { m2 with ram := cleared }
  m3.reset

/-- The constructor of `MSXMegaRam`, for a configuration with the given `size` that
has a ROM or not; `narrow<byte>` keeps the low eight bits.  It throws when
`getNumBlocks` does. -/
def create (cleared : Nat → Nat) (size : Int) (hasRom : Bool) : Except String MSXMegaRam :=
  match getNumBlocks size with
  | Except.error e => Except.error e
  | Except.ok numBlocks =>
    Except.ok (powerUp cleared
      { numBlocks := numBlocks, ram := cleared, hasRom := hasRom, bank := fun _ => 0,
        writeMode := false, romMode := false,
        maskBlocks := (bit_ceil numBlocks - 1) % 256 })

/-- The method `MSXMegaRam::getReadCacheLine`. -/
def getReadCacheLine (m : MSXMegaRam) (address : Nat) : MegaRamLine :=
  if m.romMode then
    if address ≥ 0x4000 ∧ address ≤ 0xBFFF then MegaRamLine.rom (address - 0x4000)
    else MegaRamLine.unmapped
  else
    let block := m.bank ((address &&& 0x7FFF) / 0x2000)
    if block < m.numBlocks then MegaRamLine.ram (block * 0x2000 + (address &&& 0x1FFF))
    else MegaRamLine.unmapped

/-- The method `MSXMegaRam::getWriteCacheLine`; `none` is the null pointer. -/
def getWriteCacheLine (m : MSXMegaRam) (address : Nat) : Option MegaRamLine :=
  if m.romMode then some MegaRamLine.unmapped
  else if m.writeMode then
    let block := m.bank ((address &&& 0x7FFF) / 0x2000)
    if block < m.numBlocks then some (MegaRamLine.ram (block * 0x2000 + (address &&& 0x1FFF)))
    else some MegaRamLine.unmapped
  else none

/-- The method `MSXMegaRam::writeMem`: a write through a cache line that points into
the RAM stores the byte there, a write to the unmapped area is lost. -/
def writeMem (m : MSXMegaRam) (address : Nat) (value : Nat) : MSXMegaRam :=
  match m.getWriteCacheLine address with
  | some (MegaRamLine.ram index) => { m with ram := fun i => if i = index then value else m.ram i }
  | some _ => m
  | none => m.setBank ((address &&& 0x7FFF) / 0x2000) value

/-- The method `MSXMegaRam::readIO`: the state after the read and the value returned. -/
def readIO (m : MSXMegaRam) (port : Nat) : MSXMegaRam × Nat :=
  let m1 :=
    if port &&& 1 = 0 then { m with writeMode := true, romMode := false }
    else if m.hasRom then { m with romMode := true }
    else m
  (m1, 0xFF)

/-- The method `MSXMegaRam::writeIO`. -/
def writeIO (m : MSXMegaRam) (port : Nat) (_value : Nat) : MSXMegaRam :=
  if port &&& 1 = 0 then { m with writeMode := false, romMode := false }
  else if m.hasRom then { m with romMode := true }
  else m

end MSXMegaRam

/-- A call that changes the state of a MegaRAM. -/
inductive MegaRamOp
  | powerUp (cleared : Nat → Nat)
  | reset
  | readIO (port : Nat)
  | writeIO (port : Nat) (value : Nat)
  | writeMem (address : Nat) (value : Nat)

/-- The MegaRAM after one call. -/
def MegaRamOp.apply (m : MSXMegaRam) : MegaRamOp → MSXMegaRam
  | MegaRamOp.powerUp cleared => m.powerUp cleared
  | MegaRamOp.reset => m.reset
  | MegaRamOp.readIO port => (m.readIO port).1
  | MegaRamOp.writeIO port value => m.writeIO port value
  | MegaRamOp.writeMem address value => m.writeMem address value

/-- A MegaRAM of 256 kB (32 blocks) without ROM, as a concrete input. -/
def megaRamExample : MSXMegaRam :=
  { numBlocks := 32, ram := fun _ => 0xFF, hasRom := false, bank := fun _ => 0,
    writeMode := false, romMode := false, maskBlocks := 31 }

/-- The invariant of a MegaRAM of `n` blocks: the mask is `bit_ceil(n) - 1` and every
bank register holds a value below `bit_ceil(n)`. -/
def MSXMegaRam.bankInvariant (n : Nat) (m : MSXMegaRam) : Prop :=
  m.numBlocks = n ∧ m.maskBlocks = bit_ceil n - 1 ∧ ∀ page, m.bank page < bit_ceil n

/-! ## The National floppy disk controller (`fdc/NationalFDC.cc`) -/

/-- The enumeration `DriveMultiplexer::Drive`, as far as used here. -/
inductive Drive
  | A
  | B
  | NONE
  deriving DecidableEq, Repr

/-- The collaborators of `NationalFDC` that are not among these sources, taken as
parameters over a state `σ` of the controller and its drives: the register
accessors of `WD2793` (reading ones return the value and the state after the
read, peeking ones only the value), the methods of `DriveMultiplexer`, and
`MSXFDC::peekMem`, the read of the ROM. -/
structure FDCParts (σ : Type) where
  getStatusReg : σ → Nat × σ
  getTrackReg : σ → Nat × σ
  getSectorReg : σ → Nat × σ
  getDataReg : σ → Nat × σ
  getIRQ : σ → Bool × σ
  getDTRQ : σ → Bool × σ
  peekStatusReg : σ → Nat
  peekTrackReg : σ → Nat
  peekSectorReg : σ → Nat
  peekDataReg : σ → Nat
  peekIRQ : σ → Bool
  peekDTRQ : σ → Bool
  setCommandReg : Nat → σ → σ
  setTrackReg : Nat → σ → σ
  setSectorReg : Nat → σ → σ
  setDataReg : Nat → σ → σ
  selectDrive : Drive → σ → σ
  setSide : Bool → σ → σ
  setMotor : Bool → σ → σ
  basePeekMem : Nat → σ → Nat

namespace NationalFDC

/-- The byte read from the drive control register: `value = 0x7F`, then
`value |= 0x80` when the IRQ line is set and `value &= ~0x40` when the DTRQ line
is set. -/
def driveControlValue (irq dtrq : Bool) : Nat :=
  let value := 0x7F
  let value := if irq then value ||| 0x80 else value
  if dtrq then value &&& 0xBF else value

/-- The method `NationalFDC::peekMem`. -/
def peekMem {σ : Type} (parts : FDCParts σ) (s : σ) (address : Nat) : Nat :=
  let sel := address &&& 0x3FC7
  if sel = 0x3F80 then parts.peekStatusReg s
  else if sel = 0x3F81 then parts.peekTrackReg s
  else if sel = 0x3F82 then parts.peekSectorReg s
  else if sel = 0x3F83 then parts.peekDataReg s
  else if sel = 0x3F84 ∨ sel = 0x3F85 ∨ sel = 0x3F86 ∨ sel = 0x3F87 then
    driveControlValue (parts.peekIRQ s) (parts.peekDTRQ s)
  else parts.basePeekMem address s

/-- The method `NationalFDC::readMem`: the value read and the state after the read. -/
def readMem {σ : Type} (parts : FDCParts σ) (s : σ) (address : Nat) : Nat × σ :=
  let sel := address &&& 0x3FC7
  if sel = 0x3F80 then parts.getStatusReg s
  else if sel = 0x3F81 then parts.getTrackReg s
  else if sel = 0x3F82 then parts.getSectorReg s
  else if sel = 0x3F83 then parts.getDataReg s
  else if sel = 0x3F84 ∨ sel = 0x3F85 ∨ sel = 0x3F86 ∨ sel = 0x3F87 then
    let irq := parts.getIRQ s
    let dtrq := parts.getDTRQ irq.2
    (driveControlValue irq.1 dtrq.1, dtrq.2)
  else (peekMem parts s address, s)

/-- The method `NationalFDC::writeMem`. -/
def writeMem {σ : Type} (parts : FDCParts σ) (s : σ) (address : Nat) (value : Nat) : σ :=
  let sel := address &&& 0x3FC7
  if sel = 0x3F80 then parts.setCommandReg value s
  else if sel = 0x3F81 then parts.setTrackReg value s
  else if sel = 0x3F82 then parts.setSectorReg value s
  else if sel = 0x3F83 then parts.setDataReg value s
  else if sel = 0x3F84 ∨ sel = 0x3F85 ∨ sel = 0x3F86 ∨ sel = 0x3F87 then
    let drive :=
      if value &&& 3 = 1 then Drive.A
      else if value &&& 3 = 2 then Drive.B
      else Drive.NONE
    let s1 := parts.selectDrive drive s
    let s2 := parts.setSide (value &&& 0x04 ≠ 0) s1
    parts.setMotor (value &&& 0x08 ≠ 0) s2
  else s

end NationalFDC

/-- A controller and drive multiplexer whose state is the log of the calls that
write to them.  Used as a concrete input. -/
def fdcWriteLogExample : FDCParts (List String) :=
  { getStatusReg := fun s => (0, s), getTrackReg := fun s => (0, s),
    getSectorReg := fun s => (0, s), getDataReg := fun s => (0, s),
    getIRQ := fun s => (false, s), getDTRQ := fun s => (false, s),
    peekStatusReg := fun _ => 0, peekTrackReg := fun _ => 0,
    peekSectorReg := fun _ => 0, peekDataReg := fun _ => 0,
    peekIRQ := fun _ => false, peekDTRQ := fun _ => false,
    setCommandReg := fun _ s => s ++ ["setCommandReg"],
    setTrackReg := fun _ s => s ++ ["setTrackReg"],
    setSectorReg := fun _ s => s ++ ["setSectorReg"],
    setDataReg := fun _ s => s ++ ["setDataReg"],
    selectDrive := fun d s =>
      s ++ [match d with
            | Drive.A => "selectDrive A"
            | Drive.B => "selectDrive B"
            | Drive.NONE => "selectDrive NONE"],
    setSide := fun side s => s ++ [if side then "setSide true" else "setSide false"],
    setMotor := fun status s => s ++ [if status then "setMotor true" else "setMotor false"],
    basePeekMem := fun _ _ => 0xFF }

/-- A controller given by its two lines and four registers; reads leave it as it is.
Used as a concrete input. -/
def fdcPartsExample : FDCParts (Bool × Bool) :=
  { getStatusReg := fun s => (0x20, s), getTrackReg := fun s => (7, s),
    getSectorReg := fun s => (1, s), getDataReg := fun s => (0xE5, s),
    getIRQ := fun s => (s.1, s), getDTRQ := fun s => (s.2, s),
    peekStatusReg := fun _ => 0x20, peekTrackReg := fun _ => 7,
    peekSectorReg := fun _ => 1, peekDataReg := fun _ => 0xE5,
    peekIRQ := fun s => s.1, peekDTRQ := fun s => s.2,
    setCommandReg := fun _ s => s, setTrackReg := fun _ s => s,
    setSectorReg := fun _ s => s, setDataReg := fun _ s => s,
    selectDrive := fun _ s => s, setSide := fun _ s => s, setMotor := fun _ s => s,
    basePeekMem := fun _ _ => 0xFF }

/-! ## The PPI (`MSXPPI.cc`) -/

/-- The calls the PPI makes on the cassette port, the CAPS LED and the key click. -/
inductive PPIEffect
  /-- The call `cassettePort.setMotor(status, time)`. -/
  | setMotor (status : Bool)
  /-- The call `cassettePort.cassetteOut(output, time)`. -/
  | cassetteOut (output : Bool)
  /-- The call `getLedStatus().setLed(LedStatus::CAPS, lit)`. -/
  | capsLed (lit : Bool)
  /-- The call `click.setClick(status, time)`. -/
  | setClick (status : Bool)
  deriving DecidableEq, Repr

/-- The members `prevBits` and `selectedRow` of a `MSXPPI`, with the log of its calls. -/
structure MSXPPI where
  prevBits : Nat
  selectedRow : Nat
  effects : List PPIEffect
  deriving DecidableEq, Repr

namespace MSXPPI

/-- Append one call to the log. -/
def emit (m : MSXPPI) (e : PPIEffect) : MSXPPI :=
  { m with effects := m.effects ++ [e] }

/-- The method `MSXPPI::writeC1`. -/
def writeC1 (m : MSXPPI) (value : Nat) : MSXPPI :=
  let m1 := if (m.prevBits ^^^ value) &&& 1 ≠ 0
    then m.emit (PPIEffect.setMotor ((value &&& 1) == 0)) else m
  let m2 := if (m.prevBits ^^^ value) &&& 2 ≠ 0
    then m1.emit (PPIEffect.cassetteOut ((value &&& 2) != 0)) else m1
  let m3 := if (m.prevBits ^^^ value) &&& 4 ≠ 0
    then m2.emit (PPIEffect.capsLed ((value &&& 4) == 0)) else m2
  let m4 := if (m.prevBits ^^^ value) &&& 8 ≠ 0
    then m3.emit (PPIEffect.setClick ((value &&& 8) != 0)) else m3
  { m4 with prevBits := value }

/-- The method `MSXPPI::writeC0`. -/
def writeC0 (m : MSXPPI) (value : Nat) : MSXPPI :=
  { m with selectedRow := value }

/-- The byte `portC` that `MSXPPI::serialize` hands to a saver:
`uint8_t((prevBits << 4) | (selectedRow << 0))`. -/
def serializePortC (m : MSXPPI) : Nat :=
  ((m.prevBits <<< 4) ||| (m.selectedRow <<< 0)) % 256

/-- The part of `MSXPPI::serialize` that a loader runs once the archive has put the
stored byte into `portC`. -/
def loadPortC (m : MSXPPI) (portC : Nat) : MSXPPI :=
  let m1 := { m with selectedRow := (portC >>> 0) &&& 0xF }
  let bits := (portC >>> 4) &&& 0xF
  m1.writeC1 bits

end MSXPPI

/-- The actions of `writeC1` for those of the four bits that differ between the
previous bits `old` and the written bits `new`: cassette motor (bit 0, on when
the bit is 0), cassette out (bit 1), CAPS LED (bit 2, lit when the bit is 0) and
key click (bit 3), in this order. -/
def changedBitActions (old new : Nat) : List PPIEffect :=
  (if old.testBit 0 ≠ new.testBit 0 then [PPIEffect.setMotor (!new.testBit 0)] else []) ++
  (if old.testBit 1 ≠ new.testBit 1 then [PPIEffect.cassetteOut (new.testBit 1)] else []) ++
  (if old.testBit 2 ≠ new.testBit 2 then [PPIEffect.capsLed (!new.testBit 2)] else []) ++
  (if old.testBit 3 ≠ new.testBit 3 then [PPIEffect.setClick (new.testBit 3)] else [])

/-! ## User names of hardware (`MSXMotherBoard::getUserName`, `freeUserName`) -/

/-- The member `userNames`: for each hardware name the vector of user names in use;
`userNames[hwName]` of a name that was never used is the empty vector. -/
abbrev UserNames := String → List String

/-- The name `strCat("untitled", n)`. -/
def untitledName (n : Nat) : String :=
  "untitled" ++ toString n

/-- The loop `do { userName = strCat("untitled", ++n); } while (contains(s, userName))`
with the `unsigned` counter at `n`; `none` when the fuel is used up before the
loop ends. -/
def getUserNameLoop (s : List String) : Nat → Nat → Option String
  | 0, _ => none
  | fuel + 1, n =>
    let n1 := (n + 1) % 2 ^ 32
    let userName := untitledName n1
    if s.contains userName then getUserNameLoop s fuel n1 else some userName

/-- The method `MSXMotherBoard::getUserName`: the member after the call and the
name returned. -/
def MSXMotherBoard.getUserName (fuel : Nat) (userNames : UserNames) (hwName : String) :
    Option (UserNames × String) :=
  match getUserNameLoop (userNames hwName) fuel 0 with
  | none => none
  | some userName =>
    some (fun k => if k = hwName then userNames hwName ++ [userName] else userNames k, userName)

/-- The method `MSXMotherBoard::freeUserName`; `none` when the name is not in use
(the search is unguarded). -/
def MSXMotherBoard.freeUserName (userNames : UserNames) (hwName : String) (userName : String) :
    Option UserNames :=
  match rfind_unguarded (userNames hwName) userName with
  | none => none
  | some it =>
    some (fun k => if k = hwName then move_pop_back (userNames hwName) it else userNames k)

/-- The number a list of decimal digits stands for. -/
def digitsValue (cs : List Char) : Nat :=
  cs.foldl (fun acc c => acc * 10 + (c.toNat - 48)) 0

/-- User names in use on a board, as a concrete input: two disk drives are named. -/
def userNamesExample : UserNames :=
  fun hwName => if hwName = "diskdrive" then ["untitled1", "untitled3"] else []

/-! ## Facts about the vector utilities -/

theorem findFrom_some {α : Type} [DecidableEq α] (x : α) (l : List α) (i j : Nat)
    (h : findFrom x l i = some j) :
    ∃ l1 l2, l = l1 ++ x :: l2 ∧ x ∉ l1 ∧ j = i + l1.length := by
  induction l generalizing i with
  | nil => simp [findFrom] at h
  | cons y ys ih =>
    unfold findFrom at h
    by_cases hy : y = x
    · subst hy
      simp at h
      exact ⟨[], ys, by simp, by simp, by simp [h]⟩
    · simp [hy] at h
      obtain ⟨l1, l2, h1, h2, h3⟩ := ih (i + 1) h
      refine ⟨y :: l1, l2, by simp [h1], ?_, by simp [h3]; omega⟩
      simp only [List.mem_cons, not_or]
      exact ⟨fun e => hy e.symm, h2⟩

theorem findFrom_of_mem {α : Type} [DecidableEq α] (x : α) (l : List α) (i : Nat)
    (h : x ∈ l) : ∃ j, findFrom x l i = some j := by
  induction l generalizing i with
  | nil => simp at h
  | cons y ys ih =>
    unfold findFrom
    by_cases hy : y = x
    · exact ⟨i, by simp [hy]⟩
    · have hx : x ∈ ys := by
        rcases List.mem_cons.mp h with e | e
        · exact absurd e.symm hy
        · exact e
      obtain ⟨j, hj⟩ := ih (i + 1) hx
      exact ⟨j, by simp [hy, hj]⟩

theorem find_unguarded_some {α : Type} [DecidableEq α] (x : α) (l : List α) (j : Nat)
    (h : find_unguarded l x = some j) :
    ∃ l1 l2, l = l1 ++ x :: l2 ∧ x ∉ l1 ∧ j = l1.length := by
  obtain ⟨l1, l2, h1, h2, h3⟩ := findFrom_some x l 0 j h
  exact ⟨l1, l2, h1, h2, by omega⟩

theorem rfind_unguarded_some {α : Type} [DecidableEq α] (x : α) (l : List α) (j : Nat)
    (h : rfind_unguarded l x = some j) :
    ∃ l1 l2, l = l1 ++ x :: l2 ∧ x ∉ l2 ∧ j = l1.length := by
  unfold rfind_unguarded at h
  cases hf : findFrom x l.reverse 0 with
  | none => simp [hf] at h
  | some k =>
    simp [hf] at h
    obtain ⟨m1, m2, h1, h2, h3⟩ := findFrom_some x l.reverse 0 k hf
    have hl : l = m2.reverse ++ x :: m1.reverse := by
      have := congrArg List.reverse h1
      simpa using this
    refine ⟨m2.reverse, m1.reverse, hl, by simpa using h2, ?_⟩
    rw [← h, hl, h3]
    simp

theorem rfind_unguarded_of_mem {α : Type} [DecidableEq α] (x : α) (l : List α)
    (h : x ∈ l) : ∃ j, rfind_unguarded l x = some j := by
  obtain ⟨k, hk⟩ := findFrom_of_mem x l.reverse 0 (by simpa using h)
  exact ⟨l.length - 1 - k, by simp [rfind_unguarded, hk]⟩

theorem find_unguarded_of_mem {α : Type} [DecidableEq α] (x : α) (l : List α)
    (h : x ∈ l) : ∃ j, find_unguarded l x = some j :=
  findFrom_of_mem x l 0 h

theorem rfind_unguarded_concat {α : Type} [DecidableEq α] (x : α) (l : List α) :
    rfind_unguarded (l ++ [x]) x = some l.length := by
  simp [rfind_unguarded, findFrom]

theorem move_pop_back_concat {α : Type} (x : α) (l : List α) :
    move_pop_back (l ++ [x]) l.length = l := by
  simp [move_pop_back]

theorem move_pop_back_split {α : Type} (x : α) (l1 l2 : List α) :
    move_pop_back (l1 ++ x :: l2) l1.length =
      match l2.getLast? with
      | none => l1
      | some back => l1 ++ back :: l2.dropLast := by
  rcases List.eq_nil_or_concat l2 with h | ⟨l2', back, h⟩
  · subst h
    simp [move_pop_back]
  · rw [List.concat_eq_append] at h
    subst h
    have hne : ¬ (l1.length + 1 = (l1 ++ x :: (l2' ++ [back])).length) := by
      simp
    have hlast : (l1 ++ x :: (l2' ++ [back])).getLast? = some back := by
      rw [show l1 ++ x :: (l2' ++ [back]) = (l1 ++ x :: l2') ++ [back] by simp]
      exact List.getLast?_concat _
    unfold move_pop_back
    rw [hlast]
    simp only [hne, if_false]
    have hset : (l1 ++ x :: (l2' ++ [back])).set l1.length back = (l1 ++ back :: l2') ++ [back] := by
      simp [List.set_append]
    rw [hset, List.dropLast_concat]
    simp [List.getLast?_concat]

theorem move_pop_back_perm {α : Type} (x : α) (l1 l2 : List α) :
    (move_pop_back (l1 ++ x :: l2) l1.length).Perm (l1 ++ l2) := by
  rw [move_pop_back_split]
  rcases List.eq_nil_or_concat l2 with h | ⟨l2', back, h⟩
  · subst h
    simp
  · rw [List.concat_eq_append] at h
    subst h
    simp only [List.getLast?_concat, List.dropLast_concat]
    refine List.Perm.append_left l1 ?_
    exact (List.perm_append_singleton back l2').symm

theorem mem_move_pop_back {α : Type} (x y : α) (l1 l2 : List α)
    (hy : y ∈ l1 ++ x :: l2) (hne : y ≠ x) :
    y ∈ move_pop_back (l1 ++ x :: l2) l1.length := by
  rw [(move_pop_back_perm x l1 l2).mem_iff]
  simp only [List.mem_append, List.mem_cons] at hy ⊢
  rcases hy with h | h | h
  · exact Or.inl h
  · exact absurd h hne
  · exact Or.inr h

/-! ## Facts about the session operations -/

namespace Reactor

theorem switchBoard_boards (r : Reactor) (nb : Option BoardPtr) :
    (r.switchBoard nb).boards = r.boards := by
  unfold switchBoard
  cases r.activeBoard <;> cases nb <;> simp [emit]

theorem switchBoard_activeBoard (r : Reactor) (nb : Option BoardPtr) :
    (r.switchBoard nb).activeBoard = nb := by
  unfold switchBoard
  cases r.activeBoard <;> cases nb <;> simp [emit]

theorem releaseBoard_fields (r : Reactor) (b : BoardPtr) :
    (r.releaseBoard b).boards = r.boards ∧ (r.releaseBoard b).activeBoard = r.activeBoard ∧
    (r.releaseBoard b).heldElsewhere = r.heldElsewhere ∧
    (r.releaseBoard b).machineIDCounter = r.machineIDCounter := by
  unfold releaseBoard
  split
  · exact ⟨rfl, rfl, rfl, rfl⟩
  · exact ⟨rfl, rfl, rfl, rfl⟩

theorem releaseBoard_tracked (r : Reactor) (b : BoardPtr) (h : r.activeTracked) :
    (r.releaseBoard b).activeTracked := by
  obtain ⟨hb, ha, _, _⟩ := releaseBoard_fields r b
  unfold activeTracked
  rw [hb, ha]
  exact h

theorem deleteBoard_tracked (r r' : Reactor) (b : BoardPtr) (h : r.activeTracked)
    (hd : r.deleteBoard (some b) = some r') : r'.activeTracked := by
  unfold deleteBoard at hd
  simp only at hd
  by_cases hact : r.activeBoard = some b
  · simp only [hact, if_true] at hd
    cases hf : rfind_unguarded (r.switchBoard none).boards b with
    | none => simp [hf] at hd
    | some it =>
      simp only [hf, Option.some.injEq] at hd
      left
      rw [← hd]
      exact switchBoard_activeBoard r none
  · simp only [hact, if_false] at hd
    cases hf : rfind_unguarded r.boards b with
    | none => simp [hf] at hd
    | some it =>
      simp only [hf, Option.some.injEq] at hd
      obtain ⟨l1, l2, h1, _, h3⟩ := rfind_unguarded_some b r.boards it hf
      rcases h with h | ⟨a, ha, hmem⟩
      · left
        rw [← hd]
        exact h
      · right
        refine ⟨a, by rw [← hd]; exact ha, ?_⟩
        rw [← hd]
        simp only
        rw [h1, h3]
        refine mem_move_pop_back b a l1 l2 (by rw [← h1]; exact hmem) ?_
        intro e
        exact hact (by rw [ha, e])

theorem deleteBoard_progress (r : Reactor) (b : BoardPtr) (hb : b ∈ r.boards) :
    ∃ r', r.deleteBoard (some b) = some r' := by
  unfold deleteBoard
  simp only
  have hmem : b ∈ (if r.activeBoard = some b then r.switchBoard none else r).boards := by
    split
    · rw [switchBoard_boards]; exact hb
    · exact hb
  obtain ⟨j, hj⟩ := rfind_unguarded_of_mem b _ hmem
  rw [hj]
  exact ⟨_, rfl⟩

theorem replaceBoard_tracked (r r' : Reactor) (o n : BoardPtr) (h : r.activeTracked)
    (ho : o ∈ r.boards) (hd : r.replaceBoard o n = some r') : r'.activeTracked := by
  unfold replaceBoard at hd
  simp only at hd
  cases hf : find_unguarded (r.boards ++ [n]) o with
  | none => simp [hf] at hd
  | some it =>
    simp only [hf, Option.some.injEq] at hd
    obtain ⟨l1, l2, h1, h2, h3⟩ := find_unguarded_some o (r.boards ++ [n]) it hf
    have hget : (r.boards ++ [n]).get? it = some o := by
      rw [h1, h3, List.get?_eq_getElem?, List.getElem?_append_right (Nat.le_refl _)]
      simp
    rw [hget] at hd
    rw [← hd]
    apply releaseBoard_tracked
    by_cases hact : some o = r.activeBoard
    · simp only [hact, if_true]
      right
      refine ⟨n, switchBoard_activeBoard _ _, ?_⟩
      simp only [switchBoard_boards]
      rw [h1, h3, (move_pop_back_perm o l1 l2).mem_iff]
      rcases List.eq_nil_or_concat l2 with e | ⟨l2', back, e⟩
      · subst e
        have hb : r.boards = l1 := by
          have := List.append_inj_left' h1 (by simp)
          exact this
        exact absurd (hb ▸ ho) h2
      · rw [List.concat_eq_append] at e
        subst e
        have hn : [n] = [back] := by
          have h1' : r.boards ++ [n] = (l1 ++ o :: l2') ++ [back] := by
            rw [h1]; simp
          exact List.append_inj_right' h1' (by simp)
        have : n = back := by simpa using hn
        subst this
        simp
    · simp only [hact, if_false]
      rcases h with h | ⟨a, ha, hmem⟩
      · left
        exact h
      · right
        refine ⟨a, ha, ?_⟩
        simp only
        rw [h1, h3]
        refine mem_move_pop_back o a l1 l2 ?_ ?_
        · rw [← h1]
          exact List.mem_append_left _ hmem
        · intro e
          exact hact (by rw [ha, e])

theorem replaceBoard_progress (r : Reactor) (o n : BoardPtr) (ho : o ∈ r.boards) :
    ∃ r', r.replaceBoard o n = some r' := by
  unfold replaceBoard
  simp only
  obtain ⟨j, hj⟩ := find_unguarded_of_mem o (r.boards ++ [n]) (List.mem_append_left _ ho)
  rw [hj]
  exact ⟨_, rfl⟩

theorem installBoard_tracked (r r' : Reactor) (n : BoardPtr)
    (hd : r.installBoard n = some r') : r'.activeTracked := by
  unfold installBoard at hd
  simp only at hd
  have ht : ∀ q : Reactor, n ∈ q.boards → (q.switchBoard (some n)).activeTracked := by
    intro q hq
    right
    exact ⟨n, switchBoard_activeBoard _ _, by rw [switchBoard_boards]; exact hq⟩
  cases hdel : deleteBoard (switchBoard { r with boards := r.boards ++ [n] } (some n))
      r.activeBoard with
  | none =>
    rw [hdel] at hd
    cases hd
  | some r2 =>
    rw [hdel] at hd
    have h2 : r2.activeTracked := by
      cases hold : r.activeBoard with
      | none =>
        rw [hold] at hdel
        simp only [deleteBoard, Option.some.injEq] at hdel
        rw [← hdel]
        exact ht _ (by simp)
      | some o =>
        rw [hold] at hdel
        exact deleteBoard_tracked _ _ o (ht _ (by simp)) hdel
    cases hold : r.activeBoard with
    | none =>
      rw [hold] at hd
      simp only [Option.some.injEq] at hd
      rw [← hd]
      exact h2
    | some o =>
      rw [hold] at hd
      simp only [Option.some.injEq] at hd
      rw [← hd]
      exact releaseBoard_tracked _ _ h2

theorem installBoard_progress (r : Reactor) (n : BoardPtr) (h : r.activeTracked) :
    ∃ r', r.installBoard n = some r' := by
  unfold installBoard
  simp only
  have hdel : ∃ r2, deleteBoard (switchBoard { r with boards := r.boards ++ [n] } (some n))
      r.activeBoard = some r2 := by
    cases hold : r.activeBoard with
    | none => exact ⟨_, rfl⟩
    | some o =>
      apply deleteBoard_progress
      rw [switchBoard_boards]
      rcases h with h | ⟨a, ha, hmem⟩
      · rw [hold] at h; simp at h
      · rw [hold] at ha
        simp only [Option.some.injEq] at ha
        subst ha
        exact List.mem_append_left _ hmem
  obtain ⟨r2, h2⟩ := hdel
  rw [h2]
  cases r.activeBoard with
  | none => exact ⟨_, rfl⟩
  | some o => exact ⟨_, rfl⟩

/-- The state from which `switchMachine` and `switchMachineFromSetup` load the new
board keeps the board vector and the active board of the state they start in. -/
theorem prepare_tracked (r : Reactor) (e : ReactorEffect) (h : r.activeTracked) :
    ((r.ensureDisplay.createEmptyMotherBoard).2.emit e).activeTracked := by
  unfold ensureDisplay createEmptyMotherBoard emit activeTracked
  split <;> exact h

theorem destroyBoard_tracked (r : Reactor) (b : BoardPtr) (h : r.activeTracked) :
    (r.destroyBoard b).activeTracked := h

theorem apply_tracked (r r' : Reactor) (op : SessionOp) (h : r.activeTracked)
    (hpre : op.pre r) (hd : op.apply r = some r') : r'.activeTracked := by
  cases op with
  | create_machine =>
    simp only [SessionOp.apply, create_machine, createEmptyMotherBoard, Option.some.injEq] at hd
    rcases h with h | ⟨a, ha, hmem⟩
    · left; rw [← hd]; exact h
    · right
      exact ⟨a, by rw [← hd]; exact ha, by rw [← hd]; exact List.mem_append_left _ hmem⟩
  | switchBoard nb =>
    simp only [SessionOp.apply, Option.some.injEq] at hd
    rw [← hd]
    unfold activeTracked
    rw [switchBoard_activeBoard, switchBoard_boards]
    exact hpre
  | deleteBoard ob =>
    cases ob with
    | none =>
      simp only [SessionOp.apply, deleteBoard, Option.some.injEq] at hd
      rw [← hd]; exact h
    | some b => exact deleteBoard_tracked r r' b h hd
  | replaceBoard o n => exact replaceBoard_tracked r r' o n h hpre hd
  | switchMachine m res =>
    simp only [SessionOp.apply, switchMachine] at hd
    cases res with
    | error msg =>
      simp only [Option.map_some', Option.some.injEq] at hd
      rw [← hd]
      exact destroyBoard_tracked _ _ (prepare_tracked r _ h)
    | ok u =>
      simp only at hd
      cases hi : installBoard ((r.ensureDisplay.createEmptyMotherBoard).2.emit
          (ReactorEffect.loadMachine (r.ensureDisplay.createEmptyMotherBoard).1 m))
          (r.ensureDisplay.createEmptyMotherBoard).1 with
      | none => rw [hi] at hd; simp at hd
      | some r3 =>
        rw [hi] at hd
        simp only [Option.map_some', Option.some.injEq] at hd
        rw [← hd]
        exact installBoard_tracked _ _ _ hi
  | switchMachineFromSetup f res =>
    simp only [SessionOp.apply, switchMachineFromSetup] at hd
    cases res with
    | error e =>
      cases e with
      | xml msg =>
        simp only [Option.map_some', Option.some.injEq] at hd
        rw [← hd]
        exact destroyBoard_tracked _ _ (prepare_tracked r _ h)
      | msx msg =>
        simp only [Option.map_some', Option.some.injEq] at hd
        rw [← hd]
        exact destroyBoard_tracked _ _ (prepare_tracked r _ h)
    | ok u =>
      simp only at hd
      cases hi : installBoard ((r.ensureDisplay.createEmptyMotherBoard).2.emit
          (ReactorEffect.loadArchive (r.ensureDisplay.createEmptyMotherBoard).1 f))
          (r.ensureDisplay.createEmptyMotherBoard).1 with
      | none => rw [hi] at hd; simp at hd
      | some r3 =>
        rw [hi] at hd
        simp only [Option.map_some', Option.some.injEq] at hd
        rw [← hd]
        exact installBoard_tracked _ _ _ hi

theorem apply_progress (r : Reactor) (op : SessionOp) (h : r.activeTracked)
    (hpre : op.pre r) : ∃ r', op.apply r = some r' := by
  cases op with
  | create_machine => exact ⟨_, rfl⟩
  | switchBoard nb => exact ⟨_, rfl⟩
  | deleteBoard ob =>
    cases ob with
    | none => exact ⟨_, rfl⟩
    | some b =>
      rcases hpre with hpre | ⟨b', hb', hmem⟩
      · simp at hpre
      · simp only [Option.some.injEq] at hb'
        subst hb'
        exact deleteBoard_progress r b hmem
  | replaceBoard o n => exact replaceBoard_progress r o n hpre
  | switchMachine m res =>
    simp only [SessionOp.apply, switchMachine]
    cases res with
    | error msg => exact ⟨_, rfl⟩
    | ok u =>
      obtain ⟨r3, h3⟩ := installBoard_progress _ (r.ensureDisplay.createEmptyMotherBoard).1
        (prepare_tracked r (ReactorEffect.loadMachine (r.ensureDisplay.createEmptyMotherBoard).1 m) h)
      simp only
      rw [h3]
      exact ⟨_, rfl⟩
  | switchMachineFromSetup f res =>
    simp only [SessionOp.apply, switchMachineFromSetup]
    cases res with
    | error e => cases e <;> exact ⟨_, rfl⟩
    | ok u =>
      obtain ⟨r3, h3⟩ := installBoard_progress _ (r.ensureDisplay.createEmptyMotherBoard).1
        (prepare_tracked r (ReactorEffect.loadArchive (r.ensureDisplay.createEmptyMotherBoard).1 f) h)
      simp only
      rw [h3]
      exact ⟨_, rfl⟩

end Reactor

/-! ## Facts about the board operations -/

namespace MSXMotherBoard

theorem foldl_emit (hook : MSXMotherBoard → DevicePtr → BoardEffect)
    (hhook : ∀ acc e d, hook (acc.emit e) d = hook acc d) (l : List DevicePtr)
    (b : MSXMotherBoard) :
    l.foldl (fun acc d => acc.emit (hook acc d)) b =
      { b with effects := b.effects ++ l.map (hook b) } := by
  induction l generalizing b with
  | nil => simp
  | cons d ds ih =>
    simp only [List.foldl_cons, List.map_cons]
    rw [ih]
    have hmap : List.map (hook (b.emit (hook b d))) ds = List.map (hook b) ds := by
      apply List.map_congr_left
      intro x _
      exact hhook b (hook b d) x
    rw [hmap]
    simp [emit]

theorem forEachDevice_eq (hook : MSXMotherBoard → DevicePtr → BoardEffect)
    (hhook : ∀ acc e d, hook (acc.emit e) d = hook acc d) (b : MSXMotherBoard) :
    b.forEachDevice hook =
      { b with effects := b.effects ++ b.availableDevices.map (hook b) } :=
  foldl_emit hook hhook b.availableDevices b

theorem powerUp_powered (f : Nat) (b : MSXMotherBoard) (h : b.powered = true) :
    powerUp (f + 1) b = some b := by
  simp [powerUp, h]

theorem powerDown_unpowered (f : Nat) (b : MSXMotherBoard) (h : b.powered = false) :
    powerDown (f + 1) b = some b := by
  simp [powerDown, h]

theorem setBoolean_true_powered (f : Nat) (b : MSXMotherBoard) (h : b.powered = true) :
    powerSetting_setBoolean (f + 3) true b = some { b with powerSetting := true } := by
  unfold powerSetting_setBoolean
  by_cases hs : b.powerSetting = true
  · simp only [hs, if_true]
    cases b
    simp_all
  · simp only [hs, if_false]
    unfold SettingObserver_update
    simp only [if_true]
    exact powerUp_powered f _ h

theorem setBoolean_false_unpowered (f : Nat) (b : MSXMotherBoard) (h : b.powered = false) :
    powerSetting_setBoolean (f + 3) false b = some { b with powerSetting := false } := by
  unfold powerSetting_setBoolean
  by_cases hs : b.powerSetting = false
  · simp only [hs, if_true]
    cases b
    simp_all
  · simp only [hs, if_false]
    unfold SettingObserver_update
    simp only [Bool.false_eq_true, if_false]
    exact powerDown_unpowered f _ h

theorem powerUp_run (f : Nat) (b : MSXMotherBoard) (hp : b.powered = false)
    (hc : b.machineConfig.isSome = true) :
    powerUp (f + 4) b = some
      { b with powered := true, powerSetting := true,
               effects := b.effects ++ [BoardEffect.setPowerLed true, BoardEffect.cpuInterfaceReset]
                 ++ b.availableDevices.map (fun d => BoardEffect.devicePowerUp d b.currentTime true)
                 ++ [BoardEffect.cpuDoReset b.currentTime, BoardEffect.mixerUnmute,
                     BoardEffect.bootEvent] } := by
  have hnone : b.machineConfig.isNone = false := by
    cases hm : b.machineConfig with
    | none => rw [hm] at hc; simp at hc
    | some c => rfl
  unfold powerUp
  simp only [hp, hnone, Bool.false_eq_true, if_false]
  rw [setBoolean_true_powered f _ rfl]
  simp only
  rw [forEachDevice_eq (fun acc d => BoardEffect.devicePowerUp d _ acc.powered)
    (fun _ _ _ => rfl)]
  simp [emit]

theorem powerDown_run (f : Nat) (b : MSXMotherBoard) (hp : b.powered = true) :
    powerDown (f + 4) b = some
      { b with powered := false, powerSetting := false,
               effects := b.effects ++ [BoardEffect.setPowerLed false, BoardEffect.mixerMute]
                 ++ b.availableDevices.map
                      (fun d => BoardEffect.devicePowerDown d b.currentTime false) } := by
  unfold powerDown
  simp only [hp, Bool.not_true, Bool.false_eq_true, if_false]
  rw [setBoolean_false_unpowered f _ rfl]
  simp only
  rw [forEachDevice_eq (fun acc d => BoardEffect.devicePowerDown d _ acc.powered)
    (fun _ _ _ => rfl)]
  simp [emit]

end MSXMotherBoard

theorem poweredUpDevices_map_up (l : List DevicePtr) (t : Nat) (p : Bool) :
    poweredUpDevices (l.map (fun d => BoardEffect.devicePowerUp d t p)) = l := by
  induction l with
  | nil => rfl
  | cons d ds ih =>
    simp only [poweredUpDevices] at ih
    simp [poweredUpDevices, BoardEffect.hookDevice?, ih]

theorem poweredDownDevices_map_down (l : List DevicePtr) (t : Nat) (p : Bool) :
    poweredDownDevices (l.map (fun d => BoardEffect.devicePowerDown d t p)) = l := by
  induction l with
  | nil => rfl
  | cons d ds ih =>
    simp only [poweredDownDevices] at ih
    simp [poweredDownDevices, BoardEffect.hookDevice?, ih]

theorem poweredUpDevices_map_down (l : List DevicePtr) (t : Nat) (p : Bool) :
    poweredUpDevices (l.map (fun d => BoardEffect.devicePowerDown d t p)) = [] := by
  induction l with
  | nil => rfl
  | cons d ds ih =>
    simp only [poweredUpDevices] at ih
    simp [poweredUpDevices, BoardEffect.hookDevice?, ih]

theorem poweredDownDevices_map_up (l : List DevicePtr) (t : Nat) (p : Bool) :
    poweredDownDevices (l.map (fun d => BoardEffect.devicePowerUp d t p)) = [] := by
  induction l with
  | nil => rfl
  | cons d ds ih =>
    simp only [poweredDownDevices] at ih
    simp [poweredDownDevices, BoardEffect.hookDevice?, ih]

theorem resetDevices_map_reset (l : List DevicePtr) (t : Nat) :
    resetDevices (l.map (fun d => BoardEffect.deviceReset d t)) = l := by
  induction l with
  | nil => rfl
  | cons d ds ih =>
    simp only [resetDevices] at ih
    simp [resetDevices, BoardEffect.hookDevice?, ih]

namespace MSXMotherBoard

theorem doReset_run (b : MSXMotherBoard) (hp : b.powered = true) :
    b.doReset =
      { b with effects := b.effects ++ [BoardEffect.cpuInterfaceReset]
                 ++ b.availableDevices.map (fun d => BoardEffect.deviceReset d b.currentTime)
                 ++ [BoardEffect.cpuDoReset b.currentTime, BoardEffect.bootEvent] } := by
  unfold doReset
  rw [if_neg (by simp [hp])]
  simp only
  rw [forEachDevice_eq (fun _ d => BoardEffect.deviceReset d _) (fun _ _ _ => rfl)]
  simp [emit]

theorem removeDevice_addDevice (b : MSXMotherBoard) (d : DevicePtr) :
    (b.addDevice d).removeDevice d = some b := by
  unfold removeDevice addDevice
  simp only [rfind_unguarded_concat, move_pop_back_concat]

theorem destroyDevices_createDevices (l : List DevicePtr) (b : MSXMotherBoard) :
    HardwareConfig.destroyDevices l (l.foldl addDevice b) = some b := by
  induction l using List.reverseRecOn with
  | nil => rfl
  | append_singleton l d ih =>
    unfold HardwareConfig.destroyDevices at ih ⊢
    simp only [List.foldl_append, List.foldl_cons, List.foldl_nil, List.reverse_append,
      List.reverse_cons, List.reverse_nil, List.nil_append, List.singleton_append,
      List.foldlM_cons]
    rw [removeDevice_addDevice]
    exact ih

theorem fastForwardLoop_some (cpu : Nat → Nat) (time fuel : Nat) (b b' : MSXMotherBoard)
    (h : fastForwardLoop cpu time fuel b = some b') :
    time ≤ b'.currentTime ∧ b'.fastForwarding = b.fastForwarding ∧
    ∃ n, (b.currentTime < time → 1 ≤ n) ∧
      b'.effects = b.effects ++ List.replicate n (BoardEffect.cpuExecute true) := by
  induction fuel generalizing b with
  | zero =>
    unfold fastForwardLoop at h
    by_cases ht : time > b.currentTime
    · simp [ht] at h
    · simp only [ht, if_false, Option.some.injEq] at h
      subst h
      exact ⟨by omega, rfl, 0, fun hlt => absurd hlt ht, by simp⟩
  | succ fuel ih =>
    unfold fastForwardLoop at h
    by_cases ht : time > b.currentTime
    · simp only [ht, if_true] at h
      obtain ⟨h1, h2, n, _, h4⟩ := ih _ h
      refine ⟨h1, h2, n + 1, fun _ => by omega, ?_⟩
      rw [h4]
      simp [cpuExecute, List.replicate_succ]
    · simp only [ht, if_false, Option.some.injEq] at h
      subst h
      exact ⟨by omega, rfl, 0, fun hlt => absurd hlt ht, by simp⟩

theorem fastForwardLoop_terminates (cpu : Nat → Nat) (hcpu : ∀ t, t < cpu t) (time fuel : Nat)
    (b : MSXMotherBoard) (hfuel : time - b.currentTime ≤ fuel) :
    ∃ b', fastForwardLoop cpu time fuel b = some b' := by
  induction fuel generalizing b with
  | zero =>
    unfold fastForwardLoop
    have ht : ¬ (time > b.currentTime) := by omega
    simp [ht]
  | succ fuel ih =>
    unfold fastForwardLoop
    by_cases ht : time > b.currentTime
    · simp only [ht, if_true]
      apply ih
      have := hcpu b.currentTime
      simp only [cpuExecute]
      omega
    · simp [ht]

end MSXMotherBoard

/-! ## Facts about histories of the device list -/

theorem erase_perm_split (d : DevicePtr) (l1 l2 : List DevicePtr) :
    ((l1 ++ d :: l2).erase d).Perm (l1 ++ l2) := by
  have h : (l1 ++ d :: l2).Perm (d :: (l1 ++ l2)) := List.perm_middle
  have h2 := h.erase d
  simpa using h2

theorem applyDeviceOps_perm (ops : List DeviceOp) (installed : List DevicePtr)
    (b : MSXMotherBoard) (hperm : b.availableDevices.Perm installed)
    (hwf : DeviceOp.wellFormed ops installed = true) :
    ∃ b', b.applyDeviceOps ops = some b' ∧
      b'.availableDevices.Perm (DeviceOp.registrationOrder ops installed) ∧
      b'.powered = b.powered ∧ b'.currentTime = b.currentTime ∧ b'.effects = b.effects := by
  induction ops generalizing installed b with
  | nil => exact ⟨b, rfl, hperm, rfl, rfl, rfl⟩
  | cons op ops ih =>
    cases op with
    | addDevice d =>
      simp only [DeviceOp.wellFormed, Bool.and_eq_true] at hwf
      have hp2 : (b.addDevice d).availableDevices.Perm (installed ++ [d]) := by
        simp only [MSXMotherBoard.addDevice]
        exact List.Perm.append_right [d] hperm
      obtain ⟨b', h1, h2, h3, h4, h5⟩ := ih (installed ++ [d]) (b.addDevice d) hp2 hwf.2
      exact ⟨b', by simpa [MSXMotherBoard.applyDeviceOps] using h1, h2, h3, h4, h5⟩
    | removeDevice d =>
      simp only [DeviceOp.wellFormed, Bool.and_eq_true] at hwf
      have hwf1 : d ∈ installed := by simpa using hwf.1
      have hmem : d ∈ b.availableDevices := hperm.mem_iff.mpr hwf1
      obtain ⟨j, hj⟩ := rfind_unguarded_of_mem d b.availableDevices hmem
      obtain ⟨l1, l2, hl, _, hlen⟩ := rfind_unguarded_some d b.availableDevices j hj
      have hp2 :
          (move_pop_back b.availableDevices j).Perm (installed.erase d) := by
        rw [hl, hlen]
        refine (move_pop_back_perm d l1 l2).trans ?_
        refine (erase_perm_split d l1 l2).symm.trans ?_
        rw [← hl]
        exact hperm.erase d
      obtain ⟨b', h1, h2, h3, h4, h5⟩ :=
        ih (installed.erase d) { b with availableDevices := move_pop_back b.availableDevices j }
          hp2 hwf.2
      refine ⟨b', ?_, h2, h3, h4, h5⟩
      simp only [MSXMotherBoard.applyDeviceOps, MSXMotherBoard.removeDevice, hj]
      exact h1

theorem applyDeviceOps_adds (ops : List DeviceOp) (installed : List DevicePtr)
    (b : MSXMotherBoard) (heq : b.availableDevices = installed)
    (hadd : ∀ d, DeviceOp.removeDevice d ∉ ops) (b' : MSXMotherBoard)
    (h : b.applyDeviceOps ops = some b') :
    b'.availableDevices = DeviceOp.registrationOrder ops installed := by
  induction ops generalizing installed b with
  | nil =>
    simp only [MSXMotherBoard.applyDeviceOps, Option.some.injEq] at h
    subst h
    exact heq
  | cons op ops ih =>
    cases op with
    | addDevice d =>
      simp only [MSXMotherBoard.applyDeviceOps] at h
      refine ih (installed ++ [d]) (b.addDevice d) ?_ ?_ h
      · simp [MSXMotherBoard.addDevice, heq]
      · intro x hx
        exact hadd x (List.mem_cons_of_mem _ hx)
    | removeDevice d => exact absurd (List.mem_cons_self _ _) (hadd d)

theorem registrationOrder_nodup (ops : List DeviceOp) (installed : List DevicePtr)
    (hnd : installed.Nodup) (hwf : DeviceOp.wellFormed ops installed = true) :
    (DeviceOp.registrationOrder ops installed).Nodup := by
  induction ops generalizing installed with
  | nil => exact hnd
  | cons op ops ih =>
    cases op with
    | addDevice d =>
      simp only [DeviceOp.wellFormed, Bool.and_eq_true] at hwf
      have hwf1 : d ∉ installed := by simpa using hwf.1
      refine ih (installed ++ [d]) ?_ hwf.2
      rw [(List.perm_append_singleton d installed).nodup_iff]
      exact List.nodup_cons.mpr ⟨hwf1, hnd⟩
    | removeDevice d =>
      simp only [DeviceOp.wellFormed, Bool.and_eq_true] at hwf
      exact ih (installed.erase d) (hnd.erase d) hwf.2

/-! ## Session layer: the switch protocol and the tracked active board -/

/-- C1: for every session state and every board `newBoard` that is absent or tracked,
`switchBoard` emits, after what was logged before and in this order: the
deactivation of the old active board (if any), the swap of the active
reference to `newBoard`, the machine-loaded event, the HARDWARE "select" update
with the machine ID of `newBoard` (empty when absent), and the activation of
`newBoard` (if present).  No activation is emitted before the deactivation of
the old board, the active board is `newBoard` afterwards (absent or tracked)
and the board vector is unchanged. -/
theorem switchBoard_effect_order (r : Reactor) (newBoard : Option BoardPtr)
    (hnew : newBoard = none ∨ ∃ b, newBoard = some b ∧ b ∈ r.boards) :
    ∃ emitted : List ReactorEffect,
      (r.switchBoard newBoard).effects = r.effects ++ emitted ∧
      emitted =
        (match r.activeBoard with
          | some old => [ReactorEffect.activate old false]
          | none => []) ++
        [ReactorEffect.swapActive newBoard,
         ReactorEffect.machineLoadedEvent,
         ReactorEffect.cliUpdate UpdateType.HARDWARE
           (match newBoard with
            | some b => machineIDOf b
            | none => "") "select"] ++
        (match newBoard with
          | some b => [ReactorEffect.activate b true]
          | none => []) ∧
      (∀ old c pre post, r.activeBoard = some old →
        emitted = pre ++ ReactorEffect.activate c true :: post →
        ReactorEffect.activate old false ∈ pre) ∧
      (r.switchBoard newBoard).activeBoard = newBoard ∧
      (r.switchBoard newBoard).boards = r.boards ∧
      (r.activeTracked → r.switchBoardAsserts newBoard) ∧
      (r.switchBoard newBoard).activeTracked := by
  refine ⟨_, ?_, rfl, ?_, Reactor.switchBoard_activeBoard r newBoard,
    Reactor.switchBoard_boards r newBoard, fun ht => ⟨hnew, ht⟩, ?_⟩
  · unfold Reactor.switchBoard
    cases r.activeBoard <;> cases newBoard <;>
      simp [Reactor.emit, Reactor.getMachineID]
  · intro old c pre post hold hsplit
    rw [hold] at hsplit
    cases newBoard with
    | none =>
      rcases pre with _ | ⟨p0, _ | ⟨p1, _ | ⟨p2, _ | ⟨p3, _ | ⟨p4, pre⟩⟩⟩⟩⟩ <;>
        simp at hsplit
    | some b =>
      rcases pre with _ | ⟨p0, _ | ⟨p1, _ | ⟨p2, _ | ⟨p3, _ | ⟨p4, pre⟩⟩⟩⟩⟩ <;>
        simp at hsplit
      obtain ⟨h0, _⟩ := hsplit
      simp [h0]
  · unfold Reactor.activeTracked
    rw [Reactor.switchBoard_activeBoard, Reactor.switchBoard_boards]
    exact hnew

/-- C1 at a concrete session: boards 1 and 2 tracked, board 1 active, switch to board 2. -/
theorem switchBoard_effect_order_witness :
    ∃ emitted : List ReactorEffect,
      (Reactor.switchBoard
        { boards := [1, 2], activeBoard := some 1, display := true, machineIDCounter := 2,
          effects := [] } (some 2)).effects = [] ++ emitted ∧
      emitted =
        [ReactorEffect.activate 1 false] ++
        [ReactorEffect.swapActive (some 2),
         ReactorEffect.machineLoadedEvent,
         ReactorEffect.cliUpdate UpdateType.HARDWARE (machineIDOf 2) "select"] ++
        [ReactorEffect.activate 2 true] := by
  obtain ⟨emitted, h1, h2, _⟩ := switchBoard_effect_order
    { boards := [1, 2], activeBoard := some 1, display := true, machineIDCounter := 2,
      effects := [] } (some 2) (Or.inr ⟨2, rfl, by simp⟩)
  exact ⟨emitted, h1, h2⟩

/-- C2: in every session state reachable from the initial state by `create_machine`,
`switchBoard`, `deleteBoard`, `replaceBoard`, `switchMachine` and
`switchMachineFromSetup` (returning or throwing), the active board is absent or
tracked in the board vector; and from such a state each of these operations,
called on tracked boards, runs to a result. -/
theorem reachable_activeTracked (r : Reactor) (h : Reactor.Reachable r) :
    (r.activeBoard = none ∨ ∃ a, r.activeBoard = some a ∧ a ∈ r.boards) ∧
    ∀ op : SessionOp, op.pre r → ∃ r', op.apply r = some r' := by
  have hinv : r.activeTracked := by
    induction h with
    | init => exact Or.inl rfl
    | step q q' op _ hpre hd ih => exact Reactor.apply_tracked q q' op ih hpre hd
  exact ⟨hinv, fun op hpre => Reactor.apply_progress r op hinv hpre⟩

/-- C2 at a concrete reachable state: a machine is created and made active. -/
theorem reachable_activeTracked_witness :
    Reactor.Reachable (Reactor.initial.create_machine.1.switchBoard (some 1)) ∧
    ((Reactor.initial.create_machine.1.switchBoard (some 1)).activeBoard = none ∨
      ∃ a, (Reactor.initial.create_machine.1.switchBoard (some 1)).activeBoard = some a ∧
        a ∈ (Reactor.initial.create_machine.1.switchBoard (some 1)).boards) := by
  have hr : Reactor.Reachable (Reactor.initial.create_machine.1.switchBoard (some 1)) := by
    refine Reactor.Reachable.step Reactor.initial.create_machine.1 _
      (SessionOp.switchBoard (some 1)) ?_ ?_ rfl
    · exact Reactor.Reachable.step Reactor.initial _ SessionOp.create_machine
        Reactor.Reachable.init trivial rfl
    · exact Or.inr ⟨1, rfl, by simp [Reactor.create_machine, Reactor.createEmptyMotherBoard,
        Reactor.initial]⟩
  exact ⟨hr, (reachable_activeTracked _ hr).1⟩

/-! ## Board layer: power and reset -/

/-- C3: on an unpowered board with a machine configuration, `powerUp` (with fuel for
the nested observer calls) sets `powered` before anything else: the observer
call triggered by the power setting runs on a board with `powered = true` and
its re-entrant `powerUp` returns that board unchanged, and every device hook
sees `powered = true`.  The effects are, in order: power LED, CPU interface
reset, `powerUp` of every device of the device list in list order, CPU reset,
mixer unmute, boot event.  On an already powered board `powerUp` returns the
board unchanged. -/
theorem powerUp_sets_powered_first (fuel : Nat) (b : MSXMotherBoard) (hfuel : 4 ≤ fuel)
    (hp : b.powered = false) (hc : b.machineConfig.isSome = true) :
    b.powerUp fuel = some
      { b with powered := true, powerSetting := true,
               effects := b.effects ++ [BoardEffect.setPowerLed true, BoardEffect.cpuInterfaceReset]
                 ++ b.availableDevices.map (fun d => BoardEffect.devicePowerUp d b.currentTime true)
                 ++ [BoardEffect.cpuDoReset b.currentTime, BoardEffect.mixerUnmute,
                     BoardEffect.bootEvent] } ∧
    MSXMotherBoard.powerSetting_setBoolean (fuel - 1) true { b with powered := true } =
      some { b with powered := true, powerSetting := true } ∧
    MSXMotherBoard.SettingObserver_update (fuel - 2) { b with powered := true, powerSetting := true } =
      some { b with powered := true, powerSetting := true } ∧
    (∀ b' : MSXMotherBoard, b'.powered = true → b'.powerUp fuel = some b') := by
  obtain ⟨f, rfl⟩ := Nat.exists_eq_add_of_le' hfuel
  refine ⟨MSXMotherBoard.powerUp_run f b hp hc, ?_, ?_, ?_⟩
  · exact MSXMotherBoard.setBoolean_true_powered f _ rfl
  · show MSXMotherBoard.SettingObserver_update (f + 2) _ = _
    unfold MSXMotherBoard.SettingObserver_update
    simp only [if_true]
    exact MSXMotherBoard.powerUp_powered f _ rfl
  · intro b' hb'
    exact MSXMotherBoard.powerUp_powered (f + 3) b' hb'

/-- C3 at a concrete board: two devices, power setting off. -/
theorem powerUp_sets_powered_first_witness :
    MSXMotherBoard.powerUp 4
      { MSXMotherBoard.create "machine1" false with
        machineConfig := some ⟨"m", "m", ConfigType.MACHINE, [7, 9], none, none, none⟩,
        availableDevices := [7, 9], currentTime := 5 } = some
      { MSXMotherBoard.create "machine1" false with
        machineConfig := some ⟨"m", "m", ConfigType.MACHINE, [7, 9], none, none, none⟩,
        availableDevices := [7, 9], currentTime := 5, powered := true, powerSetting := true,
        effects := [BoardEffect.setPowerLed true, BoardEffect.cpuInterfaceReset,
          BoardEffect.devicePowerUp 7 5 true, BoardEffect.devicePowerUp 9 5 true,
          BoardEffect.cpuDoReset 5, BoardEffect.mixerUnmute, BoardEffect.bootEvent] } :=
  (powerUp_sets_powered_first 4
    { MSXMotherBoard.create "machine1" false with
      machineConfig := some ⟨"m", "m", ConfigType.MACHINE, [7, 9], none, none, none⟩,
      availableDevices := [7, 9], currentTime := 5 } (Nat.le_refl 4) rfl rfl).1

/-- C4: on a board without a machine configuration `powerUp` returns the board as it
was: `powered`, the power setting, every other field and the effect log are
unchanged, so no device hook ran and no boot event was emitted; an unpowered
board stays unpowered. -/
theorem powerUp_without_config (fuel : Nat) (b : MSXMotherBoard) (hfuel : 1 ≤ fuel)
    (hc : b.machineConfig = none) :
    b.powerUp fuel = some b ∧
    (b.powered = false →
      ∃ b', b.powerUp fuel = some b' ∧ b'.powered = false ∧
        b'.powerSetting = b.powerSetting ∧ b'.effects = b.effects) := by
  obtain ⟨f, rfl⟩ := Nat.exists_eq_add_of_le' hfuel
  have h : b.powerUp (f + 1) = some b := by
    unfold MSXMotherBoard.powerUp
    simp [hc]
  exact ⟨h, fun hpow => ⟨b, h, hpow, rfl, rfl⟩⟩

/-- C4 at a concrete board: a freshly constructed board with the power setting on. -/
theorem powerUp_without_config_witness :
    (MSXMotherBoard.create "machine1" true).powerUp 1 = some (MSXMotherBoard.create "machine1" true) :=
  (powerUp_without_config 1 (MSXMotherBoard.create "machine1" true) (Nat.le_refl 1) rfl).1

/-- C5: on a powered board `powerDown` clears `powered`, then (after the power LED)
mutes the mixer and invokes `powerDown` on every device of the device list in
list order, each exactly once; the machine configuration, the machine name, the
extension list and the device list are unchanged, and a following `powerUp`
(the configuration being loaded) powers the same devices again.  On an unpowered
board `powerDown` returns the board unchanged. -/
theorem powerDown_keeps_configuration (fuel : Nat) (b : MSXMotherBoard) (hfuel : 4 ≤ fuel)
    (hp : b.powered = true) :
    (∃ b1, b.powerDown fuel = some b1 ∧ b1.powered = false ∧
      b1.effects = b.effects ++ ([BoardEffect.setPowerLed false, BoardEffect.mixerMute]
        ++ b.availableDevices.map (fun d => BoardEffect.devicePowerDown d b.currentTime false)) ∧
      poweredDownDevices ([BoardEffect.setPowerLed false, BoardEffect.mixerMute]
        ++ b.availableDevices.map (fun d => BoardEffect.devicePowerDown d b.currentTime false))
        = b.availableDevices ∧
      b1.machineConfig = b.machineConfig ∧ b1.machineConfig2 = b.machineConfig2 ∧
      b1.machineName = b.machineName ∧ b1.extensions = b.extensions ∧
      b1.availableDevices = b.availableDevices ∧
      (b.machineConfig.isSome = true →
        ∃ b2 emitted, b1.powerUp fuel = some b2 ∧ b2.effects = b1.effects ++ emitted ∧
          poweredUpDevices emitted = b.availableDevices)) ∧
    (∀ b' : MSXMotherBoard, b'.powered = false → b'.powerDown fuel = some b') := by
  obtain ⟨f, rfl⟩ := Nat.exists_eq_add_of_le' hfuel
  refine ⟨⟨_, MSXMotherBoard.powerDown_run f b hp, rfl, ?_, ?_, rfl, rfl, rfl, rfl, rfl, ?_⟩, ?_⟩
  · simp
  · have := poweredDownDevices_map_down b.availableDevices b.currentTime false
    simp only [poweredDownDevices] at this
    simp [poweredDownDevices, List.filterMap_append, this, BoardEffect.hookDevice?]
  · intro hc
    refine ⟨_, [BoardEffect.setPowerLed true, BoardEffect.cpuInterfaceReset]
      ++ b.availableDevices.map (fun d => BoardEffect.devicePowerUp d b.currentTime true)
      ++ [BoardEffect.cpuDoReset b.currentTime, BoardEffect.mixerUnmute, BoardEffect.bootEvent],
      MSXMotherBoard.powerUp_run f _ rfl hc, ?_, ?_⟩
    · simp
    · have := poweredUpDevices_map_up b.availableDevices b.currentTime true
      simp only [poweredUpDevices] at this
      simp [poweredUpDevices, List.filterMap_append, this, BoardEffect.hookDevice?]
  · intro b' hb'
    exact MSXMotherBoard.powerDown_unpowered (f + 3) b' hb'

/-- C5 at a concrete powered board with two devices. -/
theorem powerDown_keeps_configuration_witness :
    ∃ b1, MSXMotherBoard.powerDown 4
      { MSXMotherBoard.create "machine1" true with
        machineConfig := some ⟨"m", "m", ConfigType.MACHINE, [7, 9], none, none, none⟩,
        availableDevices := [7, 9], powered := true } = some b1 ∧ b1.powered = false ∧
      b1.availableDevices = [7, 9] := by
  obtain ⟨⟨b1, h1, h2, _, _, _, _, _, _, h3, _⟩, _⟩ := powerDown_keeps_configuration 4
    { MSXMotherBoard.create "machine1" true with
      machineConfig := some ⟨"m", "m", ConfigType.MACHINE, [7, 9], none, none, none⟩,
      availableDevices := [7, 9], powered := true } (Nat.le_refl 4) rfl
  exact ⟨b1, h1, h2, h3⟩

/-- C6: on an unpowered board with a machine configuration, the calls `powerUp`,
`powerDown`, `powerUp` all run to a result; the device hooks of the first and
third call are `powerUp` hooks and those of the second `powerDown` hooks, and in
each call the sequence of devices visited is the device list itself, so the
order is the same in all three calls and a device listed once is visited
exactly once per call. -/
theorem power_cycle_same_order (fuel : Nat) (b : MSXMotherBoard) (hfuel : 4 ≤ fuel)
    (hp : b.powered = false) (hc : b.machineConfig.isSome = true) :
    ∃ b1 b2 b3 e1 e2 e3,
      b.powerUp fuel = some b1 ∧ b1.powerDown fuel = some b2 ∧ b2.powerUp fuel = some b3 ∧
      b1.effects = b.effects ++ e1 ∧ b2.effects = b1.effects ++ e2 ∧
      b3.effects = b2.effects ++ e3 ∧
      poweredUpDevices e1 = b.availableDevices ∧ poweredDownDevices e1 = [] ∧
      poweredDownDevices e2 = b.availableDevices ∧ poweredUpDevices e2 = [] ∧
      poweredUpDevices e3 = b.availableDevices ∧ poweredDownDevices e3 = [] ∧
      (b.availableDevices.Nodup → ∀ d ∈ b.availableDevices,
        (poweredUpDevices e1).count d = 1 ∧ (poweredDownDevices e2).count d = 1 ∧
        (poweredUpDevices e3).count d = 1) := by
  obtain ⟨f, rfl⟩ := Nat.exists_eq_add_of_le' hfuel
  have hup : ∀ t, poweredUpDevices
      ([BoardEffect.setPowerLed true, BoardEffect.cpuInterfaceReset]
        ++ b.availableDevices.map (fun d => BoardEffect.devicePowerUp d t true)
        ++ [BoardEffect.cpuDoReset t, BoardEffect.mixerUnmute, BoardEffect.bootEvent])
      = b.availableDevices := by
    intro t
    have := poweredUpDevices_map_up b.availableDevices t true
    simp only [poweredUpDevices] at this
    simp [poweredUpDevices, List.filterMap_append, this, BoardEffect.hookDevice?]
  have hup' : ∀ t, poweredDownDevices
      ([BoardEffect.setPowerLed true, BoardEffect.cpuInterfaceReset]
        ++ b.availableDevices.map (fun d => BoardEffect.devicePowerUp d t true)
        ++ [BoardEffect.cpuDoReset t, BoardEffect.mixerUnmute, BoardEffect.bootEvent])
      = [] := by
    intro t
    have := poweredDownDevices_map_up b.availableDevices t true
    simp only [poweredDownDevices] at this
    simp [poweredDownDevices, List.filterMap_append, this, BoardEffect.hookDevice?]
  have hdown : ∀ t, poweredDownDevices
      ([BoardEffect.setPowerLed false, BoardEffect.mixerMute]
        ++ b.availableDevices.map (fun d => BoardEffect.devicePowerDown d t false))
      = b.availableDevices := by
    intro t
    have := poweredDownDevices_map_down b.availableDevices t false
    simp only [poweredDownDevices] at this
    simp [poweredDownDevices, List.filterMap_append, this, BoardEffect.hookDevice?]
  have hdown' : ∀ t, poweredUpDevices
      ([BoardEffect.setPowerLed false, BoardEffect.mixerMute]
        ++ b.availableDevices.map (fun d => BoardEffect.devicePowerDown d t false))
      = [] := by
    intro t
    have := poweredUpDevices_map_down b.availableDevices t false
    simp only [poweredUpDevices] at this
    simp [poweredUpDevices, List.filterMap_append, this, BoardEffect.hookDevice?]
  refine ⟨_, _, _, _, _, _, MSXMotherBoard.powerUp_run f b hp hc,
    MSXMotherBoard.powerDown_run f _ rfl, MSXMotherBoard.powerUp_run f _ rfl hc,
    ?_, ?_, ?_, hup b.currentTime, hup' b.currentTime, hdown b.currentTime,
    hdown' b.currentTime, hup b.currentTime, hup' b.currentTime, ?_⟩
  · simp
  · simp
  · simp
  · intro hnd d hd
    rw [hup, hdown]
    exact ⟨List.count_eq_one_of_mem hnd hd, List.count_eq_one_of_mem hnd hd,
      List.count_eq_one_of_mem hnd hd⟩

/-- C6 at a concrete board with the devices 7 and 9. -/
theorem power_cycle_same_order_witness :
    ∃ b1 b2 b3 e1 e2 e3,
      MSXMotherBoard.powerUp 4
        { MSXMotherBoard.create "machine1" false with
          machineConfig := some ⟨"m", "m", ConfigType.MACHINE, [7, 9], none, none, none⟩,
          availableDevices := [7, 9] } = some b1 ∧
      b1.powerDown 4 = some b2 ∧ b2.powerUp 4 = some b3 ∧
      b1.effects = [] ++ e1 ∧ b2.effects = b1.effects ++ e2 ∧ b3.effects = b2.effects ++ e3 ∧
      poweredUpDevices e1 = [7, 9] ∧ poweredDownDevices e2 = [7, 9] ∧
      poweredUpDevices e3 = [7, 9] := by
  obtain ⟨b1, b2, b3, e1, e2, e3, h1, h2, h3, h4, h5, h6, h7, _, h9, _, h11, _⟩ :=
    power_cycle_same_order 4
      { MSXMotherBoard.create "machine1" false with
        machineConfig := some ⟨"m", "m", ConfigType.MACHINE, [7, 9], none, none, none⟩,
        availableDevices := [7, 9] } (Nat.le_refl 4) rfl rfl
  exact ⟨b1, b2, b3, e1, e2, e3, h1, h2, h3, h4, h5, h6, h7, h9, h11⟩

/-- C7, as stated, fails on the code.  After the history `addDevice 1`, `addDevice 2`,
`addDevice 3`, `removeDevice 1` on a powered board, `doReset` resets device 3
before device 2, while the installed devices in registration order are 2, 3;
and on an unpowered board with the devices 1 and 2, `doReset` resets nothing. -/
theorem doReset_registration_order_counterexample :
    DeviceOp.wellFormed
      [DeviceOp.addDevice 1, DeviceOp.addDevice 2, DeviceOp.addDevice 3, DeviceOp.removeDevice 1]
      [] = true ∧
    DeviceOp.registrationOrder
      [DeviceOp.addDevice 1, DeviceOp.addDevice 2, DeviceOp.addDevice 3, DeviceOp.removeDevice 1]
      [] = [2, 3] ∧
    (MSXMotherBoard.applyDeviceOps
      [DeviceOp.addDevice 1, DeviceOp.addDevice 2, DeviceOp.addDevice 3, DeviceOp.removeDevice 1]
      { MSXMotherBoard.create "machine1" true with
        machineConfig := some ⟨"m", "m", ConfigType.MACHINE, [], none, none, none⟩,
        powered := true }).map (fun b => b.doReset.effects) =
      some [BoardEffect.cpuInterfaceReset, BoardEffect.deviceReset 3 0,
        BoardEffect.deviceReset 2 0, BoardEffect.cpuDoReset 0, BoardEffect.bootEvent] ∧
    (MSXMotherBoard.doReset
      { MSXMotherBoard.create "machine1" false with
        machineConfig := some ⟨"m", "m", ConfigType.MACHINE, [], none, none, none⟩,
        availableDevices := [1, 2] }).effects = [] := by
  refine ⟨by decide, by decide, by decide, by decide⟩

/-- C7 (amended): on a powered board whose device list was built from the empty list by
a well-formed history of `addDevice`/`removeDevice` calls, `doReset` resets the
CPU interface first, then invokes `reset` on every device of the device list in
list order, then resets the CPU, then emits the boot event, and changes nothing
but the effect log.  The device list holds every installed device exactly once
(it is a permutation of the registration order without duplicates) and it is
in registration order when the history removes no device.  On an unpowered
board `doReset` returns the board unchanged. -/
theorem doReset_device_list_order (b0 : MSXMotherBoard) (ops : List DeviceOp)
    (h0 : b0.availableDevices = []) (hwf : DeviceOp.wellFormed ops [] = true)
    (hp : b0.powered = true) :
    (∃ b, b0.applyDeviceOps ops = some b ∧
      b.doReset =
        { b with effects := b.effects ++ [BoardEffect.cpuInterfaceReset]
                   ++ b.availableDevices.map (fun d => BoardEffect.deviceReset d b.currentTime)
                   ++ [BoardEffect.cpuDoReset b.currentTime, BoardEffect.bootEvent] } ∧
      resetDevices ([BoardEffect.cpuInterfaceReset]
          ++ b.availableDevices.map (fun d => BoardEffect.deviceReset d b.currentTime)
          ++ [BoardEffect.cpuDoReset b.currentTime, BoardEffect.bootEvent])
        = b.availableDevices ∧
      b.availableDevices.Perm (DeviceOp.registrationOrder ops []) ∧
      b.availableDevices.Nodup ∧
      ((∀ d, DeviceOp.removeDevice d ∉ ops) →
        b.availableDevices = DeviceOp.registrationOrder ops [])) ∧
    (∀ b' : MSXMotherBoard, b'.powered = false → b'.doReset = b') := by
  constructor
  · obtain ⟨b, h1, h2, h3, _, _⟩ :=
      applyDeviceOps_perm ops [] b0 (by rw [h0]) hwf
    refine ⟨b, h1, MSXMotherBoard.doReset_run b (by rw [h3, hp]), ?_, h2, ?_, ?_⟩
    · have := resetDevices_map_reset b.availableDevices b.currentTime
      simp only [resetDevices] at this
      simp [resetDevices, List.filterMap_append, this, BoardEffect.hookDevice?]
    · rw [h2.nodup_iff]
      exact registrationOrder_nodup ops [] List.nodup_nil hwf
    · intro hadd
      exact applyDeviceOps_adds ops [] b0 h0 hadd b h1
  · intro b' hb'
    unfold MSXMotherBoard.doReset
    simp [hb']

/-- C7 (amended) at a concrete history: three devices registered, the first removed. -/
theorem doReset_device_list_order_witness :
    ∃ b, MSXMotherBoard.applyDeviceOps
        [DeviceOp.addDevice 1, DeviceOp.addDevice 2, DeviceOp.addDevice 3,
          DeviceOp.removeDevice 1]
        { MSXMotherBoard.create "machine1" true with
          machineConfig := some ⟨"m", "m", ConfigType.MACHINE, [], none, none, none⟩,
          powered := true } = some b ∧
      b.availableDevices.Perm [2, 3] ∧ b.availableDevices.Nodup := by
  obtain ⟨⟨b, h1, _, _, h4, h5, _⟩, _⟩ := doReset_device_list_order
    { MSXMotherBoard.create "machine1" true with
      machineConfig := some ⟨"m", "m", ConfigType.MACHINE, [], none, none, none⟩,
      powered := true }
    [DeviceOp.addDevice 1, DeviceOp.addDevice 2, DeviceOp.addDevice 3, DeviceOp.removeDevice 1]
    rfl (by decide) rfl
  exact ⟨b, h1, h4, h5⟩

/-! ## Board layer: fast forward, machine loading and extensions -/

/-- C8: on a powered board with a machine configuration, `fastForward` to a time not
after the current time returns the board unchanged (no sync point, no pacing or
mixer call, no CPU run).  For a later target time, whenever it returns, the
current time has reached the target, the effects are: real-time disable, mixer
mute, sync point at the target, then at least one CPU run in fast-forward mode,
then real-time enable and mixer unmute, and `fastForwarding` has its value from
before the call.  It does return when each CPU run advances the time. -/
theorem fastForward_reaches_target (cpu : Nat → Nat) (fuel : Nat) (b : MSXMotherBoard)
    (time : Nat) (fast : Bool) (hp : b.powered = true) (hc : b.machineConfig.isSome = true) :
    b.fastForwardAsserts ∧
    (time ≤ b.currentTime → b.fastForward cpu fuel time fast = some b) ∧
    (b.currentTime < time → ∀ b', b.fastForward cpu fuel time fast = some b' →
      time ≤ b'.currentTime ∧ b'.fastForwarding = b.fastForwarding ∧
      ∃ n, 1 ≤ n ∧
        b'.effects = b.effects
          ++ [BoardEffect.realTimeDisable, BoardEffect.mixerMute, BoardEffect.setSyncPoint time]
          ++ List.replicate n (BoardEffect.cpuExecute true)
          ++ [BoardEffect.realTimeEnable, BoardEffect.mixerUnmute]) ∧
    (b.currentTime < time → (∀ t, t < cpu t) →
      ∃ b', b.fastForward cpu (time - b.currentTime) time fast = some b') := by
  refine ⟨⟨hp, hc⟩, ?_, ?_, ?_⟩
  · intro h
    simp [MSXMotherBoard.fastForward, h]
  · intro hlt b' hff
    have hnle : ¬ time ≤ b.currentTime := by omega
    unfold MSXMotherBoard.fastForward at hff
    simp only [hnle, if_false] at hff
    cases hloop : MSXMotherBoard.fastForwardLoop cpu time fuel
        ((({ b with fastForwarding := fast }.emit BoardEffect.realTimeDisable).emit
          BoardEffect.mixerMute).emit (BoardEffect.setSyncPoint time)) with
    | none => rw [hloop] at hff; simp at hff
    | some b5 =>
      rw [hloop] at hff
      simp only [Option.some.injEq] at hff
      obtain ⟨h1, _, n, h3, h4⟩ := MSXMotherBoard.fastForwardLoop_some cpu time fuel _ b5 hloop
      rw [← hff]
      refine ⟨h1, rfl, n, h3 hlt, ?_⟩
      simp [MSXMotherBoard.emit, h4]
  · intro hlt hcpu
    have hnle : ¬ time ≤ b.currentTime := by omega
    unfold MSXMotherBoard.fastForward
    simp only [hnle, if_false]
    obtain ⟨b5, h5⟩ := MSXMotherBoard.fastForwardLoop_terminates cpu hcpu time
      (time - b.currentTime)
      ((({ b with fastForwarding := fast }.emit BoardEffect.realTimeDisable).emit
          BoardEffect.mixerMute).emit (BoardEffect.setSyncPoint time)) (Nat.le_refl _)
    rw [h5]
    exact ⟨_, rfl⟩

/-- C8 at a concrete board: time 0, target 5, CPU runs of three time units. -/
theorem fastForward_reaches_target_witness :
    ∃ b', MSXMotherBoard.fastForward (fun t => t + 3) 5
        { MSXMotherBoard.create "machine1" true with
          machineConfig := some ⟨"m", "m", ConfigType.MACHINE, [], none, none, none⟩,
          powered := true } 5 true = some b' ∧
      5 ≤ b'.currentTime ∧ b'.fastForwarding = false := by
  obtain ⟨b', hb'⟩ := (fastForward_reaches_target (fun t => t + 3) 5
    { MSXMotherBoard.create "machine1" true with
      machineConfig := some ⟨"m", "m", ConfigType.MACHINE, [], none, none, none⟩,
      powered := true } 5 true rfl rfl).2.2.2 (by decide) (fun t => by omega)
  obtain ⟨h1, h2, _⟩ := (fastForward_reaches_target (fun t => t + 3) 5
    { MSXMotherBoard.create "machine1" true with
      machineConfig := some ⟨"m", "m", ConfigType.MACHINE, [], none, none, none⟩,
      powered := true } 5 true rfl rfl).2.2.1 (by decide) b' hb'
  exact ⟨b', hb', h1, h2⟩

/-- C9: on a board that already has a machine configuration, the `load_machine`
command with any machine name fails with the command error "Already loaded a
config in this machine." and returns the board as it was: the machine
configuration, the machine name, the extension list, the device list, the
power state and the effect log are unchanged. -/
theorem load_machine_twice_fails
    (createMachineConfig : String → Except ConfigError HardwareConfig) (fuel : Nat)
    (b : MSXMotherBoard) (machine : String) (hc : b.machineConfig.isSome = true) :
    ∃ b', LoadMachineCmd.execute createMachineConfig fuel b ["load_machine", machine] =
        some (b', Except.error (CommandError.command "Already loaded a config in this machine.")) ∧
      b' = b ∧ b'.machineConfig = b.machineConfig ∧ b'.machineConfig2 = b.machineConfig2 ∧
      b'.machineName = b.machineName ∧ b'.extensions = b.extensions ∧
      b'.availableDevices = b.availableDevices ∧ b'.powered = b.powered ∧
      b'.powerSetting = b.powerSetting ∧ b'.effects = b.effects := by
  refine ⟨b, ?_, rfl, rfl, rfl, rfl, rfl, rfl, rfl, rfl, rfl⟩
  unfold LoadMachineCmd.execute
  rw [if_neg (by simp), if_pos hc]

/-- C9 at a concrete board: a loaded, powered machine is asked to load another one. -/
theorem load_machine_twice_fails_witness :
    ∃ b', LoadMachineCmd.execute (fun _ => Except.error (ConfigError.file "no such file")) 4
        { MSXMotherBoard.create "machine1" true with
          machineName := "m",
          machineConfig2 := some ⟨"m", "m", ConfigType.MACHINE, [], none, none, none⟩,
          machineConfig := some ⟨"m", "m", ConfigType.MACHINE, [], none, none, none⟩,
          powered := true } ["load_machine", "other"] =
        some (b', Except.error (CommandError.command "Already loaded a config in this machine.")) ∧
      b'.machineName = "m" ∧ b'.powered = true := by
  obtain ⟨b', h1, h2, _⟩ := load_machine_twice_fails
    (fun _ => Except.error (ConfigError.file "no such file")) 4
    { MSXMotherBoard.create "machine1" true with
      machineName := "m",
      machineConfig2 := some ⟨"m", "m", ConfigType.MACHINE, [], none, none, none⟩,
      machineConfig := some ⟨"m", "m", ConfigType.MACHINE, [], none, none, none⟩,
      powered := true } "other" rfl
  exact ⟨b', h1, by rw [h2], by rw [h2]⟩

/-- C10: `insertExtension` is atomic.  When `parseSlots` or `createDevices` throws, an
error naming the extension is raised and the board is the one from before the
call (same extension list, same device list, nothing added to the effect log,
so no "add" update).  When both succeed, the extension is appended as last
element of the extension list, exactly one EXTENSION "add" update with the
name of the extension is emitted and that name is returned. -/
theorem insertExtension_atomic (b : MSXMotherBoard) (name : String) (extension : HardwareConfig) :
    (∀ msg, extension.parseSlotsError = some msg →
      b.insertExtension name extension =
        some (b, Except.error ("Error in \"" ++ name ++ "\" extension: " ++ msg))) ∧
    (∀ k msg, extension.parseSlotsError = none → extension.createDevicesError = some (k, msg) →
      b.insertExtension name extension =
        some (b, Except.error ("Error in \"" ++ name ++ "\" extension: " ++ msg))) ∧
    (extension.parseSlotsError = none → extension.createDevicesError = none →
      b.insertExtension name extension =
        some ({ b with availableDevices := b.availableDevices ++ extension.devices,
                       extensions := b.extensions ++ [extension],
                       effects := b.effects ++
                         [BoardEffect.cliUpdate UpdateType.EXTENSION extension.name "add"] },
              Except.ok extension.name)) := by
  refine ⟨?_, ?_, ?_⟩
  · intro msg h
    simp [MSXMotherBoard.insertExtension, HardwareConfig.parseSlots, h]
  · intro k msg h1 h2
    simp only [MSXMotherBoard.insertExtension, HardwareConfig.parseSlots, h1,
      HardwareConfig.createDevices, h2]
    rw [MSXMotherBoard.destroyDevices_createDevices]
  · intro h1 h2
    have hfold : ∀ (l : List DevicePtr) (q : MSXMotherBoard),
        l.foldl MSXMotherBoard.addDevice q =
          { q with availableDevices := q.availableDevices ++ l } := by
      intro l
      induction l with
      | nil => intro q; simp
      | cons d ds ih => intro q; simp [ih, MSXMotherBoard.addDevice]
    simp only [MSXMotherBoard.insertExtension, HardwareConfig.parseSlots, h1,
      HardwareConfig.createDevices, h2, hfold, MSXMotherBoard.emit]

/-- C10 at a concrete extension whose device creation fails after one of two devices. -/
theorem insertExtension_atomic_witness :
    MSXMotherBoard.insertExtension
      { MSXMotherBoard.create "machine1" true with availableDevices := [1, 2] } "fmpac"
      ⟨"fmpac", "fmpac", ConfigType.EXTENSION, [3, 4], none, some (1, "no rom"), none⟩ =
    some ({ MSXMotherBoard.create "machine1" true with availableDevices := [1, 2] },
      Except.error ("Error in \"" ++ "fmpac" ++ "\" extension: " ++ "no rom")) :=
  (insertExtension_atomic
    { MSXMotherBoard.create "machine1" true with availableDevices := [1, 2] } "fmpac"
    ⟨"fmpac", "fmpac", ConfigType.EXTENSION, [3, 4], none, some (1, "no rom"), none⟩).2.1
    1 "no rom" rfl rfl

/-! ## Facts about extension lookup and removal -/

theorem findFrom_append {α : Type} [DecidableEq α] (x : α) (l1 l2 : List α) (i : Nat)
    (h : x ∉ l1) : findFrom x (l1 ++ x :: l2) i = some (i + l1.length) := by
  induction l1 generalizing i with
  | nil => simp [findFrom]
  | cons y ys ih =>
    have hy : y ≠ x := fun e => h (by simp [e])
    have hys : x ∉ ys := fun e => h (List.mem_cons_of_mem _ e)
    show findFrom x (y :: (ys ++ x :: l2)) i = some (i + (y :: ys).length)
    rw [findFrom, if_neg hy, ih (i + 1) hys, List.length_cons]
    exact congrArg some (by omega)

theorem findFrom_none {α : Type} [DecidableEq α] (x : α) (l : List α) (i : Nat)
    (h : x ∉ l) : findFrom x l i = none := by
  induction l generalizing i with
  | nil => rfl
  | cons y ys ih =>
    have hy : y ≠ x := fun e => h (by simp [e])
    have hys : x ∉ ys := fun e => h (List.mem_cons_of_mem _ e)
    simp only [findFrom, hy, if_false, ih (i + 1) hys]

theorem get?_split {α : Type} (l1 l2 : List α) (e : α) :
    (l1 ++ e :: l2).get? l1.length = some e := by
  rw [List.get?_eq_getElem?, List.getElem?_append_right (Nat.le_refl _)]
  simp

theorem eraseIdx_split {α : Type} (l1 l2 : List α) (e : α) :
    (l1 ++ e :: l2).eraseIdx l1.length = l1 ++ l2 := by
  induction l1 with
  | nil => rfl
  | cons y ys ih => simp [List.eraseIdx, ih]

namespace MSXMotherBoard

theorem findExtension_split (b : MSXMotherBoard) (l1 l2 : List HardwareConfig)
    (e : HardwareConfig) (hsplit : b.extensions = l1 ++ e :: l2)
    (h1 : ∀ x ∈ l1, x.name ≠ e.name) : b.findExtension e.name = some l1.length := by
  unfold findExtension
  rw [hsplit]
  simp only [List.map_append, List.map_cons]
  have hn : e.name ∉ l1.map HardwareConfig.name := by
    intro hmem
    obtain ⟨x, hx, hxe⟩ := List.mem_map.mp hmem
    exact h1 x hx hxe
  rw [findFrom_append e.name _ _ 0 hn]
  simp

theorem findExtension_none (b : MSXMotherBoard) (extensionName : String)
    (h : ∀ x ∈ b.extensions, x.name ≠ extensionName) : b.findExtension extensionName = none := by
  unfold findExtension
  apply findFrom_none
  intro hmem
  obtain ⟨x, hx, hxe⟩ := List.mem_map.mp hmem
  exact h x hx hxe

/-- Removing registered, pairwise distinct devices one after the other succeeds,
touches only the device list and takes exactly these devices out of it. -/
theorem foldlM_removeDevice (m : List DevicePtr) (b : MSXMotherBoard) (hnd : m.Nodup)
    (hsub : ∀ d ∈ m, d ∈ b.availableDevices) :
    ∃ b', m.foldlM removeDevice b = some b' ∧
      b' = { b with availableDevices := b'.availableDevices } ∧
      b.availableDevices.Perm (m ++ b'.availableDevices) := by
  induction m generalizing b with
  | nil => exact ⟨b, rfl, rfl, List.Perm.refl _⟩
  | cons d m ih =>
    have hd : d ∈ b.availableDevices := hsub d (List.mem_cons_self _ _)
    obtain ⟨j, hj⟩ := rfind_unguarded_of_mem d b.availableDevices hd
    obtain ⟨l1, l2, hl, _, hlen⟩ := rfind_unguarded_some d b.availableDevices j hj
    have hnd' := List.nodup_cons.mp hnd
    have hsub' : ∀ x ∈ m, x ∈ move_pop_back b.availableDevices j := by
      intro x hx
      rw [hl, hlen]
      refine mem_move_pop_back d x l1 l2 ?_ ?_
      · rw [← hl]
        exact hsub x (List.mem_cons_of_mem _ hx)
      · intro e
        exact hnd'.1 (e ▸ hx)
    obtain ⟨b', h1, h2, h3⟩ :=
      ih { b with availableDevices := move_pop_back b.availableDevices j } hnd'.2 hsub'
    refine ⟨b', ?_, ?_, ?_⟩
    · simp only [List.foldlM_cons, removeDevice, hj]
      exact h1
    · rw [h2]
    · have hp : b.availableDevices.Perm (d :: move_pop_back b.availableDevices j) := by
        rw [hl, hlen]
        exact List.perm_middle.trans (List.Perm.cons d (move_pop_back_perm d l1 l2).symm)
      exact hp.trans (List.Perm.cons d h3)

theorem destroyDevices_registered (l : List DevicePtr) (b : MSXMotherBoard) (hnd : l.Nodup)
    (hsub : ∀ d ∈ l, d ∈ b.availableDevices) :
    ∃ b', HardwareConfig.destroyDevices l b = some b' ∧
      b' = { b with availableDevices := b'.availableDevices } ∧
      b.availableDevices.Perm (l ++ b'.availableDevices) := by
  obtain ⟨b', h1, h2, h3⟩ := foldlM_removeDevice l.reverse b (List.nodup_reverse.mpr hnd)
    (fun d hd => hsub d (List.mem_reverse.mp hd))
  refine ⟨b', h1, h2, h3.trans ?_⟩
  exact List.Perm.append_right _ (List.reverse_perm l)

/-- The run of `removeExtension` on a removable extension whose devices are registered. -/
theorem removeExtension_run (b : MSXMotherBoard) (l1 l2 : List HardwareConfig)
    (e : HardwareConfig) (hsplit : b.extensions = l1 ++ e :: l2)
    (hrem : e.testRemoveError = none) (hnd : e.devices.Nodup)
    (hreg : ∀ d ∈ e.devices, d ∈ b.availableDevices) :
    ∃ b', b.removeExtension l1.length = some (b', Except.ok ()) ∧
      b' = { b with extensions := l1 ++ l2,
                    effects := b.effects ++
                      [BoardEffect.cliUpdate UpdateType.EXTENSION e.name "remove"],
                    availableDevices := b'.availableDevices } ∧
      b.availableDevices.Perm (e.devices ++ b'.availableDevices) := by
  obtain ⟨b', h1, h2, h3⟩ := destroyDevices_registered e.devices
    { b with extensions := l1 ++ l2,
             effects := b.effects ++ [BoardEffect.cliUpdate UpdateType.EXTENSION e.name "remove"] }
    hnd hreg
  refine ⟨b', ?_, ?_, h3⟩
  · unfold removeExtension
    rw [hsplit, get?_split]
    simp only [HardwareConfig.testRemove, hrem, emit]
    rw [hsplit, eraseIdx_split, h1]
  · rw [h2]

theorem removeExtension_refused (b : MSXMotherBoard) (l1 l2 : List HardwareConfig)
    (e : HardwareConfig) (msg : String) (hsplit : b.extensions = l1 ++ e :: l2)
    (hrem : e.testRemoveError = some msg) :
    b.removeExtension l1.length = some (b, Except.error msg) := by
  unfold removeExtension
  rw [hsplit, get?_split]
  simp only [HardwareConfig.testRemove, hrem]

end MSXMotherBoard

/-! ## Board layer: removing extensions -/

/-- C11: on a board whose extension list holds the extension `e`, the first entry with
its name, removable and with its devices registered, the `remove_extension`
command for that name succeeds and emits exactly one EXTENSION "remove" update
carrying the name; the extension list loses exactly that entry and the other
entries keep their relative order.  When no other entry carries the name,
`findExtension` finds nothing for it afterwards. -/
theorem remove_extension_removes_named (b : MSXMotherBoard) (l1 l2 : List HardwareConfig)
    (e : HardwareConfig) (hsplit : b.extensions = l1 ++ e :: l2)
    (h1 : ∀ x ∈ l1, x.name ≠ e.name) (hrem : e.testRemoveError = none)
    (hnd : e.devices.Nodup) (hreg : ∀ d ∈ e.devices, d ∈ b.availableDevices) :
    ∃ b', RemoveExtCmd.execute b ["remove_extension", e.name] = some (b', Except.ok ()) ∧
      b'.effects = b.effects ++ [BoardEffect.cliUpdate UpdateType.EXTENSION e.name "remove"] ∧
      b'.extensions = l1 ++ l2 ∧
      b'.extensions.length + 1 = b.extensions.length ∧
      ((∀ x ∈ l2, x.name ≠ e.name) → b'.findExtension e.name = none) := by
  obtain ⟨b', hrun, hb', _⟩ := MSXMotherBoard.removeExtension_run b l1 l2 e hsplit hrem hnd hreg
  have hext : b'.extensions = l1 ++ l2 := by rw [hb']
  refine ⟨b', ?_, by rw [hb'], hext, ?_, ?_⟩
  · unfold RemoveExtCmd.execute
    rw [if_neg (by simp)]
    simp only [List.getD_cons_succ, List.getD_cons_zero]
    rw [MSXMotherBoard.findExtension_split b l1 l2 e hsplit h1]
    simp only [hrun]
  · rw [hext, hsplit]
    simp
    omega
  · intro h2
    apply MSXMotherBoard.findExtension_none
    intro x hx
    rw [hext] at hx
    rcases List.mem_append.mp hx with h | h
    · exact h1 x h
    · exact h2 x h

/-- C11 at a concrete board: the extensions `fmpac` and `scc`, `fmpac` is removed. -/
theorem remove_extension_removes_named_witness :
    ∃ b', RemoveExtCmd.execute
        { MSXMotherBoard.create "machine1" true with
          extensions := [⟨"fmpac", "fmpac", ConfigType.EXTENSION, [3], none, none, none⟩,
                         ⟨"scc", "scc", ConfigType.EXTENSION, [4], none, none, none⟩],
          availableDevices := [1, 3, 4] } ["remove_extension", "fmpac"] =
        some (b', Except.ok ()) ∧
      b'.effects = [BoardEffect.cliUpdate UpdateType.EXTENSION "fmpac" "remove"] ∧
      b'.extensions = [⟨"scc", "scc", ConfigType.EXTENSION, [4], none, none, none⟩] := by
  obtain ⟨b', h1, h2, h3, _⟩ := remove_extension_removes_named
    { MSXMotherBoard.create "machine1" true with
      extensions := [⟨"fmpac", "fmpac", ConfigType.EXTENSION, [3], none, none, none⟩,
                     ⟨"scc", "scc", ConfigType.EXTENSION, [4], none, none, none⟩],
      availableDevices := [1, 3, 4] }
    [] [⟨"scc", "scc", ConfigType.EXTENSION, [4], none, none, none⟩]
    ⟨"fmpac", "fmpac", ConfigType.EXTENSION, [3], none, none, none⟩ rfl
    (by simp) rfl (by simp) (by simp [MSXMotherBoard.create])
  exact ⟨b', h1, h2, h3⟩

/-- C12: for a name that no installed extension carries, the `remove_extension`
command fails with the command error "No such extension: <name>" and returns
the board as it was: nothing is added to the effect log and the extension list
is unchanged. -/
theorem remove_extension_unknown_name (b : MSXMotherBoard) (name : String)
    (h : ∀ x ∈ b.extensions, x.name ≠ name) :
    ∃ b', RemoveExtCmd.execute b ["remove_extension", name] =
        some (b', Except.error (CommandError.command ("No such extension: " ++ name))) ∧
      b' = b ∧ b'.effects = b.effects ∧ b'.extensions = b.extensions := by
  refine ⟨b, ?_, rfl, rfl, rfl⟩
  unfold RemoveExtCmd.execute
  rw [if_neg (by simp)]
  simp only [List.getD_cons_succ, List.getD_cons_zero]
  rw [MSXMotherBoard.findExtension_none b name h]

/-- C12 at a concrete board: `scc` is installed, `fmpac` is asked for. -/
theorem remove_extension_unknown_name_witness :
    ∃ b', RemoveExtCmd.execute
        { MSXMotherBoard.create "machine1" true with
          extensions := [⟨"scc", "scc", ConfigType.EXTENSION, [4], none, none, none⟩],
          availableDevices := [4] } ["remove_extension", "fmpac"] =
        some (b', Except.error (CommandError.command ("No such extension: " ++ "fmpac"))) ∧
      b'.effects = [] ∧
      b'.extensions = [⟨"scc", "scc", ConfigType.EXTENSION, [4], none, none, none⟩] := by
  obtain ⟨b', h1, h2, _⟩ := remove_extension_unknown_name
    { MSXMotherBoard.create "machine1" true with
      extensions := [⟨"scc", "scc", ConfigType.EXTENSION, [4], none, none, none⟩],
      availableDevices := [4] } "fmpac" (by simp)
  subst h2
  exact ⟨_, h1, rfl, rfl⟩

/-- C13: for an installed extension whose `testRemove` throws, `removeExtension` raises
that error and returns the board as it was: no "remove" update is emitted, the
extension list (the extension at its position included) and the device list
are unchanged.  The `remove_extension` command for the extension fails with
"Can't remove extension" and leaves the board unchanged as well. -/
theorem removeExtension_refused_first (b : MSXMotherBoard) (l1 l2 : List HardwareConfig)
    (e : HardwareConfig) (msg : String) (hsplit : b.extensions = l1 ++ e :: l2)
    (hrem : e.testRemoveError = some msg) :
    (∃ b', b.removeExtension l1.length = some (b', Except.error msg) ∧ b' = b ∧
      b'.effects = b.effects ∧ b'.extensions = l1 ++ e :: l2 ∧
      b'.availableDevices = b.availableDevices) ∧
    ((∀ x ∈ l1, x.name ≠ e.name) →
      RemoveExtCmd.execute b ["remove_extension", e.name] =
        some (b, Except.error (CommandError.command
          ("Can't remove extension '" ++ e.name ++ "': " ++ msg)))) := by
  have hr := MSXMotherBoard.removeExtension_refused b l1 l2 e msg hsplit hrem
  refine ⟨⟨b, hr, rfl, rfl, hsplit, rfl⟩, ?_⟩
  intro h1
  unfold RemoveExtCmd.execute
  rw [if_neg (by simp)]
  simp only [List.getD_cons_succ, List.getD_cons_zero]
  rw [MSXMotherBoard.findExtension_split b l1 l2 e hsplit h1]
  simp only [hr]

/-- C13 at a concrete board: `scc` is installed after `fmpac` and is still in use. -/
theorem removeExtension_refused_first_witness :
    MSXMotherBoard.removeExtension
      { MSXMotherBoard.create "machine1" true with
        extensions := [⟨"fmpac", "fmpac", ConfigType.EXTENSION, [3], none, none, none⟩,
                       ⟨"scc", "scc", ConfigType.EXTENSION, [4], none, none, some "in use"⟩],
        availableDevices := [1, 3, 4] } 1 =
      some ({ MSXMotherBoard.create "machine1" true with
        extensions := [⟨"fmpac", "fmpac", ConfigType.EXTENSION, [3], none, none, none⟩,
                       ⟨"scc", "scc", ConfigType.EXTENSION, [4], none, none, some "in use"⟩],
        availableDevices := [1, 3, 4] }, Except.error "in use") := by
  obtain ⟨⟨b', h1, h2, _⟩, _⟩ := removeExtension_refused_first
    { MSXMotherBoard.create "machine1" true with
      extensions := [⟨"fmpac", "fmpac", ConfigType.EXTENSION, [3], none, none, none⟩,
                     ⟨"scc", "scc", ConfigType.EXTENSION, [4], none, none, some "in use"⟩],
      availableDevices := [1, 3, 4] }
    [⟨"fmpac", "fmpac", ConfigType.EXTENSION, [3], none, none, none⟩] []
    ⟨"scc", "scc", ConfigType.EXTENSION, [4], none, none, some "in use"⟩ "in use" rfl rfl
  rw [h2] at h1
  exact h1

/-! ## Board layer: the extension command -/

theorem MSXMotherBoard.foldl_addDevice (l : List DevicePtr) (q : MSXMotherBoard) :
    l.foldl MSXMotherBoard.addDevice q =
      { q with availableDevices := q.availableDevices ++ l } := by
  induction l generalizing q with
  | nil => simp
  | cons d ds ih => simp [ih, MSXMotherBoard.addDevice]

theorem MSXMotherBoard.insertExtension_run (b : MSXMotherBoard) (name : String)
    (extension : HardwareConfig) (h1 : extension.parseSlotsError = none)
    (h2 : extension.createDevicesError = none) :
    b.insertExtension name extension =
      some ({ b with availableDevices := b.availableDevices ++ extension.devices,
                     extensions := b.extensions ++ [extension],
                     effects := b.effects ++
                       [BoardEffect.cliUpdate UpdateType.EXTENSION extension.name "add"] },
            Except.ok extension.name) := by
  simp only [MSXMotherBoard.insertExtension, HardwareConfig.parseSlots, h1,
    HardwareConfig.createDevices, h2, MSXMotherBoard.foldl_addDevice, MSXMotherBoard.emit]

theorem ExtCmd.slotName_ne_any (commandName : String) (h : commandName.length = 4) :
    ExtCmd.slotName commandName ≠ "any" := by
  unfold ExtCmd.slotName
  rw [if_pos h]
  intro e
  have := congrArg String.length e
  simp at this
  exact absurd this (by decide)

/-- C14, as stated, fails on the code.  The command `exta fmpac` is aimed at slot 0,
occupied by the installed extension `scc`.  When `scc` is still in use
(`testRemove` throws), the command fails and the extension list still holds
`scc` and not `fmpac`.  When `scc` is removable and the slots of `fmpac` cannot
be parsed, the command fails after `scc` was removed: the list holds neither. -/
theorem ext_command_replace_counterexample :
    (ExtCmd.execute
      (fun _ _ => Except.ok ⟨"fmpac", "fmpac", ConfigType.EXTENSION, [5], none, none, none⟩)
      (fun slot => if slot = 0 then some 0 else none)
      { MSXMotherBoard.create "machine1" true with
        extensions := [⟨"scc", "scc", ConfigType.EXTENSION, [4], none, none, some "in use"⟩],
        availableDevices := [4] } "exta" ["exta", "fmpac"]).map
      (fun p => (p.1.extensions.map HardwareConfig.name, p.1.effects, p.2)) =
      some (["scc"], [], Except.error (CommandError.command "in use")) ∧
    (ExtCmd.execute
      (fun _ _ => Except.ok ⟨"fmpac", "fmpac", ConfigType.EXTENSION, [5], some "bad slot", none, none⟩)
      (fun slot => if slot = 0 then some 0 else none)
      { MSXMotherBoard.create "machine1" true with
        extensions := [⟨"scc", "scc", ConfigType.EXTENSION, [4], none, none, none⟩],
        availableDevices := [4] } "exta" ["exta", "fmpac"]).map
      (fun p => (p.1.extensions.map HardwareConfig.name, p.1.effects, p.2)) =
      some ([], [BoardEffect.cliUpdate UpdateType.EXTENSION "scc" "remove"],
        Except.error (CommandError.command "Error in \"fmpac\" extension: bad slot")) := by
  constructor <;> rfl

/-- After its argument checks, an extension command with a slot letter loads the
extension named by its last argument, removes the occupant of its slot and
inserts the loaded extension. -/
theorem ExtCmd.execute_slot
    (createExtensionConfig : String → String → Except ConfigError HardwareConfig)
    (getConfigForSlot : Nat → Option Nat) (b : MSXMotherBoard) (commandName name : String)
    (tokens : List String) (occupant : Nat) (hlen : commandName.length = 4)
    (htok : tokens = [commandName, name] ∨ tokens = [commandName, "insert", name])
    (hslot : getConfigForSlot ((commandName.data.getD 3 'a').toNat - 'a'.toNat) = some occupant) :
    ExtCmd.execute createExtensionConfig getConfigForSlot b commandName tokens =
      match MSXMotherBoard.loadExtension createExtensionConfig name (ExtCmd.slotName commandName) with
      | Except.error msg => some (b, Except.error (CommandError.command msg))
      | Except.ok extension =>
        match b.removeExtension occupant with
        | none => none
        | some (b1, Except.error msg) => some (b1, Except.error (CommandError.command msg))
        | some (b1, Except.ok _) =>
          match b1.insertExtension name extension with
          | none => none
          | some (b2, Except.error msg) => some (b2, Except.error (CommandError.command msg))
          | some (b2, Except.ok result) => some (b2, Except.ok result) := by
  have hany := ExtCmd.slotName_ne_any commandName hlen
  have hslot' := hslot
  simp only [List.getD_eq_getElem?_getD, Char.reduceToNat] at hslot'
  rcases htok with rfl | rfl <;>
    simp [ExtCmd.execute, hany, hslot']

/-- C14 (amended): a command with a slot letter is aimed at a slot that the slot manager
reports as occupied by an installed extension.  When loading the description
of the new extension fails, the command fails and the board is unchanged: the
occupant is neither removed nor notified.  When loading succeeds and
`testRemove` of the occupant throws, the command fails with that error and the
board is unchanged.  When loading succeeds, the occupant is removable (its
devices registered) and `parseSlots` and `createDevices` of the new extension
succeed, the "remove" update of the occupant precedes the "add" update of the
new extension, and the extension list is the old one without the occupant
and with the new extension as last entry. -/
theorem ext_command_replace
    (createExtensionConfig : String → String → Except ConfigError HardwareConfig)
    (getConfigForSlot : Nat → Option Nat) (b : MSXMotherBoard) (commandName name : String)
    (tokens : List String) (l1 l2 : List HardwareConfig) (occupant : HardwareConfig)
    (hlen : commandName.length = 4)
    (htok : tokens = [commandName, name] ∨ tokens = [commandName, "insert", name])
    (hsplit : b.extensions = l1 ++ occupant :: l2)
    (hslot : getConfigForSlot ((commandName.data.getD 3 'a').toNat - 'a'.toNat) =
      some l1.length) :
    (∀ msg, MSXMotherBoard.loadExtension createExtensionConfig name
        (ExtCmd.slotName commandName) = Except.error msg →
      ExtCmd.execute createExtensionConfig getConfigForSlot b commandName tokens =
        some (b, Except.error (CommandError.command msg))) ∧
    (∀ cfg msg, MSXMotherBoard.loadExtension createExtensionConfig name
        (ExtCmd.slotName commandName) = Except.ok cfg →
      occupant.testRemoveError = some msg →
      ExtCmd.execute createExtensionConfig getConfigForSlot b commandName tokens =
        some (b, Except.error (CommandError.command msg))) ∧
    (∀ cfg, MSXMotherBoard.loadExtension createExtensionConfig name
        (ExtCmd.slotName commandName) = Except.ok cfg →
      occupant.testRemoveError = none → occupant.devices.Nodup →
      (∀ d ∈ occupant.devices, d ∈ b.availableDevices) →
      cfg.parseSlotsError = none → cfg.createDevicesError = none →
      ∃ b', ExtCmd.execute createExtensionConfig getConfigForSlot b commandName tokens =
          some (b', Except.ok cfg.name) ∧
        b'.effects = b.effects ++
          [BoardEffect.cliUpdate UpdateType.EXTENSION occupant.name "remove",
           BoardEffect.cliUpdate UpdateType.EXTENSION cfg.name "add"] ∧
        b'.extensions = l1 ++ l2 ++ [cfg]) := by
  have hexec := ExtCmd.execute_slot createExtensionConfig getConfigForSlot b commandName name
    tokens l1.length hlen htok hslot
  refine ⟨?_, ?_, ?_⟩
  · intro msg hload
    rw [hexec, hload]
  · intro cfg msg hload hrem
    rw [hexec, hload]
    simp only [MSXMotherBoard.removeExtension_refused b l1 l2 occupant msg hsplit hrem]
  · intro cfg hload hrem hnd hreg hp hc
    obtain ⟨b1, hrun, hb1, _⟩ :=
      MSXMotherBoard.removeExtension_run b l1 l2 occupant hsplit hrem hnd hreg
    refine ⟨{ b1 with availableDevices := b1.availableDevices ++ cfg.devices,
                      extensions := b1.extensions ++ [cfg],
                      effects := b1.effects ++
                        [BoardEffect.cliUpdate UpdateType.EXTENSION cfg.name "add"] }, ?_, ?_, ?_⟩
    · rw [hexec, hload]
      simp only [hrun, MSXMotherBoard.insertExtension_run b1 name cfg hp hc]
    · simp only
      rw [hb1]
      simp
    · simp only
      rw [hb1]

/-- C14 (amended) at a concrete board: `exta fmpac` replaces the removable `scc` in slot 0. -/
theorem ext_command_replace_witness :
    ∃ b', ExtCmd.execute
        (fun _ _ => Except.ok ⟨"fmpac", "fmpac", ConfigType.EXTENSION, [5], none, none, none⟩)
        (fun slot => if slot = 0 then some 0 else none)
        { MSXMotherBoard.create "machine1" true with
          extensions := [⟨"scc", "scc", ConfigType.EXTENSION, [4], none, none, none⟩],
          availableDevices := [4] } "exta" ["exta", "fmpac"] = some (b', Except.ok "fmpac") ∧
      b'.effects = [BoardEffect.cliUpdate UpdateType.EXTENSION "scc" "remove",
        BoardEffect.cliUpdate UpdateType.EXTENSION "fmpac" "add"] ∧
      b'.extensions = [⟨"fmpac", "fmpac", ConfigType.EXTENSION, [5], none, none, none⟩] :=
  (ext_command_replace
    (fun _ _ => Except.ok ⟨"fmpac", "fmpac", ConfigType.EXTENSION, [5], none, none, none⟩)
    (fun slot => if slot = 0 then some 0 else none)
    { MSXMotherBoard.create "machine1" true with
      extensions := [⟨"scc", "scc", ConfigType.EXTENSION, [4], none, none, none⟩],
      availableDevices := [4] } "exta" "fmpac" ["exta", "fmpac"] []  []
    ⟨"scc", "scc", ConfigType.EXTENSION, [4], none, none, none⟩ rfl (Or.inl rfl) rfl rfl).2.2
    ⟨"fmpac", "fmpac", ConfigType.EXTENSION, [5], none, none, none⟩ rfl rfl (by simp)
    (by simp [MSXMotherBoard.create]) rfl rfl

/-! ## Facts about the phases of `storeAsSetup` -/

theorem setupExtensionRequests_nil (env : SetupEnv) (i : Nat) :
    setupExtensionRequests env i [] = [] := rfl

namespace MSXMotherBoard

end MSXMotherBoard

namespace MSXMotherBoard

end MSXMotherBoard

namespace MSXMotherBoard

end MSXMotherBoard

/-! ## Storing a setup -/

/-- C15: `storeAsSetup` with depth NONE returns at once: the session is the one from
before the call (no temporary board was constructed), no archive was created
or written and nothing was loaded.  The `store_setup` command with depth
"none", with or without a file name argument, returns an empty result without
calling `storeAsSetup` and without computing a file name: it succeeds whatever
`parseCommandFileArgument` would do. -/
theorem storeAsSetup_none_is_noop (env : SetupEnv) (fuel : Nat) (reactor : Reactor)
    (b : MSXMotherBoard) (filename : String) :
    b.storeAsSetup env fuel reactor filename SetupDepth.NONE =
      some { reactor := reactor, archive := [], newBoard := none, inserted := [],
             outcome := Except.ok () } ∧
    (∀ (parseCommandFileArgument : String → String → Except String String),
      StoreSetupCmd.execute env parseCommandFileArgument fuel reactor b ["store_setup", "none"] =
        some (none, Except.ok "")) ∧
    (∀ (parseCommandFileArgument : String → String → Except String String),
      StoreSetupCmd.execute env parseCommandFileArgument fuel reactor b
        ["store_setup", "none", filename] = some (none, Except.ok "")) := by
  refine ⟨?_, ?_, ?_⟩
  · simp [MSXMotherBoard.storeAsSetup]
  · intro parse
    simp [StoreSetupCmd.execute, depthOptionMap, List.lookup]
  · intro parse
    simp [StoreSetupCmd.execute, depthOptionMap, List.lookup]

/-- C18: when loading the setup or state file fails, `switchMachineFromSetup` and the
`restore_machine` command end with a command error, and the board vector and
the active board of the session are the ones from before the call.  All that
was emitted is the creation of the display (on first use, for
`switchMachineFromSetup`), the announcement of the new board, the attempt to
load it and the withdrawal of the new board when it is destroyed: no board was
activated or deactivated and the active reference was not swapped. -/
theorem failed_restore_keeps_session (r : Reactor) (filename : String) (e : ArchiveError)
    (expandTilde : String → String) :
    (∃ r' msg, r.switchMachineFromSetup filename (Except.error e) =
        some (r', Except.error msg) ∧
      r'.boards = r.boards ∧ r'.activeBoard = r.activeBoard ∧
      r'.effects = r.effects ++ (if r.display then [] else [ReactorEffect.createDisplay]) ++
        [ReactorEffect.cliUpdate UpdateType.HARDWARE (machineIDOf (r.machineIDCounter + 1)) "add",
         ReactorEffect.loadArchive (r.machineIDCounter + 1) filename,
         ReactorEffect.cliUpdate UpdateType.HARDWARE (machineIDOf (r.machineIDCounter + 1))
           "remove"]) ∧
    (∃ r' msg, RestoreMachineCommand.execute expandTilde r ["restore_machine", filename]
        (Except.error e) = (r', Except.error (CommandError.command msg)) ∧
      r'.boards = r.boards ∧ r'.activeBoard = r.activeBoard ∧
      r'.effects = r.effects ++
        [ReactorEffect.cliUpdate UpdateType.HARDWARE (machineIDOf (r.machineIDCounter + 1)) "add",
         ReactorEffect.loadArchive (r.machineIDCounter + 1) (expandTilde filename),
         ReactorEffect.cliUpdate UpdateType.HARDWARE (machineIDOf (r.machineIDCounter + 1))
           "remove"]) := by
  constructor
  · cases e with
    | xml m =>
      refine ⟨_, "Cannot load setup, bad file format: " ++ m, rfl, ?_, ?_, ?_⟩
      · simp only [Reactor.destroyBoard, Reactor.emit, Reactor.createEmptyMotherBoard,
          Reactor.ensureDisplay]
        split <;> rfl
      · simp only [Reactor.destroyBoard, Reactor.emit, Reactor.createEmptyMotherBoard,
          Reactor.ensureDisplay]
        split <;> rfl
      · simp only [Reactor.destroyBoard, Reactor.emit, Reactor.createEmptyMotherBoard,
          Reactor.ensureDisplay]
        split <;> simp
    | msx m =>
      refine ⟨_, "Cannot load setup: " ++ m, rfl, ?_, ?_, ?_⟩
      · simp only [Reactor.destroyBoard, Reactor.emit, Reactor.createEmptyMotherBoard,
          Reactor.ensureDisplay]
        split <;> rfl
      · simp only [Reactor.destroyBoard, Reactor.emit, Reactor.createEmptyMotherBoard,
          Reactor.ensureDisplay]
        split <;> rfl
      · simp only [Reactor.destroyBoard, Reactor.emit, Reactor.createEmptyMotherBoard,
          Reactor.ensureDisplay]
        split <;> simp
  · cases e with
    | xml m =>
      exact ⟨_, "Cannot load state, bad file format: " ++ m, rfl, rfl, rfl,
        by simp [Reactor.destroyBoard, Reactor.emit, Reactor.createEmptyMotherBoard]⟩
    | msx m =>
      exact ⟨_, "Cannot load state: " ++ m, rfl, rfl, rfl,
        by simp [Reactor.destroyBoard, Reactor.emit, Reactor.createEmptyMotherBoard]⟩

theorem exists_first_split {α : Type} [DecidableEq α] (x : α) (l : List α) (h : x ∈ l) :
    ∃ l1 l2, l = l1 ++ x :: l2 ∧ x ∉ l1 := by
  obtain ⟨j, hj⟩ := findFrom_of_mem x l 0 h
  obtain ⟨l1, l2, h1, h2, _⟩ := findFrom_some x l 0 j hj
  exact ⟨l1, l2, h1, h2⟩

/-- The run of `replaceBoard` up to the release of the old board: `r'` is the session
just before the vector's shared pointer to `oldBoard` is released. -/
theorem Reactor.replaceBoard_before_release (r : Reactor) (oldBoard newBoard : BoardPtr)
    (hold : oldBoard ∈ r.boards) (hnew : newBoard ∉ r.boards) :
    ∃ (r' : Reactor) (l1 l2 : List BoardPtr),
      r.replaceBoard oldBoard newBoard = some (r'.releaseBoard oldBoard) ∧
      r'.heldElsewhere = r.heldElsewhere ∧
      r.boards = l1 ++ oldBoard :: l2 ∧ oldBoard ∉ l1 ∧
      r'.boards = l1 ++ newBoard :: l2 ∧
      r'.boards.length = r.boards.length ∧
      r'.boards.Perm (newBoard :: r.boards.erase oldBoard) ∧
      newBoard ∈ r'.boards ∧ (oldBoard ∉ l2 → oldBoard ∉ r'.boards) ∧
      (r.activeBoard = some oldBoard →
        r'.activeBoard = some newBoard ∧
        r'.effects = r.effects ++
          [ReactorEffect.activate oldBoard false, ReactorEffect.swapActive (some newBoard),
           ReactorEffect.machineLoadedEvent,
           ReactorEffect.cliUpdate UpdateType.HARDWARE (machineIDOf newBoard) "select",
           ReactorEffect.activate newBoard true]) ∧
      (r.activeBoard ≠ some oldBoard →
        r'.activeBoard = r.activeBoard ∧ r'.effects = r.effects) := by
  obtain ⟨l1, l2, hsplit, hl1⟩ := exists_first_split oldBoard r.boards hold
  have hne : newBoard ≠ oldBoard := fun e => hnew (e ▸ hold)
  have happ : r.boards ++ [newBoard] = l1 ++ oldBoard :: (l2 ++ [newBoard]) := by
    rw [hsplit]; simp
  have hfind : find_unguarded (r.boards ++ [newBoard]) oldBoard = some l1.length := by
    unfold find_unguarded
    rw [happ, findFrom_append oldBoard l1 _ 0 hl1]
    simp
  have hget : (r.boards ++ [newBoard]).get? l1.length = some oldBoard := by
    rw [happ]; exact get?_split l1 _ oldBoard
  have hmove : move_pop_back (r.boards ++ [newBoard]) l1.length = l1 ++ newBoard :: l2 := by
    rw [happ, move_pop_back_split]
    simp only [List.getLast?_concat, List.dropLast_concat]
  have hperm : (l1 ++ newBoard :: l2).Perm (newBoard :: r.boards.erase oldBoard) := by
    rw [hsplit]
    exact List.perm_middle.trans (List.Perm.cons _ (erase_perm_split oldBoard l1 l2).symm)
  have hnotin : oldBoard ∉ l2 → oldBoard ∉ l1 ++ newBoard :: l2 := by
    intro h2 hmem
    rcases List.mem_append.mp hmem with h | h
    · exact hl1 h
    · rcases List.mem_cons.mp h with h | h
      · exact hne h.symm
      · exact h2 h
  by_cases hact : r.activeBoard = some oldBoard
  · refine ⟨{ (Reactor.switchBoard { r with boards := r.boards ++ [newBoard] }
        (some newBoard)) with
        boards := move_pop_back (Reactor.switchBoard { r with boards := r.boards ++ [newBoard] }
          (some newBoard)).boards l1.length }, l1, l2, ?_, ?_, hsplit, hl1, ?_, ?_, ?_, ?_, ?_, ?_, ?_⟩
    · unfold Reactor.replaceBoard
      simp only [hfind, hget, hact, if_true]
    · simp [Reactor.switchBoard, hact, Reactor.emit]
    · simp only [Reactor.switchBoard_boards, hmove]
    · simp only [Reactor.switchBoard_boards, hmove]
      rw [hsplit]; simp
    · simp only [Reactor.switchBoard_boards, hmove]
      exact hperm
    · simp only [Reactor.switchBoard_boards, hmove]
      simp
    · simp only [Reactor.switchBoard_boards, hmove]
      exact hnotin
    · intro _
      refine ⟨Reactor.switchBoard_activeBoard _ _, ?_⟩
      simp [Reactor.switchBoard, hact, Reactor.emit, Reactor.getMachineID]
    · intro h
      exact absurd hact h
  · have hact' : ¬ (some oldBoard = r.activeBoard) := fun h => hact h.symm
    refine ⟨{ r with boards := move_pop_back (r.boards ++ [newBoard]) l1.length }, l1, l2, ?_,
      rfl, hsplit, hl1, ?_, ?_, ?_, ?_, ?_, ?_, ?_⟩
    · unfold Reactor.replaceBoard
      simp only [hfind, hget, hact', if_false]
    · simp only [hmove]
    · simp only [hmove]
      rw [hsplit]; simp
    · simp only [hmove]
      exact hperm
    · simp only [hmove]
      simp
    · simp only [hmove]
      exact hnotin
    · intro h
      exact absurd h hact
    · intro _
      exact ⟨rfl, rfl⟩

/-- C19, corrected: when the board vector held the last shared pointer to a board
that is not active, `replaceBoard` destroys it and its HARDWARE "remove" update
is emitted, so a notification does occur. -/
theorem replaceBoard_notifies_counterexample :
    ∃ r', Reactor.replaceBoard
        { boards := [1, 2, 3], activeBoard := some 1, display := true, machineIDCounter := 4,
          effects := [] } 2 4 = some r' ∧
      r'.activeBoard = some 1 ∧
      r'.effects = [ReactorEffect.cliUpdate UpdateType.HARDWARE "machine2" "remove"] :=
  ⟨_, rfl, rfl, by decide⟩

/-- C19 as amended: for a tracked board `oldBoard` and a board `newBoard` that is not
tracked yet, `replaceBoard` runs to a result in which `newBoard` stands at the
place of (the first entry of) `oldBoard` in the board vector: the vector has
the same length and holds the previous boards with `oldBoard` taken out and
`newBoard` put in.  If `oldBoard` was the active board, the switch protocol ran
with `newBoard` (deactivate `oldBoard`, swap, machine-loaded event, HARDWARE
"select" update, activate `newBoard`) and `newBoard` is the active board;
otherwise the active board is unchanged and no board is activated or
deactivated.  In both cases the old board is destroyed last, emitting its
HARDWARE "remove" update, exactly when no shared pointer to it is left (it is
not in the vector a second time and nobody outside the session holds it);
nothing else is emitted. -/
theorem replaceBoard_swaps_membership (r : Reactor) (oldBoard newBoard : BoardPtr)
    (hold : oldBoard ∈ r.boards) (hnew : newBoard ∉ r.boards) :
    ∃ r' l1 l2, r.replaceBoard oldBoard newBoard = some r' ∧
      r.boards = l1 ++ oldBoard :: l2 ∧ oldBoard ∉ l1 ∧
      r'.boards = l1 ++ newBoard :: l2 ∧
      r'.boards.length = r.boards.length ∧
      r'.boards.Perm (newBoard :: r.boards.erase oldBoard) ∧
      newBoard ∈ r'.boards ∧ (oldBoard ∉ l2 → oldBoard ∉ r'.boards) ∧
      (r.activeBoard = some oldBoard →
        r'.activeBoard = some newBoard ∧
        r'.effects = r.effects ++
          [ReactorEffect.activate oldBoard false, ReactorEffect.swapActive (some newBoard),
           ReactorEffect.machineLoadedEvent,
           ReactorEffect.cliUpdate UpdateType.HARDWARE (machineIDOf newBoard) "select",
           ReactorEffect.activate newBoard true] ++
          (if oldBoard ∈ l2 ∨ oldBoard ∈ r.heldElsewhere then []
           else [ReactorEffect.cliUpdate UpdateType.HARDWARE (machineIDOf oldBoard) "remove"])) ∧
      (r.activeBoard ≠ some oldBoard →
        r'.activeBoard = r.activeBoard ∧
        r'.effects = r.effects ++
          (if oldBoard ∈ l2 ∨ oldBoard ∈ r.heldElsewhere then []
           else [ReactorEffect.cliUpdate UpdateType.HARDWARE (machineIDOf oldBoard) "remove"])) := by
  obtain ⟨q, l1, l2, hrun, hheld, hsplit, hl1, hb, hlen, hperm, hmem, hnot, hactive, hother⟩ :=
    Reactor.replaceBoard_before_release r oldBoard newBoard hold hnew
  obtain ⟨fb, fa, _, _⟩ := Reactor.releaseBoard_fields q oldBoard
  have hne : newBoard ≠ oldBoard := fun e => hnew (e ▸ hold)
  have hinq : oldBoard ∈ q.boards ↔ oldBoard ∈ l2 := by
    rw [hb]
    simp only [List.mem_append, List.mem_cons]
    constructor
    · rintro (h | h | h)
      · exact absurd h hl1
      · exact absurd h.symm hne
      · exact h
    · intro h
      exact Or.inr (Or.inr h)
  have heff : q.activeBoard ≠ some oldBoard →
      (q.releaseBoard oldBoard).effects = q.effects ++
        (if oldBoard ∈ l2 ∨ oldBoard ∈ r.heldElsewhere then []
         else [ReactorEffect.cliUpdate UpdateType.HARDWARE (machineIDOf oldBoard) "remove"]) := by
    intro hqa
    unfold Reactor.releaseBoard
    by_cases hc : oldBoard ∈ l2 ∨ oldBoard ∈ r.heldElsewhere
    · have hc2 : oldBoard ∈ q.boards ∨ q.activeBoard = some oldBoard ∨
          oldBoard ∈ q.heldElsewhere := by
        rcases hc with h | h
        · exact Or.inl (hinq.2 h)
        · exact Or.inr (Or.inr (hheld ▸ h))
      rw [if_pos hc2, if_pos hc]
      simp
    · have hc2 : ¬ (oldBoard ∈ q.boards ∨ q.activeBoard = some oldBoard ∨
          oldBoard ∈ q.heldElsewhere) := by
        rintro (h | h | h)
        · exact hc (Or.inl (hinq.1 h))
        · exact hqa h
        · exact hc (Or.inr (hheld ▸ h))
      rw [if_neg hc2, if_neg hc]
      rfl
  refine ⟨q.releaseBoard oldBoard, l1, l2, hrun, hsplit, hl1, ?_, ?_, ?_, ?_, ?_, ?_, ?_⟩
  · rw [fb]; exact hb
  · rw [fb]; exact hlen
  · rw [fb]; exact hperm
  · rw [fb]; exact hmem
  · rw [fb]; exact hnot
  · intro hact
    obtain ⟨ha, he⟩ := hactive hact
    refine ⟨by rw [fa]; exact ha, ?_⟩
    rw [heff (by rw [ha]; intro h; exact hne (Option.some.inj h)), he]
  · intro hact
    obtain ⟨ha, he⟩ := hother hact
    refine ⟨by rw [fa]; exact ha, ?_⟩
    rw [heff (by rw [ha]; exact hact), he]

/-- C19 at a concrete session: boards 1, 2, 3 with board 2 active; board 2 is replaced
by 4 and, nobody else holding it, destroyed. -/
theorem replaceBoard_swaps_membership_witness :
    ∃ r', Reactor.replaceBoard
        { boards := [1, 2, 3], activeBoard := some 2, display := true, machineIDCounter := 4,
          effects := [] } 2 4 = some r' ∧
      r'.boards.length = 3 ∧ 4 ∈ r'.boards ∧ 2 ∉ r'.boards ∧ r'.activeBoard = some 4 := by
  obtain ⟨r', l1, l2, h1, h2, h3, _, h5, _, h7, h8, h9, _⟩ := replaceBoard_swaps_membership
    { boards := [1, 2, 3], activeBoard := some 2, display := true, machineIDCounter := 4,
      effects := [] } 2 4 (by decide) (by decide)
  refine ⟨r', h1, h5, h7, h8 ?_, (h9 rfl).1⟩
  intro hmem
  have hcount : ([1, 2, 3] : List BoardPtr).count 2 = 1 := by decide
  have h2' : ([1, 2, 3] : List BoardPtr) = l1 ++ 2 :: l2 := h2
  rw [h2'] at hcount
  simp only [List.count_append, List.count_cons_self] at hcount
  have := List.count_pos_iff.mpr hmem
  omega

/-! ## Session layer: the run loop -/

/-- C20: in a pass through the body of the run loop the queued events are delivered
first; `r1` and `store1` are the session and the boards after the delivery.
When the block counter is not positive and there is an active board, `execute`
is called exactly once, on the active board, and the loop sleeps exactly when
that board is not powered (`execute` returned false).  When the block counter
is positive or there is no active board, no board is executed and the loop
sleeps.  `execute` returns false exactly when the board is not powered, and
then the board is unchanged (the CPU is not run); on a powered board it runs
the CPU once and returns true.  For a block counter that is not negative, not
positive means zero.  The loop of `run` repeats this body while `running` is
set and ends when it is cleared. -/
theorem run_loop_iteration (deliverEvents : Reactor × BoardStore → Reactor × BoardStore)
    (cpu : Nat → Nat) (s : Reactor × BoardStore) (r1 : Reactor) (store1 : BoardStore)
    (hd : deliverEvents (s.1.emit ReactorEffect.deliverEvents, s.2) = (r1, store1)) :
    (∀ a, ¬ (0 < r1.blockedCounter) → r1.activeBoard = some a →
      Reactor.runBody deliverEvents cpu s =
        ({ r1 with
            effects := r1.effects ++ [ReactorEffect.execute a] ++
              (if (store1 a).powered then [] else [ReactorEffect.sleep (20 * 1000)]) },
         store1.update a ((store1 a).execute cpu).1)) ∧
    ((0 < r1.blockedCounter ∨ r1.activeBoard = none) →
      Reactor.runBody deliverEvents cpu s =
        ({ r1 with effects := r1.effects ++ [ReactorEffect.sleep (20 * 1000)] }, store1)) ∧
    (∀ b : MSXMotherBoard,
      ((b.execute cpu).2 = false ↔ b.powered = false) ∧
      (b.powered = false → (b.execute cpu).1 = b) ∧
      (b.powered = true → (b.execute cpu).1 = b.cpuExecute cpu false)) ∧
    (0 ≤ r1.blockedCounter → (¬ (0 < r1.blockedCounter) ↔ r1.blockedCounter = 0)) ∧
    (∀ fuel, s.1.running = true →
      Reactor.run deliverEvents cpu (fuel + 1) s =
        Reactor.run deliverEvents cpu fuel (Reactor.runBody deliverEvents cpu s)) ∧
    (∀ fuel, s.1.running = false → Reactor.run deliverEvents cpu fuel s = some s) := by
  refine ⟨?_, ?_, ?_, ?_, ?_, ?_⟩
  · intro a hb ha
    have hdec : decide (r1.blockedCounter > 0) = false := by simpa using hb
    unfold Reactor.runBody
    simp only [hd, hdec, ha]
    by_cases hp : (store1 a).powered = true
    · simp [MSXMotherBoard.execute, hp, Reactor.emit, ha]
    · have hp' : (store1 a).powered = false := by simpa using hp
      simp [MSXMotherBoard.execute, hp', Reactor.emit, ha]
  · intro hb
    unfold Reactor.runBody
    simp only [hd]
    rcases hb with hb | hb
    · have hdec : decide (r1.blockedCounter > 0) = true := by simpa using hb
      simp [hdec, Reactor.emit]
    · simp [hb, Reactor.emit]
  · intro b
    unfold MSXMotherBoard.execute
    cases hp : b.powered <;> simp
  · intro h
    constructor
    · intro hn
      omega
    · intro hz
      omega
  · intro fuel hr
    rw [Reactor.run]
    simp [hr]
  · intro fuel hr
    cases fuel <;> simp [Reactor.run, hr]

/-- C20 at a concrete session: board 1 is active and powered, nothing is queued. -/
theorem run_loop_iteration_witness :
    (Reactor.runBody id (fun t => t + 1)
      ({ boards := [1], activeBoard := some 1, display := true, machineIDCounter := 1,
         effects := [] },
       fun _ => { MSXMotherBoard.create "machine1" true with
                  machineConfig := some ⟨"m", "m", ConfigType.MACHINE, [], none, none, none⟩,
                  powered := true })).1.effects =
      [ReactorEffect.deliverEvents, ReactorEffect.execute 1] := by
  rw [(run_loop_iteration id (fun t => t + 1)
      ({ boards := [1], activeBoard := some 1, display := true, machineIDCounter := 1,
         effects := [] },
       fun _ => { MSXMotherBoard.create "machine1" true with
                  machineConfig := some ⟨"m", "m", ConfigType.MACHINE, [], none, none, none⟩,
                  powered := true }) _ _ rfl).1 1 (by decide) rfl]
  rfl

/-! ## Session layer: pause and block accounting -/

theorem outstandingBlocks_append (xs ys : List PauseOp) :
    outstandingBlocks (xs ++ ys) = outstandingBlocks xs + outstandingBlocks ys := by
  induction xs with
  | nil => simp [outstandingBlocks]
  | cons x xs ih =>
    cases x <;> simp [outstandingBlocks, ih] <;> ring

theorem Reactor.enterMainLoop_fields (mt : Bool) (s s1 : Reactor × BoardStore)
    (h : Reactor.enterMainLoop mt s = some s1) :
    s1.1.blockedCounter = s.1.blockedCounter ∧ s1.1.paused = s.1.paused ∧
    s1.1.activeBoard = s.1.activeBoard ∧
    (∀ p, (s1.2 p).msxCpu = (s.2 p).msxCpu) := by
  unfold Reactor.enterMainLoop at h
  cases ha : s.1.activeBoard with
  | none =>
    simp only [ha, Option.some.injEq] at h
    subst h
    exact ⟨rfl, rfl, ha, fun _ => rfl⟩
  | some a =>
    simp only [ha] at h
    cases mt with
    | true =>
      simp only [if_true, MSXMotherBoard.exitCPULoopSync] at h
      by_cases hc : (s.2 a).msxCpu = true
      · simp only [hc, if_true, Option.some.injEq] at h
        subst h
        refine ⟨rfl, rfl, ha, ?_⟩
        intro p
        by_cases hp : p = a
        · subst hp
          simp [BoardStore.update, MSXMotherBoard.emit]
        · simp [BoardStore.update, hp]
      · simp [hc] at h
    | false =>
      simp only [Bool.false_eq_true, if_false, MSXMotherBoard.exitCPULoopAsync] at h
      by_cases hm : (s.2 a).machineConfig.isSome = true
      · by_cases hc : (s.2 a).msxCpu = true
        · simp only [hm, hc, if_true, Option.some.injEq] at h
          subst h
          refine ⟨rfl, rfl, ha, ?_⟩
          intro p
          by_cases hp : p = a
          · subst hp
            simp [BoardStore.update, MSXMotherBoard.emit]
          · simp [BoardStore.update, hp]
        · simp [hm, hc] at h
      · simp only [hm, Bool.false_eq_true, if_false, Option.some.injEq] at h
        subst h
        refine ⟨rfl, rfl, ha, ?_⟩
        intro p
        by_cases hp : p = a
        · subst hp
          simp [BoardStore.update]
        · simp [BoardStore.update, hp]

theorem Reactor.enterMainLoop_progress (mt : Bool) (s : Reactor × BoardStore)
    (h : Reactor.activeHasCPU s) : ∃ s1, Reactor.enterMainLoop mt s = some s1 := by
  unfold Reactor.enterMainLoop
  cases ha : s.1.activeBoard with
  | none => exact ⟨_, rfl⟩
  | some a =>
    have hc := h a ha
    cases mt with
    | true =>
      simp only [if_true, MSXMotherBoard.exitCPULoopSync, hc]
      exact ⟨_, rfl⟩
    | false =>
      by_cases hm : (s.2 a).machineConfig.isSome = true
      · simp only [Bool.false_eq_true, if_false, MSXMotherBoard.exitCPULoopAsync, hc, hm, if_true]
        exact ⟨_, rfl⟩
      · simp only [Bool.false_eq_true, if_false, MSXMotherBoard.exitCPULoopAsync, hm]
        exact ⟨_, rfl⟩

theorem Reactor.block_fields (mt : Bool) (s s1 : Reactor × BoardStore)
    (h : Reactor.block mt s = some s1) :
    s1.1.blockedCounter = s.1.blockedCounter + 1 ∧ s1.1.paused = s.1.paused ∧
    s1.1.activeBoard = s.1.activeBoard ∧
    (∀ p, (s1.2 p).msxCpu = (s.2 p).msxCpu) := by
  unfold Reactor.block at h
  simp only at h
  cases he : Reactor.enterMainLoop mt
      ({ s.1 with blockedCounter := s.1.blockedCounter + 1 }, s.2) with
  | none => simp [he] at h
  | some s2 =>
    simp only [he, Option.some.injEq] at h
    subst h
    obtain ⟨h1, h2, h3, h4⟩ := Reactor.enterMainLoop_fields mt _ _ he
    exact ⟨h1, h2, h3, h4⟩

theorem Reactor.block_progress (mt : Bool) (s : Reactor × BoardStore)
    (h : Reactor.activeHasCPU s) : ∃ s1, Reactor.block mt s = some s1 := by
  obtain ⟨s2, h2⟩ := Reactor.enterMainLoop_progress mt
    ({ s.1 with blockedCounter := s.1.blockedCounter + 1 }, s.2) h
  simp only [Reactor.block, h2]
  exact ⟨_, rfl⟩

theorem Reactor.unblock_fields (r : Reactor) :
    r.unblock.blockedCounter = r.blockedCounter - 1 ∧ r.unblock.paused = r.paused ∧
    r.unblock.activeBoard = r.activeBoard := by
  simp [Reactor.unblock, Reactor.emit]

theorem Reactor.pause_unpaused (mt : Bool) (s : Reactor × BoardStore) (hp : s.1.paused = false) :
    Reactor.pause mt s =
      Reactor.block mt
        ({ s.1 with paused := true }.emit
          (ReactorEffect.cliUpdate UpdateType.STATUS "paused" "true"), s.2) := by
  simp [Reactor.pause, hp]

theorem Reactor.unpause_paused (r : Reactor) (hp : r.paused = true) :
    r.unpause =
      ({ r with paused := false }.emit
        (ReactorEffect.cliUpdate UpdateType.STATUS "paused" "false")).unblock := by
  simp [Reactor.unpause, hp]

/-- What one returning call does to the counter, the pause flag, the active board
and the CPUs of the boards. -/
theorem PauseOp.apply_counter (mt : Bool) (s s1 : Reactor × BoardStore) (op : PauseOp)
    (h : op.apply mt s = some s1) :
    s1.1.blockedCounter - pausedCount s1.1 =
      s.1.blockedCounter - pausedCount s.1 + outstandingBlocks [op] ∧
    s1.1.activeBoard = s.1.activeBoard ∧ (∀ p, (s1.2 p).msxCpu = (s.2 p).msxCpu) := by
  cases op
  · cases hp : s.1.paused
    · simp only [PauseOp.apply] at h
      rw [Reactor.pause_unpaused mt s hp] at h
      obtain ⟨h1, h2, h3, h4⟩ := Reactor.block_fields mt _ _ h
      refine ⟨?_, h3, h4⟩
      simp only [pausedCount, outstandingBlocks, h1, h2, hp]
      simp [Reactor.emit]
    · simp only [PauseOp.apply, Reactor.pause, hp, Bool.not_true, Bool.false_eq_true, if_false,
        Option.some.injEq] at h
      subst h
      exact ⟨by simp [outstandingBlocks], rfl, fun _ => rfl⟩
  · simp only [PauseOp.apply, Option.some.injEq] at h
    subst h
    cases hp : s.1.paused
    · refine ⟨?_, ?_, fun _ => rfl⟩
      · simp [Reactor.unpause, hp, outstandingBlocks]
      · simp [Reactor.unpause, hp]
    · have hf := Reactor.unblock_fields
        ({ s.1 with paused := false }.emit
          (ReactorEffect.cliUpdate UpdateType.STATUS "paused" "false"))
      have e := Reactor.unpause_paused s.1 hp
      refine ⟨?_, ?_, fun _ => rfl⟩
      · simp only [pausedCount, outstandingBlocks, e, hf.1, hf.2.1, hp]
        simp [Reactor.emit]
      · simp only [e, hf.2.2]
        rfl
  · simp only [PauseOp.apply] at h
    obtain ⟨h1, h2, h3, h4⟩ := Reactor.block_fields mt _ _ h
    refine ⟨?_, h3, h4⟩
    simp only [pausedCount, outstandingBlocks, h1, h2]
    ring
  · simp only [PauseOp.apply, Option.some.injEq] at h
    subst h
    have hf := Reactor.unblock_fields s.1
    refine ⟨?_, hf.2.2, fun _ => rfl⟩
    simp only [pausedCount, outstandingBlocks, hf.1, hf.2.1]
    ring

theorem PauseOp.apply_returns (mt : Bool) (s : Reactor × BoardStore) (op : PauseOp)
    (h : Reactor.activeHasCPU s) : ∃ s1, op.apply mt s = some s1 := by
  cases op
  · cases hp : s.1.paused
    · simp only [PauseOp.apply]
      rw [Reactor.pause_unpaused mt s hp]
      exact Reactor.block_progress mt _ h
    · exact ⟨s, by simp [PauseOp.apply, Reactor.pause, hp]⟩
  · exact ⟨_, rfl⟩
  · exact Reactor.block_progress mt s h
  · exact ⟨_, rfl⟩

theorem Reactor.runPauseOps_counter (mt : Bool) (ops : List PauseOp) :
    ∀ s s1 : Reactor × BoardStore, Reactor.runPauseOps mt ops s = some s1 →
      s1.1.blockedCounter - pausedCount s1.1 =
        s.1.blockedCounter - pausedCount s.1 + outstandingBlocks ops := by
  induction ops with
  | nil =>
    intro s s1 h
    simp only [Reactor.runPauseOps, Option.some.injEq] at h
    subst h
    simp [outstandingBlocks]
  | cons op ops ih =>
    intro s s1 h
    simp only [Reactor.runPauseOps] at h
    cases ha : op.apply mt s with
    | none => simp [ha] at h
    | some s2 =>
      simp only [ha] at h
      have h1 := ih s2 s1 h
      have h2 := (PauseOp.apply_counter mt s s2 op ha).1
      have h3 := outstandingBlocks_append [op] ops
      simp only [List.singleton_append] at h3
      rw [h1, h2, h3]
      ring

theorem Reactor.runPauseOps_progress (mt : Bool) (ops : List PauseOp) :
    ∀ s : Reactor × BoardStore, Reactor.activeHasCPU s →
      ∃ s1, Reactor.runPauseOps mt ops s = some s1 := by
  induction ops with
  | nil =>
    intro s _
    exact ⟨s, rfl⟩
  | cons op ops ih =>
    intro s h
    obtain ⟨s2, h2⟩ := PauseOp.apply_returns mt s op h
    obtain ⟨_, ha, hc⟩ := PauseOp.apply_counter mt s s2 op h2
    have h' : Reactor.activeHasCPU s2 := by
      intro a hact
      rw [hc a]
      exact h a (ha ▸ hact)
    obtain ⟨s1, h1⟩ := ih s2 h'
    exact ⟨s1, by simp [Reactor.runPauseOps, h2, h1]⟩

/-- The accounting of the block counter on the runs that return: from a session
with counter 0 that is not paused, after every prefix of a sequence in which
`unblock()` is never ahead of `block()`, the counter is the number of
outstanding `block()` calls plus 1 when the session is paused, and it is not
negative.  Every such sequence returns when the active board, if any, has its
CPU. -/
theorem Reactor.runPauseOps_accounting (isMainThread : Bool) (s0 : Reactor × BoardStore)
    (ops : List PauseOp) (h0 : s0.1.blockedCounter = 0) (hp0 : s0.1.paused = false)
    (hbal : unblockNeverAhead ops) :
    (∀ pre s1, pre <+: ops → Reactor.runPauseOps isMainThread pre s0 = some s1 →
      s1.1.blockedCounter = outstandingBlocks pre + (if s1.1.paused then 1 else 0) ∧
      0 ≤ s1.1.blockedCounter) ∧
    (∀ pre s1, pre ++ [PauseOp.unblock] <+: ops →
      Reactor.runPauseOps isMainThread pre s0 = some s1 → s1.1.unblockAsserts) ∧
    (Reactor.activeHasCPU s0 → ∃ s1, Reactor.runPauseOps isMainThread ops s0 = some s1) ∧
    (∀ s : Reactor × BoardStore, s.1.paused = true → Reactor.pause isMainThread s = some s) ∧
    (∀ r : Reactor, r.paused = false → r.unpause = r) := by
  have hcount : ∀ pre s1, Reactor.runPauseOps isMainThread pre s0 = some s1 →
      s1.1.blockedCounter = outstandingBlocks pre + pausedCount s1.1 ∧ 0 ≤ pausedCount s1.1 := by
    intro pre s1 hrun
    have h := Reactor.runPauseOps_counter isMainThread pre s0 s1 hrun
    have hz : pausedCount s0.1 = 0 := by simp [pausedCount, hp0]
    rw [h0, hz] at h
    have h3 : 0 ≤ pausedCount s1.1 := by
      unfold pausedCount
      split <;> omega
    exact ⟨by omega, h3⟩
  refine ⟨?_, ?_, Reactor.runPauseOps_progress isMainThread ops s0, ?_, ?_⟩
  · intro pre s1 hpre hrun
    obtain ⟨h, h3⟩ := hcount pre s1 hrun
    have h2 := hbal pre ((List.mem_inits pre ops).2 hpre)
    have h4 : pausedCount s1.1 = if s1.1.paused then 1 else 0 := rfl
    constructor
    · rw [← h4]
      exact h
    · omega
  · intro pre s1 hpre hrun
    obtain ⟨h, h3⟩ := hcount pre s1 hrun
    have h2 := hbal _ ((List.mem_inits _ ops).2 hpre)
    rw [outstandingBlocks_append] at h2
    simp only [outstandingBlocks] at h2
    unfold Reactor.unblockAsserts
    omega
  · intro s hp
    simp [Reactor.pause, hp]
  · intro r hp
    simp [Reactor.unpause, hp]

/-- C21, the failing input: in the session after `create_machine` and
`activate_machine`, whose active board has no machine configuration, `block()`
and `pause()` on the main thread do not return: `exitCPULoopSync` dereferences
the CPU that was never constructed and the assertion of `getCPU` fails, so the
mixer is never muted.  On another thread the guarded sibling
`exitCPULoopAsync` returns without a request to any CPU and the mixer is muted.
Once a machine is loaded, `block()` on the main thread asks the CPU of the
active board to leave its loop and then mutes the mixer. -/
theorem block_aborts_on_empty_active_board :
    emptyActiveSession.1.activeBoard = some 1 ∧
    (emptyActiveSession.2 1).machineConfig = none ∧
    ¬ (emptyActiveSession.2 1).getCPUAsserts ∧
    Reactor.block true emptyActiveSession = none ∧
    Reactor.pause true emptyActiveSession = none ∧
    (∃ s, Reactor.block false emptyActiveSession = some s ∧
      s.1.blockedCounter = 1 ∧
      s.1.effects = emptyActiveSession.1.effects ++
        [ReactorEffect.exitCPULoopAsync 1, ReactorEffect.mixerMute] ∧
      (s.2 1).effects = []) ∧
    (∃ s, Reactor.block true loadedActiveSession = some s ∧
      s.1.blockedCounter = 1 ∧
      s.1.effects = loadedActiveSession.1.effects ++
        [ReactorEffect.exitCPULoopSync 1, ReactorEffect.mixerMute] ∧
      (s.2 1).effects = [BoardEffect.cpuExitLoopSync]) := by
  refine ⟨rfl, rfl, ?_, rfl, rfl, ⟨_, rfl, rfl, rfl, rfl⟩, ⟨_, rfl, rfl, rfl, rfl⟩⟩
  unfold MSXMotherBoard.getCPUAsserts
  decide

/-! ## Board layer: the media provider registry -/

theorem findMediaProvider_none_iff (mp : List MediaProviderInfo) (n : String) :
    MSXMotherBoard.findMediaProvider mp n = none ↔ n ∉ mp.map MediaProviderInfo.name := by
  induction mp with
  | nil => simp [MSXMotherBoard.findMediaProvider]
  | cons e mp ih =>
    unfold MSXMotherBoard.findMediaProvider at ih ⊢
    by_cases he : e.name = n
    · simp [List.find?, he]
    · have hne : ¬ n = e.name := fun h => he h.symm
      simp only [List.find?, he, decide_False, List.map_cons, List.mem_cons, hne, false_or]
      exact ih

theorem findMediaProvider_some_iff (mp : List MediaProviderInfo) (n : String) (p : Nat)
    (hnd : (mp.map MediaProviderInfo.name).Nodup) :
    MSXMotherBoard.findMediaProvider mp n = some p ↔
      ({ name := n, provider := p } : MediaProviderInfo) ∈ mp := by
  induction mp with
  | nil => simp [MSXMotherBoard.findMediaProvider]
  | cons e mp ih =>
    have hnd2 : (mp.map MediaProviderInfo.name).Nodup := (List.nodup_cons.mp hnd).2
    have hnot : e.name ∉ mp.map MediaProviderInfo.name := (List.nodup_cons.mp hnd).1
    have ih2 := ih hnd2
    unfold MSXMotherBoard.findMediaProvider at ih2 ⊢
    by_cases he : e.name = n
    · simp only [List.find?, he, decide_True, List.mem_cons]
      constructor
      · intro h
        left
        cases e
        simp only [Option.some.injEq] at h
        simp only at he
        simp [he, h]
      · intro h
        rcases h with h | h
        · rw [← h]
        · exfalso
          apply hnot
          rw [he]
          exact List.mem_map.mpr ⟨_, h, rfl⟩
    · simp only [List.find?, he, decide_False, List.mem_cons]
      rw [ih2]
      constructor
      · intro h
        exact Or.inr h
      · intro h
        rcases h with h | h
        · exfalso
          apply he
          rw [← h]
        · exact h

theorem findMediaProvider_perm (mp mp2 : List MediaProviderInfo) (n : String)
    (hperm : mp2.Perm mp) (hnd : (mp.map MediaProviderInfo.name).Nodup) :
    MSXMotherBoard.findMediaProvider mp2 n = MSXMotherBoard.findMediaProvider mp n := by
  have hnd2 : (mp2.map MediaProviderInfo.name).Nodup :=
    (hperm.map MediaProviderInfo.name).nodup_iff.mpr hnd
  cases h : MSXMotherBoard.findMediaProvider mp n with
  | none =>
    rw [findMediaProvider_none_iff] at h ⊢
    intro hm
    exact h ((hperm.map MediaProviderInfo.name).mem_iff.mp hm)
  | some p =>
    rw [findMediaProvider_some_iff mp n p hnd] at h
    rw [findMediaProvider_some_iff mp2 n p hnd2]
    exact hperm.mem_iff.mpr h

theorem map_split {α β : Type} (f : α → β) (l : List α) (l1 l2 : List β) (x : β)
    (h : l.map f = l1 ++ x :: l2) :
    ∃ m1 e m2, l = m1 ++ e :: m2 ∧ m1.map f = l1 ∧ f e = x ∧ m2.map f = l2 := by
  induction l generalizing l1 with
  | nil => simp at h
  | cons a l ih =>
    cases l1 with
    | nil =>
      simp only [List.map_cons, List.nil_append, List.cons.injEq] at h
      exact ⟨[], a, l, rfl, rfl, h.1, h.2⟩
    | cons b l1 =>
      simp only [List.map_cons, List.cons_append, List.cons.injEq] at h
      obtain ⟨m1, e, m2, h1, h2, h3, h4⟩ := ih l1 h.2
      exact ⟨a :: m1, e, m2, by simp [h1], by simp [h.1, h2], h3, h4⟩

theorem unregisterMediaProvider_run (mp : List MediaProviderInfo) (p : Nat)
    (hp : p ∈ mp.map MediaProviderInfo.provider) :
    ∃ m1 e m2, mp = m1 ++ e :: m2 ∧ e.provider = p ∧
      MSXMotherBoard.unregisterMediaProvider mp p = some (move_pop_back mp m1.length) ∧
      (move_pop_back mp m1.length).Perm (m1 ++ m2) := by
  obtain ⟨j, hj⟩ := rfind_unguarded_of_mem p _ hp
  obtain ⟨l1, l2, h1, _, h3⟩ := rfind_unguarded_some p _ j hj
  obtain ⟨m1, e, m2, hm, hm1, he, _⟩ := map_split _ mp l1 l2 p h1
  have hlen : j = m1.length := by rw [h3, ← hm1, List.length_map]
  refine ⟨m1, e, m2, hm, he, ?_, ?_⟩
  · simp [MSXMotherBoard.unregisterMediaProvider, hj, hlen]
  · rw [hm]
    exact move_pop_back_perm e m1 m2

theorem registryRefines_register (mp : List MediaProviderInfo) (m : MediaRegistrySpec)
    (n : String) (p : Nat) (hR : registryRefines mp m)
    (hpre : MSXMotherBoard.registerMediaProviderAsserts mp n p = true) :
    registryRefines (MSXMotherBoard.registerMediaProvider mp n p) (m.register n p) := by
  obtain ⟨hn, hp, hf⟩ := hR
  have hpre2 : n ∉ mp.map MediaProviderInfo.name ∧ p ∉ mp.map MediaProviderInfo.provider := by
    simpa [MSXMotherBoard.registerMediaProviderAsserts] using hpre
  have hn2 : ((MSXMotherBoard.registerMediaProvider mp n p).map MediaProviderInfo.name).Nodup := by
    simp only [MSXMotherBoard.registerMediaProvider, List.map_append, List.map_cons, List.map_nil]
    exact List.Nodup.append hn (List.nodup_singleton n)
      (by
        intro a ha hb
        simp only [List.mem_singleton] at hb
        exact hpre2.1 (hb ▸ ha))
  refine ⟨hn2, ?_, ?_⟩
  · simp only [MSXMotherBoard.registerMediaProvider, List.map_append, List.map_cons, List.map_nil]
    exact List.Nodup.append hp (List.nodup_singleton p)
      (by
        intro a ha hb
        simp only [List.mem_singleton] at hb
        exact hpre2.2 (hb ▸ ha))
  · intro k
    simp only [MediaRegistrySpec.find, MediaRegistrySpec.register]
    by_cases hk : k = n
    · subst hk
      simp only [if_true]
      rw [findMediaProvider_some_iff _ _ _ hn2]
      simp [MSXMotherBoard.registerMediaProvider]
    · simp only [hk, if_false]
      have hfk := hf k
      simp only [MediaRegistrySpec.find] at hfk
      rw [← hfk]
      cases h : MSXMotherBoard.findMediaProvider mp k with
      | none =>
        rw [findMediaProvider_none_iff] at h ⊢
        simp only [MSXMotherBoard.registerMediaProvider, List.map_append, List.map_cons,
          List.map_nil, List.mem_append, List.mem_singleton, not_or]
        exact ⟨h, hk⟩
      | some q =>
        rw [findMediaProvider_some_iff _ _ _ hn] at h
        rw [findMediaProvider_some_iff _ _ _ hn2]
        simp only [MSXMotherBoard.registerMediaProvider, List.mem_append]
        exact Or.inl h

theorem findMediaProvider_removed (m1 m2 : List MediaProviderInfo) (e : MediaProviderInfo)
    (hn : ((m1 ++ e :: m2).map MediaProviderInfo.name).Nodup)
    (hp : ((m1 ++ e :: m2).map MediaProviderInfo.provider).Nodup) (k : String) :
    MSXMotherBoard.findMediaProvider (m1 ++ m2) k =
      if MSXMotherBoard.findMediaProvider (m1 ++ e :: m2) k = some e.provider then none
      else MSXMotherBoard.findMediaProvider (m1 ++ e :: m2) k := by
  have hsub : (m1 ++ m2).Sublist (m1 ++ e :: m2) :=
    List.Sublist.append (List.Sublist.refl m1) (List.sublist_cons_self e m2)
  have hn2 : ((m1 ++ m2).map MediaProviderInfo.name).Nodup :=
    List.Nodup.sublist (hsub.map MediaProviderInfo.name) hn
  have hnotin : e.name ∉ (m1 ++ m2).map MediaProviderInfo.name := by
    have h := hn
    simp only [List.map_append, List.map_cons] at h
    have h2 := (List.nodup_cons.mp (List.nodup_middle.mp h)).1
    simpa using h2
  have he : e ∈ m1 ++ e :: m2 := by simp
  by_cases hk : k = e.name
  · subst hk
    have hfind : MSXMotherBoard.findMediaProvider (m1 ++ e :: m2) e.name = some e.provider := by
      rw [findMediaProvider_some_iff _ _ _ hn]
      exact he
    rw [hfind]
    simp only [if_true]
    exact (findMediaProvider_none_iff _ _).2 hnotin
  · have hne : MSXMotherBoard.findMediaProvider (m1 ++ e :: m2) k ≠ some e.provider := by
      intro h
      rw [findMediaProvider_some_iff _ _ _ hn] at h
      have := List.inj_on_of_nodup_map hp h he rfl
      apply hk
      rw [← this]
    rw [if_neg hne]
    cases h : MSXMotherBoard.findMediaProvider (m1 ++ e :: m2) k with
    | none =>
      rw [findMediaProvider_none_iff] at h ⊢
      intro hm
      exact h ((hsub.map MediaProviderInfo.name).subset hm)
    | some q =>
      rw [findMediaProvider_some_iff _ _ _ hn] at h
      rw [findMediaProvider_some_iff _ _ _ hn2]
      simp only [List.mem_append, List.mem_cons] at h ⊢
      rcases h with h | h | h
      · exact Or.inl h
      · exfalso
        apply hk
        rw [← h]
      · exact Or.inr h

theorem registryRefines_unregister (mp : List MediaProviderInfo) (m : MediaRegistrySpec)
    (p : Nat) (hR : registryRefines mp m)
    (hpre : p ∈ mp.map MediaProviderInfo.provider) :
    ∃ mp2, MSXMotherBoard.unregisterMediaProvider mp p = some mp2 ∧
      registryRefines mp2 (m.unregister p) := by
  obtain ⟨hn, hp, hf⟩ := hR
  obtain ⟨m1, e, m2, hsplit, he, hrun, hperm⟩ := unregisterMediaProvider_run mp p hpre
  subst hsplit
  have hsub : (m1 ++ m2).Sublist (m1 ++ e :: m2) :=
    List.Sublist.append (List.Sublist.refl m1) (List.sublist_cons_self e m2)
  have hn2 : ((m1 ++ m2).map MediaProviderInfo.name).Nodup :=
    List.Nodup.sublist (hsub.map MediaProviderInfo.name) hn
  have hp2 : ((m1 ++ m2).map MediaProviderInfo.provider).Nodup :=
    List.Nodup.sublist (hsub.map MediaProviderInfo.provider) hp
  refine ⟨_, hrun, ?_, ?_, ?_⟩
  · exact (hperm.map MediaProviderInfo.name).nodup_iff.mpr hn2
  · exact (hperm.map MediaProviderInfo.provider).nodup_iff.mpr hp2
  · intro k
    rw [findMediaProvider_perm _ _ k hperm hn2, findMediaProvider_removed m1 m2 e hn hp k]
    have hfk := hf k
    simp only [MediaRegistrySpec.find] at hfk
    simp only [MediaRegistrySpec.find, MediaRegistrySpec.unregister, hfk, he]

theorem runRegistryOps_refines (ops : List RegistryOp) (mp : List MediaProviderInfo)
    (m : MediaRegistrySpec) (hR : registryRefines mp m)
    (hadm : RegistryOp.admissible ops mp = true) :
    ∃ mp2, runRegistryOps ops mp = some mp2 ∧
      registryRefines mp2 (specRunRegistryOps ops m) := by
  induction ops generalizing mp m with
  | nil => exact ⟨mp, rfl, hR⟩
  | cons op ops ih =>
    simp only [RegistryOp.admissible, Bool.and_eq_true] at hadm
    obtain ⟨hpre, hrest⟩ := hadm
    cases op with
    | register n p =>
      simp only [RegistryOp.apply] at hrest
      have hR2 := registryRefines_register mp m n p hR hpre
      obtain ⟨mp2, h1, h2⟩ := ih _ _ hR2 hrest
      exact ⟨mp2, by simpa [runRegistryOps, RegistryOp.apply] using h1,
        by simpa [specRunRegistryOps, RegistryOp.specApply] using h2⟩
    | unregister p =>
      have hmem : p ∈ mp.map MediaProviderInfo.provider := by
        simpa [RegistryOp.pre] using hpre
      obtain ⟨mp1, hrun, hR2⟩ := registryRefines_unregister mp m p hR hmem
      simp only [RegistryOp.apply, hrun] at hrest
      obtain ⟨mp2, h1, h2⟩ := ih _ _ hR2 hrest
      exact ⟨mp2, by simpa [runRegistryOps, RegistryOp.apply, hrun] using h1,
        by simpa [specRunRegistryOps, RegistryOp.specApply] using h2⟩

/-- C22: start from the empty registry of a new board and make any sequence of
`registerMediaProvider` calls (name and provider both not registered at that
moment) and `unregisterMediaProvider` calls (provider registered).  Every call
returns, and in the resulting vector names and providers are pairwise distinct,
`findMediaProvider` agrees with the lookup in the map of the specification,
returns the provider of the entry registered under a name and the null pointer
for a name that is not registered, and unregistering the provider of an entry
makes its name unknown and changes the lookup of no other name. -/
theorem media_registry_is_map (ops : List RegistryOp)
    (hadm : RegistryOp.admissible ops [] = true) :
    ∃ mp, runRegistryOps ops [] = some mp ∧
      (mp.map MediaProviderInfo.name).Nodup ∧
      (mp.map MediaProviderInfo.provider).Nodup ∧
      (∀ n, MSXMotherBoard.findMediaProvider mp n =
        (specRunRegistryOps ops (fun _ => none)).find n) ∧
      (∀ e ∈ mp, MSXMotherBoard.findMediaProvider mp e.name = some e.provider) ∧
      (∀ n, n ∉ mp.map MediaProviderInfo.name → MSXMotherBoard.findMediaProvider mp n = none) ∧
      (∀ e ∈ mp, ∃ mp2,
        MSXMotherBoard.unregisterMediaProvider mp e.provider = some mp2 ∧
        MSXMotherBoard.findMediaProvider mp2 e.name = none ∧
        ∀ k, k ≠ e.name →
          MSXMotherBoard.findMediaProvider mp2 k = MSXMotherBoard.findMediaProvider mp k) := by
  have hR0 : registryRefines [] (fun _ => none) := by
    refine ⟨by simp, by simp, ?_⟩
    intro n
    simp [MSXMotherBoard.findMediaProvider, MediaRegistrySpec.find]
  obtain ⟨mp, hrun, hR⟩ := runRegistryOps_refines ops [] _ hR0 hadm
  obtain ⟨hn, hp, hf⟩ := hR
  refine ⟨mp, hrun, hn, hp, hf, ?_, ?_, ?_⟩
  · intro e he
    rw [findMediaProvider_some_iff _ _ _ hn]
    exact he
  · intro n hnot
    exact (findMediaProvider_none_iff mp n).2 hnot
  · intro e he
    have hmem : e.provider ∈ mp.map MediaProviderInfo.provider := List.mem_map.mpr ⟨e, he, rfl⟩
    have hfe : MSXMotherBoard.findMediaProvider mp e.name = some e.provider := by
      rw [findMediaProvider_some_iff _ _ _ hn]
      exact he
    obtain ⟨mp2, hrun2, _, _, hf2⟩ :=
      registryRefines_unregister mp (fun k => MSXMotherBoard.findMediaProvider mp k) e.provider
        ⟨hn, hp, fun _ => rfl⟩ hmem
    refine ⟨mp2, hrun2, ?_, ?_⟩
    · rw [hf2]
      simp [MediaRegistrySpec.find, MediaRegistrySpec.unregister, hfe]
    · intro k hk
      rw [hf2]
      have hne : MSXMotherBoard.findMediaProvider mp k ≠ some e.provider := by
        intro h
        rw [findMediaProvider_some_iff _ _ _ hn] at h
        have := List.inj_on_of_nodup_map hp h he rfl
        apply hk
        rw [← this]
      simp [MediaRegistrySpec.find, MediaRegistrySpec.unregister, hne]

/-- C22 on a concrete history: two providers are registered, the first one is
unregistered and its name is registered again for a third provider. -/
theorem media_registry_is_map_witness :
    RegistryOp.admissible
      [RegistryOp.register "diska" 1, RegistryOp.register "cassetteplayer" 2,
       RegistryOp.unregister 1, RegistryOp.register "diska" 3] [] = true ∧
    ∃ mp, runRegistryOps
      [RegistryOp.register "diska" 1, RegistryOp.register "cassetteplayer" 2,
       RegistryOp.unregister 1, RegistryOp.register "diska" 3] [] = some mp ∧
      (mp.map MediaProviderInfo.name).Nodup ∧
      (mp.map MediaProviderInfo.provider).Nodup :=
  ⟨by decide,
   (media_registry_is_map
      [RegistryOp.register "diska" 1, RegistryOp.register "cassetteplayer" 2,
       RegistryOp.unregister 1, RegistryOp.register "diska" 3] (by decide)).imp
     (fun _ h => ⟨h.1, h.2.1, h.2.2.1⟩)⟩

/-! ## Board layer: tearing a machine down -/

theorem MSXMotherBoard.foldl_addDevice_fields (l : List DevicePtr) (b : MSXMotherBoard) :
    l.foldl MSXMotherBoard.addDevice b =
      { b with availableDevices := b.availableDevices ++ l } := by
  induction l generalizing b with
  | nil => simp
  | cons d l ih =>
    rw [List.foldl_cons, ih]
    simp [MSXMotherBoard.addDevice]

/-- C24 fails as stated: on an empty board a machine description whose slots do not
parse makes `loadMachine` throw, and the board then has a machine configuration
and a CPU; a description whose second device cannot be created leaves the first
device registered as well. -/
theorem loadMachine_failure_counterexample :
    (∃ b msg,
      (MSXMotherBoard.create "machine1" false).loadMachine
        (fun _ => Except.ok ⟨"m", "m", ConfigType.MACHINE, [1, 2], some "bad slot", none, none⟩)
        0 "m" = some (b, Except.error msg) ∧
      b.machineConfig.isSome = true ∧ b.msxCpu = true ∧
      b ≠ MSXMotherBoard.create "machine1" false) ∧
    (∃ b msg,
      (MSXMotherBoard.create "machine1" false).loadMachine
        (fun _ => Except.ok
          ⟨"m", "m", ConfigType.MACHINE, [1, 2], none, some (1, "rom not found"), none⟩)
        0 "m" = some (b, Except.error msg) ∧
      b.machineConfig.isSome = true ∧ b.availableDevices = [1]) := by
  refine ⟨⟨_, _, rfl, ?_, ?_, ?_⟩, ⟨_, _, rfl, ?_, ?_⟩⟩ <;> decide

/-- C24 as amended: on an empty board a failing `loadMachine` (description not found
or invalid, or an error while parsing slots or creating devices) throws, for any
fuel, an error whose message names the machine, and leaves the machine name
empty, the extension list empty and the board unpowered.  When the description
is not found or invalid the board is unchanged.  When parsing slots or creating
devices fails the board keeps the machine configuration and its CPU, with the
devices created before the failure registered. -/
theorem loadMachine_failure_state
    (createMachineConfig : String → Except ConfigError HardwareConfig) (fuel : Nat)
    (machineID : String) (powerSetting : Bool) (machine : String)
    (hfail : (∃ e, createMachineConfig machine = Except.error e) ∨
      ∃ cfg, createMachineConfig machine = Except.ok cfg ∧
        (cfg.parseSlotsError.isSome = true ∨ cfg.createDevicesError.isSome = true)) :
    ∃ b msg,
      (MSXMotherBoard.create machineID powerSetting).loadMachine createMachineConfig fuel machine
        = some (b, Except.error msg) ∧
      (∃ detail, msg = "Machine \"" ++ machine ++ "\" not found: " ++ detail ∨
        msg = "Error in \"" ++ machine ++ "\" machine: " ++ detail) ∧
      b.machineName = "" ∧ b.extensions = [] ∧ b.powered = false ∧
      ((∃ e, createMachineConfig machine = Except.error e) →
        b = MSXMotherBoard.create machineID powerSetting) ∧
      (∀ cfg, createMachineConfig machine = Except.ok cfg →
        b.machineConfig = some cfg ∧ b.machineConfig2 = some cfg ∧ b.msxCpu = true ∧
        b.availableDevices = cfg.ownedDevices) := by
  rcases hfail with ⟨e, he⟩ | ⟨cfg, hcfg, herr⟩
  · cases e with
    | file m =>
      refine ⟨_, _, by simp only [MSXMotherBoard.loadMachine, he], ⟨m, Or.inl rfl⟩, rfl, rfl, rfl,
        fun _ => rfl, ?_⟩
      intro cfg hc
      rw [he] at hc
      cases hc
    | msx m =>
      refine ⟨_, _, by simp only [MSXMotherBoard.loadMachine, he], ⟨m, Or.inr rfl⟩, rfl, rfl, rfl,
        fun _ => rfl, ?_⟩
      intro cfg hc
      rw [he] at hc
      cases hc
  · cases hps : cfg.parseSlotsError with
    | some m =>
      refine ⟨({ MSXMotherBoard.create machineID powerSetting with
                  machineConfig2 := some cfg }).setMachineConfig cfg,
        "Error in \"" ++ machine ++ "\" machine: " ++ m,
        by simp only [MSXMotherBoard.loadMachine, hcfg, HardwareConfig.parseSlots, hps],
        ⟨m, Or.inr rfl⟩, rfl, rfl, rfl, ?_, ?_⟩
      · rintro ⟨e, he⟩
        rw [hcfg] at he
        cases he
      · intro c hc
        rw [hcfg] at hc
        cases hc
        simp [MSXMotherBoard.setMachineConfig, HardwareConfig.ownedDevices, hps,
          MSXMotherBoard.create]
    | none =>
      have hcd : cfg.createDevicesError.isSome = true := by
        rcases herr with h | h
        · rw [hps] at h
          cases h
        · exact h
      cases hce : cfg.createDevicesError with
      | none =>
        rw [hce] at hcd
        cases hcd
      | some km =>
        obtain ⟨k, m⟩ := km
        refine ⟨(cfg.devices.take k).foldl MSXMotherBoard.addDevice
            (({ MSXMotherBoard.create machineID powerSetting with
                machineConfig2 := some cfg }).setMachineConfig cfg),
          "Error in \"" ++ machine ++ "\" machine: " ++ m,
          by simp only [MSXMotherBoard.loadMachine, hcfg, HardwareConfig.parseSlots,
            hps, HardwareConfig.createDevices, hce], ⟨m, Or.inr rfl⟩, ?_, ?_, ?_, ?_, ?_⟩
        · rw [MSXMotherBoard.foldl_addDevice_fields]
          rfl
        · rw [MSXMotherBoard.foldl_addDevice_fields]
          rfl
        · rw [MSXMotherBoard.foldl_addDevice_fields]
          rfl
        · rintro ⟨e, he⟩
          rw [hcfg] at he
          cases he
        · intro c hc
          rw [hcfg] at hc
          cases hc
          rw [MSXMotherBoard.foldl_addDevice_fields]
          simp [MSXMotherBoard.setMachineConfig, HardwareConfig.ownedDevices, hps, hce,
            MSXMotherBoard.create]

/-- C24 as amended, at a machine name for which no description is found: the board
is unchanged. -/
theorem loadMachine_failure_state_witness :
    ∃ b msg,
      (MSXMotherBoard.create "machine1" false).loadMachine
        (fun _ => Except.error (ConfigError.file "no such file")) 0 "msx9"
        = some (b, Except.error msg) ∧
      b = MSXMotherBoard.create "machine1" false := by
  obtain ⟨b, msg, h1, _, _, _, _, h5, _⟩ :=
    loadMachine_failure_state (fun _ => Except.error (ConfigError.file "no such file")) 0
      "machine1" false "msx9" (Or.inl ⟨_, rfl⟩)
  exact ⟨b, msg, h1, h5 ⟨_, rfl⟩⟩

/-! ## Board layer: serializing and restoring the complete state -/

/-- Loading a configuration that loads touches the device list and, for a machine
configuration, the machine pointer, the CPU and the log; nothing else. -/
theorem HardwareConfig.serializeLoader_loads (c : HardwareConfig) (b : MSXMotherBoard)
    (h : c.loads) :
    ∃ b1, c.serializeLoader b = (b1, Except.ok ()) ∧
      b1.extensions = b.extensions ∧ b1.currentTime = b.currentTime ∧
      b1.machineName = b.machineName ∧ b1.machineConfig2 = b.machineConfig2 ∧
      b1.powered = b.powered ∧ b1.powerSetting = b.powerSetting := by
  obtain ⟨hp, hc⟩ := h
  refine ⟨c.devices.foldl MSXMotherBoard.addDevice
    (if c.type = ConfigType.MACHINE then b.setMachineConfig c else b), ?_, ?_⟩
  · simp [HardwareConfig.serializeLoader, HardwareConfig.parseSlots, hp,
      HardwareConfig.createDevices, hc]
  · rw [MSXMotherBoard.foldl_addDevice_fields]
    by_cases ht : c.type = ConfigType.MACHINE <;> simp [ht, MSXMotherBoard.setMachineConfig]

theorem MSXMotherBoard.loadExtensionsField_loads (exts : List HardwareConfig) :
    ∀ b : MSXMotherBoard, (∀ c ∈ exts, c.loads) →
      ∃ b1, MSXMotherBoard.loadExtensionsField exts b = (b1, Except.ok ()) ∧
        b1.extensions = b.extensions ++ exts ∧ b1.currentTime = b.currentTime ∧
        b1.machineName = b.machineName ∧ b1.machineConfig2 = b.machineConfig2 ∧
        b1.powered = b.powered ∧ b1.powerSetting = b.powerSetting := by
  induction exts with
  | nil =>
    intro b _
    exact ⟨b, rfl, by simp, rfl, rfl, rfl, rfl, rfl⟩
  | cons e exts ih =>
    intro b h
    obtain ⟨b1, h1, he, ht, hn, hc, hpw, hps⟩ :=
      HardwareConfig.serializeLoader_loads e b (h e (List.mem_cons_self _ _))
    obtain ⟨b2, h2, he2, ht2, hn2, hc2, hpw2, hps2⟩ :=
      ih { b1 with extensions := b1.extensions ++ [e] }
        (fun c hc => h c (List.mem_cons_of_mem _ hc))
    refine ⟨b2, ?_, ?_, ?_, ?_, ?_, ?_, ?_⟩
    · simp only [MSXMotherBoard.loadExtensionsField, h1]
      exact h2
    · rw [he2]
      simp [he]
    · rw [ht2]
      exact ht
    · rw [hn2]
      exact hn
    · rw [hc2]
      exact hc
    · rw [hpw2]
      exact hpw
    · rw [hps2]
      exact hps

/-- Setting the power setting to true on a board that is already powered returns
and changes the setting only. -/
theorem MSXMotherBoard.setBoolean_true_on_powered (fuel : Nat) (b : MSXMotherBoard)
    (hp : b.powered = true) (hfuel : 3 ≤ fuel) :
    MSXMotherBoard.powerSetting_setBoolean fuel true b = some { b with powerSetting := true } := by
  obtain ⟨f, rfl⟩ : ∃ f, fuel = f + 3 := ⟨fuel - 3, by omega⟩
  by_cases hs : b.powerSetting = true
  · rw [MSXMotherBoard.powerSetting_setBoolean]
    simp only [hs, if_true]
    cases b
    simp only at hs
    simp [hs]
  · rw [MSXMotherBoard.powerSetting_setBoolean]
    simp only [hs, if_false]
    rw [MSXMotherBoard.SettingObserver_update]
    simp only [if_true]
    rw [MSXMotherBoard.powerUp]
    simp [hp]

/-- C25: let `b` be a board with a loaded machine configuration `cfg` (the machine
configuration and the extensions are configurations that load).  Then
`storeAsSetup(path, COMPLETE_STATE)` returns, constructs no temporary board,
leaves the session as it is and writes exactly the element of `b` to the
archive of `path`; and loading the content of that file into a fresh empty
board returns (for fuel of at least 3) a board with the machine name of `b`,
the extension list of `b` (the same names in the same order), the scheduler
time of `b` and the machine configuration `cfg`, powered. -/
theorem complete_state_roundtrip (env : SetupEnv) (fuel fuel2 : Nat) (reactor : Reactor)
    (b : MSXMotherBoard) (cfg : HardwareConfig) (path machineID : String) (powerSetting : Bool)
    (hcfg : b.machineConfig2 = some cfg) (hloads : ∀ c ∈ cfg :: b.extensions, c.loads)
    (hfuel : 3 ≤ fuel2) :
    ∃ store file b2,
      b.storeAsSetup env fuel reactor path SetupDepth.COMPLETE_STATE = some store ∧
      store.archive = [ArchiveEffect.create path, ArchiveEffect.serialize b,
                       ArchiveEffect.close] ∧
      store.newBoard = none ∧ store.reactor = reactor ∧ store.outcome = Except.ok () ∧
      archiveContent MSXMotherBoard.serializeSaver store.archive = some file ∧
      (MSXMotherBoard.create machineID powerSetting).serializeLoader fuel2 file
        = some (b2, Except.ok ()) ∧
      b2.machineName = b.machineName ∧
      b2.extensions = b.extensions ∧
      b2.extensions.map HardwareConfig.name = b.extensions.map HardwareConfig.name ∧
      b2.currentTime = b.currentTime ∧
      b2.machineConfig2 = some cfg ∧ b2.powered = true := by
  obtain ⟨b4, h4, he4, ht4, hn4, _, _, _⟩ :=
    HardwareConfig.serializeLoader_loads cfg
      { ({ MSXMotherBoard.create machineID powerSetting with
            currentTime := b.currentTime }).emit BoardEffect.mixerReInit with
        machineName := b.machineName }
      (hloads cfg (List.mem_cons_self _ _))
  obtain ⟨b5, h5, he5, ht5, hn5, hc5, _, _⟩ :=
    MSXMotherBoard.loadExtensionsField_loads b.extensions { b4 with machineConfig2 := some cfg }
      (fun c hc => hloads c (List.mem_cons_of_mem _ hc))
  have h7 := MSXMotherBoard.setBoolean_true_on_powered fuel2 { b5 with powered := true } rfl hfuel
  have hext : b5.extensions = b.extensions := by
    rw [he5]
    show b4.extensions ++ b.extensions = b.extensions
    rw [he4]
    simp [MSXMotherBoard.emit, MSXMotherBoard.create]
  refine ⟨{ reactor := reactor,
            archive := [ArchiveEffect.create path, ArchiveEffect.serialize b,
                        ArchiveEffect.close],
            newBoard := none, inserted := [], outcome := Except.ok () },
    b.serializeSaver,
    (({ { b5 with powered := true } with powerSetting := true }).emit
      (BoardEffect.setPowerLed true)).emit BoardEffect.mixerUnmute,
    ?_, rfl, rfl, rfl, rfl, rfl, ?_, ?_, hext, ?_, ?_, ?_, rfl⟩
  · simp [MSXMotherBoard.storeAsSetup]
  · simp only [MSXMotherBoard.serializeLoader, MSXMotherBoard.serializeSaver, hcfg, h4, h5, h7]
  · show b5.machineName = b.machineName
    rw [hn5]
    show b4.machineName = b.machineName
    rw [hn4]
  · show List.map HardwareConfig.name b5.extensions = _
    rw [hext]
  · show b5.currentTime = b.currentTime
    rw [ht5]
    show b4.currentTime = b.currentTime
    rw [ht4]
    rfl
  · show b5.machineConfig2 = some cfg
    rw [hc5]

/-- C25 on the board with machine `m` and the extensions `fmpac` and `scc`, moved to
scheduler time 1234. -/
theorem complete_state_roundtrip_witness :
    ∃ b2,
      (MSXMotherBoard.create "machine2" false).serializeLoader 3
        ({ teardownExample with currentTime := 1234 }).serializeSaver
        = some (b2, Except.ok ()) ∧
      b2.machineName = "m" ∧
      b2.extensions.map HardwareConfig.name = ["fmpac", "scc"] ∧
      b2.currentTime = 1234 := by
  obtain ⟨_, file, b2, _, harch, _, _, _, hfile, hload, hn, _, he, ht, _, _⟩ :=
    complete_state_roundtrip
      { createMachineConfig := fun _ => Except.error (ConfigError.file ""),
        createExtensionConfig := fun _ _ => Except.error (ConfigError.file ""),
        findSlotWith := fun _ => none, connectors := [], findConnector := fun _ => false,
        findPluggable := fun _ => false, plug := fun _ _ => Except.ok (),
        mediaProviders := [], findMediaProvider := fun _ => false,
        setMedia := fun _ _ => Except.ok () }
      0 3 Reactor.initial { teardownExample with currentTime := 1234 }
      ⟨"m", "m", ConfigType.MACHINE, [1, 2], none, none, none⟩ "state.xml" "machine2" false
      rfl (by unfold HardwareConfig.loads; decide) (by decide)
  rw [harch] at hfile
  simp only [archiveContent, Option.some.injEq] at hfile
  subst hfile
  exact ⟨b2, hload, hn, he, ht⟩

/-! ## MegaRAM: write mode and mapping mode -/

/-- C26: after an I/O read on an even port the MegaRAM is in write mode and not in ROM
mode, with RAM and bank registers untouched; a memory write to any address then
changes no bank register and stores the byte in the RAM block mapped at the
address when the block exists, and changes nothing when it does not.  After an
I/O write on an even port, whatever the value written, the MegaRAM is in
mapping mode and not in ROM mode; a memory write then changes no RAM byte and
sets the bank register of page `(address & 0x7FFF) / 0x2000` to the written
value masked with `maskBlocks`, leaving the other registers as they are. -/
theorem megaram_write_and_mapping_mode (m : MSXMegaRam) (port : Nat) (heven : port % 2 = 0) :
    ((m.readIO port).1.writeMode = true ∧ (m.readIO port).1.romMode = false ∧
      (m.readIO port).1.ram = m.ram ∧ (m.readIO port).1.bank = m.bank ∧
      (m.readIO port).2 = 0xFF ∧
      ∀ address value,
        (((m.readIO port).1).writeMem address value).bank = m.bank ∧
        (m.bank ((address &&& 0x7FFF) / 0x2000) < m.numBlocks →
          (((m.readIO port).1).writeMem address value).ram =
            fun i => if i = m.bank ((address &&& 0x7FFF) / 0x2000) * 0x2000 + (address &&& 0x1FFF)
              then value else m.ram i) ∧
        (¬ m.bank ((address &&& 0x7FFF) / 0x2000) < m.numBlocks →
          (((m.readIO port).1).writeMem address value).ram = m.ram)) ∧
    (∀ written,
      (m.writeIO port written).writeMode = false ∧ (m.writeIO port written).romMode = false ∧
      (m.writeIO port written).ram = m.ram ∧ (m.writeIO port written).bank = m.bank ∧
      ∀ address value,
        ((m.writeIO port written).writeMem address value).ram = m.ram ∧
        ((m.writeIO port written).writeMem address value).bank =
          (fun p => if p = (address &&& 0x7FFF) / 0x2000 then value &&& m.maskBlocks
            else m.bank p) ∧
        ((m.writeIO port written).writeMem address value).writeMode = false ∧
        ((m.writeIO port written).writeMem address value).romMode = false) := by
  have hp : port &&& 1 = 0 := by rw [Nat.and_one_is_mod]; exact heven
  have hr : (m.readIO port).1 = { m with writeMode := true, romMode := false } := by
    simp [MSXMegaRam.readIO, hp]
  have hw : ∀ written, m.writeIO port written = { m with writeMode := false, romMode := false } := by
    intro written
    simp [MSXMegaRam.writeIO, hp]
  refine ⟨?_, ?_⟩
  · rw [hr]
    refine ⟨rfl, rfl, rfl, rfl, rfl, ?_⟩
    intro address value
    by_cases hb : m.bank ((address &&& 0x7FFF) / 0x2000) < m.numBlocks
    · simp [MSXMegaRam.writeMem, MSXMegaRam.getWriteCacheLine, hb]
    · simp [MSXMegaRam.writeMem, MSXMegaRam.getWriteCacheLine, hb]
  · intro written
    rw [hw]
    refine ⟨rfl, rfl, rfl, rfl, ?_⟩
    intro address value
    simp [MSXMegaRam.writeMem, MSXMegaRam.getWriteCacheLine, MSXMegaRam.setBank]

/-- C26 on a MegaRAM of 256 kB and port 0x8E: after `OUT (8Eh),A` a write of 5 to
address 0x4000 maps block 5 on page 2; after `IN A,(8Eh)` a write to 0x4000
lands in the RAM. -/
theorem megaram_write_and_mapping_mode_witness :
    0x8E % 2 = 0 ∧
    ((megaRamExample.writeIO 0x8E 0).writeMem 0x4000 5).bank 2 = 5 ∧
    (((megaRamExample.readIO 0x8E).1).writeMem 0x4000 0xAB).ram 0 = 0xAB := by
  have h := megaram_write_and_mapping_mode megaRamExample 0x8E (by decide)
  refine ⟨by decide, ?_, ?_⟩
  · rw [((h.2 0).2.2.2.2 0x4000 5).2.1]
    decide
  · rw [(h.1.2.2.2.2.2 0x4000 0xAB).2.1 (by decide)]
    decide

/-! ## MegaRAM: sizes, bank registers and RAM indices -/

set_option maxRecDepth 4096 in
theorem bit_ceil_small : ∀ n, n ≤ 256 → 1 ≤ bit_ceil n ∧ n ≤ bit_ceil n ∧ bit_ceil n ≤ 256 := by
  decide

theorem getNumBlocks_ok (size : Int) (h0 : 0 ≤ size) (h1 : size ≤ 2048) (h8 : size % 8 = 0) :
    getNumBlocks size = Except.ok (size / 8).toNat := by
  have a : ¬ size < 0 := by omega
  have b : ¬ size > 8 * 256 := by omega
  simp only [getNumBlocks]
  rw [if_neg a, if_neg b, if_neg (not_not.mpr h8)]

theorem getNumBlocks_error (size : Int) (h : ¬ (0 ≤ size ∧ size ≤ 2048 ∧ size % 8 = 0)) :
    ∃ e, getNumBlocks size = Except.error ("Invalid MegaRam size: " ++ toString size ++ ". " ++ e) := by
  simp only [getNumBlocks]
  by_cases a : size < 0
  · exact ⟨"Cannot be negative.", by rw [if_pos a]⟩
  · by_cases b : size > 8 * 256
    · exact ⟨"Cannot be larger than 2048.", by rw [if_neg a, if_pos b]⟩
    · have c : size % 8 ≠ 0 := by
        intro hc
        apply h
        omega
      exact ⟨"Must be a multiple of 8.", by rw [if_neg a, if_neg b, if_pos c]⟩

theorem getNumBlocks_inv (size : Int) (n : Nat) (h : getNumBlocks size = Except.ok n) :
    0 ≤ size ∧ size ≤ 2048 ∧ size % 8 = 0 ∧ n = (size / 8).toNat ∧ n ≤ 256 := by
  by_cases hs : 0 ≤ size ∧ size ≤ 2048 ∧ size % 8 = 0
  · obtain ⟨h0, h1, h8⟩ := hs
    rw [getNumBlocks_ok size h0 h1 h8] at h
    simp only [Except.ok.injEq] at h
    refine ⟨h0, h1, h8, h.symm, ?_⟩
    omega
  · obtain ⟨e, he⟩ := getNumBlocks_error size hs
    rw [he] at h
    cases h

theorem MSXMegaRam.setBank_inv (n : Nat) (m : MSXMegaRam) (page block : Nat)
    (hpos : 1 ≤ bit_ceil n) (h : m.bankInvariant n) : (m.setBank page block).bankInvariant n := by
  obtain ⟨h1, h2, h3⟩ := h
  refine ⟨h1, h2, ?_⟩
  intro p
  show (if p = page then block &&& m.maskBlocks else m.bank p) < bit_ceil n
  by_cases hp : p = page
  · rw [if_pos hp, h2]
    have := Nat.and_le_right (n := block) (m := bit_ceil n - 1)
    omega
  · rw [if_neg hp]
    exact h3 p

theorem MSXMegaRam.foldl_setBank_inv (n : Nat) (pages : List Nat) (m : MSXMegaRam)
    (hpos : 1 ≤ bit_ceil n) (h : m.bankInvariant n) :
    (pages.foldl (fun acc i => acc.setBank i 0) m).bankInvariant n := by
  induction pages generalizing m with
  | nil => exact h
  | cons p pages ih => exact ih _ (MSXMegaRam.setBank_inv n m p 0 hpos h)

theorem MSXMegaRam.powerUp_inv (n : Nat) (m : MSXMegaRam) (cleared : Nat → Nat)
    (hpos : 1 ≤ bit_ceil n) (h : m.bankInvariant n) : (m.powerUp cleared).bankInvariant n := by
  have h1 := MSXMegaRam.foldl_setBank_inv n (List.range 4) m hpos h
  exact h1

theorem MegaRamOp.apply_inv (n : Nat) (m : MSXMegaRam) (op : MegaRamOp)
    (hpos : 1 ≤ bit_ceil n) (h : m.bankInvariant n) : (op.apply m).bankInvariant n := by
  cases op with
  | powerUp cleared => exact MSXMegaRam.powerUp_inv n m cleared hpos h
  | reset => exact h
  | readIO port =>
    show ((m.readIO port).1).bankInvariant n
    unfold MSXMegaRam.readIO
    split
    · exact h
    · split
      · exact h
      · exact h
  | writeIO port value =>
    show (m.writeIO port value).bankInvariant n
    unfold MSXMegaRam.writeIO
    split
    · exact h
    · split
      · exact h
      · exact h
  | writeMem address value =>
    show (m.writeMem address value).bankInvariant n
    unfold MSXMegaRam.writeMem
    split
    · exact h
    · exact h
    · exact MSXMegaRam.setBank_inv n m _ value hpos h

theorem MegaRamOp.foldl_inv (n : Nat) (ops : List MegaRamOp) (m : MSXMegaRam)
    (hpos : 1 ≤ bit_ceil n) (h : m.bankInvariant n) :
    (ops.foldl MegaRamOp.apply m).bankInvariant n := by
  induction ops generalizing m with
  | nil => exact h
  | cons op ops ih => exact ih _ (MegaRamOp.apply_inv n m op hpos h)

theorem MSXMegaRam.ram_index_lt (m : MSXMegaRam) (address block : Nat)
    (h : block < m.numBlocks) :
    block * 0x2000 + (address &&& 0x1FFF) < m.numBlocks * 0x2000 := by
  have hlow : address &&& 0x1FFF < 2 ^ 13 := Nat.and_lt_two_pow address (by decide)
  have : (block + 1) * 0x2000 ≤ m.numBlocks * 0x2000 := Nat.mul_le_mul_right _ h
  omega

/-- C28: a configured size is accepted by `getNumBlocks` exactly when it is a multiple
of 8 with `0 <= size <= 2048`; any other size makes it, and so the constructor,
throw.  For an accepted size the constructor returns a MegaRAM `m0` with
`numBlocks = size / 8` whose mask `bit_ceil(numBlocks) - 1` fits in a byte
(`narrow<byte>` loses nothing), and after any sequence of `powerUp`, `reset`,
`readIO`, `writeIO` and `writeMem` calls the number of blocks and the mask are
the same and every bank register holds a value below `bit_ceil(numBlocks)`.
In every state, an index at which `getReadCacheLine` or `getWriteCacheLine`
point into the RAM is `block * 0x2000 + (address & 0x1FFF)` for the bank value
`block` of the page and is below the RAM size `numBlocks * 0x2000`; outside
ROM mode a bank value of at least `numBlocks` is served from the unmapped
area. -/
theorem megaram_sizes_and_indices (cleared : Nat → Nat) (size : Int) (hasRom : Bool) :
    (¬ (0 ≤ size ∧ size ≤ 2048 ∧ size % 8 = 0) →
      ∃ e, getNumBlocks size = Except.error e ∧
        MSXMegaRam.create cleared size hasRom = Except.error e) ∧
    ((0 ≤ size ∧ size ≤ 2048 ∧ size % 8 = 0) →
      getNumBlocks size = Except.ok (size / 8).toNat ∧
      bit_ceil (size / 8).toNat - 1 < 256 ∧
      ∃ m0, MSXMegaRam.create cleared size hasRom = Except.ok m0 ∧
        ∀ ops : List MegaRamOp,
          (ops.foldl MegaRamOp.apply m0).numBlocks = (size / 8).toNat ∧
          (ops.foldl MegaRamOp.apply m0).maskBlocks = bit_ceil (size / 8).toNat - 1 ∧
          ∀ page, (ops.foldl MegaRamOp.apply m0).bank page < bit_ceil (size / 8).toNat) ∧
    (∀ (m : MSXMegaRam) (address index : Nat),
      (m.getReadCacheLine address = MegaRamLine.ram index ∨
        m.getWriteCacheLine address = some (MegaRamLine.ram index)) →
      index = m.bank ((address &&& 0x7FFF) / 0x2000) * 0x2000 + (address &&& 0x1FFF) ∧
      m.bank ((address &&& 0x7FFF) / 0x2000) < m.numBlocks ∧
      index < m.numBlocks * 0x2000) ∧
    (∀ (m : MSXMegaRam) (address : Nat), m.romMode = false →
      m.numBlocks ≤ m.bank ((address &&& 0x7FFF) / 0x2000) →
      m.getReadCacheLine address = MegaRamLine.unmapped ∧
      (m.writeMode = true → m.getWriteCacheLine address = some MegaRamLine.unmapped)) := by
  refine ⟨?_, ?_, ?_, ?_⟩
  · intro h
    obtain ⟨e, he⟩ := getNumBlocks_error size h
    exact ⟨_, he, by simp [MSXMegaRam.create, he]⟩
  · rintro ⟨h0, h1, h8⟩
    have hok := getNumBlocks_ok size h0 h1 h8
    have hn : (size / 8).toNat ≤ 256 := (getNumBlocks_inv size _ hok).2.2.2.2
    obtain ⟨hpos, _, hle⟩ := bit_ceil_small _ hn
    have hmask : (bit_ceil (size / 8).toNat - 1) % 256 = bit_ceil (size / 8).toNat - 1 :=
      Nat.mod_eq_of_lt (by omega)
    refine ⟨hok, by omega,
      MSXMegaRam.powerUp cleared
        { numBlocks := (size / 8).toNat, ram := cleared, hasRom := hasRom, bank := fun _ => 0,
          writeMode := false, romMode := false,
          maskBlocks := (bit_ceil (size / 8).toNat - 1) % 256 },
      by simp only [MSXMegaRam.create, hok], ?_⟩
    intro ops
    have hinv0 : MSXMegaRam.bankInvariant (size / 8).toNat
        { numBlocks := (size / 8).toNat, ram := cleared, hasRom := hasRom, bank := fun _ => 0,
          writeMode := false, romMode := false,
          maskBlocks := (bit_ceil (size / 8).toNat - 1) % 256 } :=
      ⟨rfl, hmask, fun _ => hpos⟩
    have hinv := MegaRamOp.foldl_inv _ ops _ hpos
      (MSXMegaRam.powerUp_inv _ _ cleared hpos hinv0)
    exact ⟨hinv.1, hinv.2.1, hinv.2.2⟩
  · intro m address index h
    rcases h with h | h
    · unfold MSXMegaRam.getReadCacheLine at h
      by_cases hr : m.romMode = true
      · simp only [hr, if_true] at h
        split at h <;> cases h
      · simp only [hr] at h
        by_cases hb : m.bank ((address &&& 0x7FFF) / 0x2000) < m.numBlocks
        · simp only [hb, if_true, Bool.false_eq_true, if_false, MegaRamLine.ram.injEq] at h
          exact ⟨h.symm, hb, h ▸ MSXMegaRam.ram_index_lt m address _ hb⟩
        · simp [hb] at h
    · unfold MSXMegaRam.getWriteCacheLine at h
      by_cases hr : m.romMode = true
      · simp [hr] at h
      · by_cases hw : m.writeMode = true
        · by_cases hb : m.bank ((address &&& 0x7FFF) / 0x2000) < m.numBlocks
          · simp only [hr, hw, hb, if_true, Bool.false_eq_true, if_false, Option.some.injEq,
              MegaRamLine.ram.injEq] at h
            exact ⟨h.symm, hb, h ▸ MSXMegaRam.ram_index_lt m address _ hb⟩
          · simp [hr, hw, hb] at h
        · simp [hr, hw] at h
  · intro m address hr hb
    have hnb : ¬ m.bank ((address &&& 0x7FFF) / 0x2000) < m.numBlocks := by omega
    refine ⟨by simp [MSXMegaRam.getReadCacheLine, hr, hnb], ?_⟩
    intro hw
    simp [MSXMegaRam.getWriteCacheLine, hr, hw, hnb]

/-- C28 on a configured size of 100 kB: 12 blocks, mask 15, and a bank register set
to 13 is served from the unmapped area. -/
theorem megaram_sizes_and_indices_witness :
    getNumBlocks 100 = Except.error "Invalid MegaRam size: 100. Must be a multiple of 8." ∧
    getNumBlocks 96 = Except.ok 12 ∧ bit_ceil 12 - 1 = 15 ∧
    ∃ m0, MSXMegaRam.create (fun _ => 0) 96 false = Except.ok m0 ∧
      ∀ page, ([MegaRamOp.writeIO 0x8E 0, MegaRamOp.writeMem 0x6000 0xFD].foldl
        MegaRamOp.apply m0).bank page < 16 := by
  have h := (megaram_sizes_and_indices (fun _ => 0) 96 false).2.1 (by decide)
  obtain ⟨h1, _, m0, hm0, hops⟩ := h
  refine ⟨rfl, rfl, by decide, m0, hm0, ?_⟩
  intro page
  exact (hops [MegaRamOp.writeIO 0x8E 0, MegaRamOp.writeMem 0x6000 0xFD]).2.2 page

/-! ## National FDC: mirrored registers -/

theorem NationalFDC.mirror_mask :
    ∀ k, k < 64 →
      (0x7F80 + k) &&& 0x3FC7 = (0x7FB8 + ((0x7F80 + k) &&& 7)) &&& 0x3FC7 ∧
      0x3F80 ≤ (0x7F80 + k) &&& 0x3FC7 ∧ (0x7F80 + k) &&& 0x3FC7 ≤ 0x3F87 := by
  decide

theorem NationalFDC.driveControl_mask :
    ∀ k, k < 4 →
      0x3F84 ≤ (0x7FBC + k) &&& 0x3FC7 ∧ (0x7FBC + k) &&& 0x3FC7 ≤ 0x3F87 := by
  decide

theorem NationalFDC.driveControlValue_bits (irq dtrq : Bool) :
    (NationalFDC.driveControlValue irq dtrq).testBit 7 = irq ∧
    (NationalFDC.driveControlValue irq dtrq).testBit 6 = !dtrq ∧
    (∀ i, i < 6 → (NationalFDC.driveControlValue irq dtrq).testBit i = true) ∧
    NationalFDC.driveControlValue irq dtrq < 256 := by
  cases irq <;> cases dtrq <;> decide

theorem NationalFDC.same_selection {σ : Type} (parts : FDCParts σ) (s : σ) (a b : Nat)
    (h : a &&& 0x3FC7 = b &&& 0x3FC7) :
    (∀ value, NationalFDC.writeMem parts s a value = NationalFDC.writeMem parts s b value) ∧
    ((0x3F80 ≤ a &&& 0x3FC7 ∧ a &&& 0x3FC7 ≤ 0x3F87) →
      NationalFDC.readMem parts s a = NationalFDC.readMem parts s b ∧
      NationalFDC.peekMem parts s a = NationalFDC.peekMem parts s b) ∧
    (¬ (0x3F80 ≤ a &&& 0x3FC7 ∧ a &&& 0x3FC7 ≤ 0x3F87) →
      NationalFDC.readMem parts s a = (parts.basePeekMem a s, s) ∧
      NationalFDC.peekMem parts s a = parts.basePeekMem a s ∧
      NationalFDC.readMem parts s b = (parts.basePeekMem b s, s) ∧
      NationalFDC.peekMem parts s b = parts.basePeekMem b s ∧
      ∀ value, NationalFDC.writeMem parts s a value = s) := by
  refine ⟨?_, ?_, ?_⟩
  · intro value
    simp only [NationalFDC.writeMem, h]
  · intro hw
    rw [h] at hw
    constructor
    · simp only [NationalFDC.readMem, NationalFDC.peekMem, h]
      split_ifs <;> first | rfl | omega
    · simp only [NationalFDC.peekMem, h]
      split_ifs <;> first | rfl | omega
  · intro hw
    have hb : ¬ (0x3F80 ≤ b &&& 0x3FC7 ∧ b &&& 0x3FC7 ≤ 0x3F87) := by rw [← h]; exact hw
    refine ⟨?_, ?_, ?_, ?_, ?_⟩
    · simp only [NationalFDC.readMem, NationalFDC.peekMem]
      split_ifs <;> first | rfl | omega
    · simp only [NationalFDC.peekMem]
      split_ifs <;> first | rfl | omega
    · simp only [NationalFDC.readMem, NationalFDC.peekMem]
      split_ifs <;> first | rfl | omega
    · simp only [NationalFDC.peekMem]
      split_ifs <;> first | rfl | omega
    · intro value
      simp only [NationalFDC.writeMem]
      split_ifs <;> first | rfl | omega

/-- C27: for two addresses `a` and `b` with `(a & 0x3FC7) == (b & 0x3FC7)`, `writeMem`
does the same for `a` and `b`; when the masked address is one of 0x3F80..0x3F87
`readMem` and `peekMem` access the same register for both, and otherwise all
three take the default branch (the ROM is read, nothing is written).  Every
address in 0x7F80..0x7FBF is served like `0x7FB8 + (address & 7)`.  The
addresses 0x7FBC..0x7FBF all select the drive control register: a read gives
the byte with bit 7 equal to the IRQ line, bit 6 equal to the negation of the
DTRQ line and the bits 0 to 5 set, and a write selects the drive (bits 0 and
1), the side (bit 2) and the motor (bit 3).  The addresses 0x7FB8, 0x7FB9,
0x7FBA and 0x7FBB select the status (on a write: command), track, sector and
data register of the controller. -/
theorem nationalfdc_mirrored_registers {σ : Type} (parts : FDCParts σ) (s : σ) (a b : Nat)
    (h : a &&& 0x3FC7 = b &&& 0x3FC7) :
    (∀ value, NationalFDC.writeMem parts s a value = NationalFDC.writeMem parts s b value) ∧
    ((0x3F80 ≤ a &&& 0x3FC7 ∧ a &&& 0x3FC7 ≤ 0x3F87) →
      NationalFDC.readMem parts s a = NationalFDC.readMem parts s b ∧
      NationalFDC.peekMem parts s a = NationalFDC.peekMem parts s b) ∧
    (¬ (0x3F80 ≤ a &&& 0x3FC7 ∧ a &&& 0x3FC7 ≤ 0x3F87) →
      NationalFDC.readMem parts s a = (parts.basePeekMem a s, s) ∧
      NationalFDC.peekMem parts s a = parts.basePeekMem a s ∧
      NationalFDC.readMem parts s b = (parts.basePeekMem b s, s) ∧
      NationalFDC.peekMem parts s b = parts.basePeekMem b s ∧
      ∀ value, NationalFDC.writeMem parts s a value = s) ∧
    (∀ address, 0x7F80 ≤ address → address ≤ 0x7FBF →
      NationalFDC.readMem parts s address =
        NationalFDC.readMem parts s (0x7FB8 + (address &&& 7)) ∧
      NationalFDC.peekMem parts s address =
        NationalFDC.peekMem parts s (0x7FB8 + (address &&& 7)) ∧
      ∀ value, NationalFDC.writeMem parts s address value =
        NationalFDC.writeMem parts s (0x7FB8 + (address &&& 7)) value) ∧
    (∀ address, 0x7FBC ≤ address → address ≤ 0x7FBF →
      NationalFDC.peekMem parts s address =
        NationalFDC.driveControlValue (parts.peekIRQ s) (parts.peekDTRQ s) ∧
      NationalFDC.readMem parts s address =
        (NationalFDC.driveControlValue (parts.getIRQ s).1 (parts.getDTRQ (parts.getIRQ s).2).1,
          (parts.getDTRQ (parts.getIRQ s).2).2) ∧
      ∀ value, NationalFDC.writeMem parts s address value =
        parts.setMotor (value &&& 0x08 ≠ 0)
          (parts.setSide (value &&& 0x04 ≠ 0)
            (parts.selectDrive
              (if value &&& 3 = 1 then Drive.A
               else if value &&& 3 = 2 then Drive.B
               else Drive.NONE) s))) ∧
    (NationalFDC.peekMem parts s 0x7FB8 = parts.peekStatusReg s ∧
      NationalFDC.readMem parts s 0x7FB8 = parts.getStatusReg s ∧
      (∀ value, NationalFDC.writeMem parts s 0x7FB8 value = parts.setCommandReg value s) ∧
      NationalFDC.peekMem parts s 0x7FB9 = parts.peekTrackReg s ∧
      NationalFDC.readMem parts s 0x7FB9 = parts.getTrackReg s ∧
      (∀ value, NationalFDC.writeMem parts s 0x7FB9 value = parts.setTrackReg value s) ∧
      NationalFDC.peekMem parts s 0x7FBA = parts.peekSectorReg s ∧
      NationalFDC.readMem parts s 0x7FBA = parts.getSectorReg s ∧
      (∀ value, NationalFDC.writeMem parts s 0x7FBA value = parts.setSectorReg value s) ∧
      NationalFDC.peekMem parts s 0x7FBB = parts.peekDataReg s ∧
      NationalFDC.readMem parts s 0x7FBB = parts.getDataReg s ∧
      (∀ value, NationalFDC.writeMem parts s 0x7FBB value = parts.setDataReg value s)) ∧
    (∀ irq dtrq : Bool,
      (NationalFDC.driveControlValue irq dtrq).testBit 7 = irq ∧
      (NationalFDC.driveControlValue irq dtrq).testBit 6 = !dtrq ∧
      (∀ i, i < 6 → (NationalFDC.driveControlValue irq dtrq).testBit i = true) ∧
      NationalFDC.driveControlValue irq dtrq < 256) := by
  obtain ⟨h1, h2, h3⟩ := NationalFDC.same_selection parts s a b h
  refine ⟨h1, h2, h3, ?_, ?_,
    ⟨rfl, rfl, fun _ => rfl, rfl, rfl, fun _ => rfl, rfl, rfl, fun _ => rfl,
      rfl, rfl, fun _ => rfl⟩,
    NationalFDC.driveControlValue_bits⟩
  · intro address hlo hhi
    obtain ⟨k, rfl⟩ : ∃ k, address = 0x7F80 + k := ⟨address - 0x7F80, by omega⟩
    obtain ⟨hm, hw⟩ := NationalFDC.mirror_mask k (by omega)
    obtain ⟨g1, g2, _⟩ := NationalFDC.same_selection parts s _ _ hm
    exact ⟨(g2 hw).1, (g2 hw).2, g1⟩
  · intro address hlo hhi
    obtain ⟨k, rfl⟩ : ∃ k, address = 0x7FBC + k := ⟨address - 0x7FBC, by omega⟩
    obtain ⟨hw1, hw2⟩ := NationalFDC.driveControl_mask k (by omega)
    refine ⟨?_, ?_, ?_⟩
    · simp only [NationalFDC.peekMem]
      split_ifs <;> first | rfl | omega
    · simp only [NationalFDC.readMem]
      split_ifs <;> first | rfl | omega
    · intro value
      simp only [NationalFDC.writeMem]
      split_ifs <;> first | rfl | omega

/-- C27 at the addresses 0x7F84 and 0x7FBC with the IRQ line set and the DTRQ line
clear: both read 0xFF from the drive control register. -/
theorem nationalfdc_mirrored_registers_witness :
    (0x7F84 &&& 0x3FC7 = 0x7FBC &&& 0x3FC7) ∧
    NationalFDC.peekMem fdcPartsExample (true, false) 0x7F84 =
      NationalFDC.peekMem fdcPartsExample (true, false) 0x7FBC ∧
    NationalFDC.peekMem fdcPartsExample (true, false) 0x7FBC = 0xFF ∧
    NationalFDC.writeMem fdcWriteLogExample [] 0x7F84 0x09 =
      NationalFDC.writeMem fdcWriteLogExample [] 0x7FBC 0x09 ∧
    NationalFDC.writeMem fdcWriteLogExample [] 0x7FBC 0x09 =
      ["selectDrive A", "setSide false", "setMotor true"] :=
  ⟨by decide,
   ((nationalfdc_mirrored_registers fdcPartsExample (true, false) 0x7F84 0x7FBC
      (by decide)).2.1 (by decide)).2,
   by decide,
   (nationalfdc_mirrored_registers fdcWriteLogExample [] 0x7F84 0x7FBC (by decide)).1 0x09,
   by decide⟩

/-! ## PPI: port C in a saved state -/

theorem and_two_pow_ne_zero (x k : Nat) : x &&& 2 ^ k ≠ 0 ↔ x.testBit k = true := by
  constructor
  · intro h
    by_contra hb
    apply h
    apply Nat.eq_of_testBit_eq
    intro i
    rw [Nat.testBit_and, Nat.testBit_two_pow, Nat.zero_testBit]
    by_cases hki : k = i
    · subst hki
      simp [hb]
    · simp [hki]
  · intro hb h0
    have h1 : (x &&& 2 ^ k).testBit k = true := by
      rw [Nat.testBit_and, Nat.testBit_two_pow_self, hb]
      rfl
    rw [h0, Nat.zero_testBit] at h1
    cases h1

theorem xor_bit_differs (a b k : Nat) :
    (a ^^^ b) &&& 2 ^ k ≠ 0 ↔ a.testBit k ≠ b.testBit k := by
  rw [and_two_pow_ne_zero, Nat.testBit_xor]
  cases a.testBit k <;> cases b.testBit k <;> simp

theorem portC_fields :
    ∀ p, p < 16 → ∀ r, r < 16 →
      ((((p <<< 4) ||| (r <<< 0)) % 256) >>> 0) &&& 0xF = r ∧
      ((((p <<< 4) ||| (r <<< 0)) % 256) >>> 4) &&& 0xF = p := by
  decide

theorem writeC1_values :
    ∀ v, v < 16 →
      ((v &&& 1) == 0) = !v.testBit 0 ∧ ((v &&& 2) != 0) = v.testBit 1 ∧
      ((v &&& 4) == 0) = !v.testBit 2 ∧ ((v &&& 8) != 0) = v.testBit 3 := by
  decide

/-- C29: let `saved` be a PPI with `prevBits < 16` and `selectedRow < 16`.  When the
byte `portC` that `serialize` writes for it is read back by the loader into a
PPI `loader` in any state, the loader ends with the selected row and the
previous bits of `saved`, and `writeC1` has made, in its order, exactly the
cassette motor, cassette out, CAPS LED and key click calls of those of the four
bits in which the previous bits of the loader differ from the loaded ones. -/
theorem ppi_portC_roundtrip (saved loader : MSXPPI) (hp : saved.prevBits < 16)
    (hr : saved.selectedRow < 16) :
    (loader.loadPortC saved.serializePortC).selectedRow = saved.selectedRow ∧
    (loader.loadPortC saved.serializePortC).prevBits = saved.prevBits ∧
    (loader.loadPortC saved.serializePortC).effects =
      loader.effects ++ changedBitActions loader.prevBits saved.prevBits := by
  obtain ⟨hrow, hbits⟩ := portC_fields saved.prevBits hp saved.selectedRow hr
  obtain ⟨v0, v1, v2, v3⟩ := writeC1_values saved.prevBits hp
  have c0 : (loader.prevBits ^^^ saved.prevBits) &&& 1 ≠ 0 ↔
      loader.prevBits.testBit 0 ≠ saved.prevBits.testBit 0 := xor_bit_differs _ _ 0
  have c1 : (loader.prevBits ^^^ saved.prevBits) &&& 2 ≠ 0 ↔
      loader.prevBits.testBit 1 ≠ saved.prevBits.testBit 1 := xor_bit_differs _ _ 1
  have c2 : (loader.prevBits ^^^ saved.prevBits) &&& 4 ≠ 0 ↔
      loader.prevBits.testBit 2 ≠ saved.prevBits.testBit 2 := xor_bit_differs _ _ 2
  have c3 : (loader.prevBits ^^^ saved.prevBits) &&& 8 ≠ 0 ↔
      loader.prevBits.testBit 3 ≠ saved.prevBits.testBit 3 := xor_bit_differs _ _ 3
  unfold MSXPPI.loadPortC MSXPPI.serializePortC
  simp only [hrow, hbits]
  unfold MSXPPI.writeC1 changedBitActions
  simp only [v0, v1, v2, v3, c0, c1, c2, c3]
  refine ⟨?_, ?_, ?_⟩
  · split_ifs <;> rfl
  · trivial
  · split_ifs <;> simp [MSXPPI.emit]

/-- C29 on a saved PPI with previous bits 0b0101 and row 8, loaded into a PPI whose
previous bits are 0b0110: the bits 0 and 1 differ, so the cassette motor and
the cassette output are set and the CAPS LED and the key click are left alone. -/
theorem ppi_portC_roundtrip_witness :
    (5 : Nat) < 16 ∧ (8 : Nat) < 16 ∧
    (MSXPPI.loadPortC { prevBits := 6, selectedRow := 3, effects := [] }
      (MSXPPI.serializePortC { prevBits := 5, selectedRow := 8, effects := [] })).effects =
      [PPIEffect.setMotor false, PPIEffect.cassetteOut false] := by
  refine ⟨by decide, by decide, ?_⟩
  rw [(ppi_portC_roundtrip { prevBits := 5, selectedRow := 8, effects := [] }
    { prevBits := 6, selectedRow := 3, effects := [] } (by decide) (by decide)).2.2]
  decide

/-! ## Board layer: user names -/

theorem digitChar_value : ∀ k, k < 10 → (Nat.digitChar k).toNat - 48 = k := by
  decide

theorem toDigitsCore_value (fuel : Nat) :
    ∀ (n : Nat) (ds : List Char), n < fuel →
      (Nat.toDigitsCore 10 fuel n ds).foldl (fun acc c => acc * 10 + (c.toNat - 48)) 0 =
        ds.foldl (fun acc c => acc * 10 + (c.toNat - 48)) n := by
  induction fuel with
  | zero =>
    intro n ds h
    omega
  | succ fuel ih =>
    intro n ds h
    have hd := digitChar_value (n % 10) (Nat.mod_lt n (by decide))
    unfold Nat.toDigitsCore
    by_cases h0 : n / 10 = 0
    · simp only [h0, if_true, List.foldl_cons, hd]
      have : n % 10 = n := Nat.mod_eq_of_lt (by omega)
      rw [this]
      simp
    · simp only [h0, if_false]
      rw [ih (n / 10) _ (by omega)]
      simp only [List.foldl_cons, hd]
      have : n / 10 * 10 + n % 10 = n := by omega
      rw [this]

theorem digitsValue_toString (n : Nat) : digitsValue (toString n).data = n := by
  have h := toDigitsCore_value (n + 1) n [] (by omega)
  simpa [digitsValue, Nat.toDigits] using h

theorem untitledName_injective (a b : Nat) (h : untitledName a = untitledName b) : a = b := by
  unfold untitledName at h
  have hd := congrArg String.data h
  rw [String.data_append, String.data_append] at hd
  have he := List.append_cancel_left hd
  rw [← digitsValue_toString a, ← digitsValue_toString b, he]

theorem getUserNameLoop_finds (s : List String) (n : Nat) (hfree : untitledName n ∉ s)
    (hn : n < 2 ^ 32) :
    ∀ (d n0 fuel : Nat), n0 + d + 1 = n → (∀ k, n0 < k → k < n → untitledName k ∈ s) →
      d + 1 ≤ fuel → getUserNameLoop s fuel n0 = some (untitledName n) := by
  intro d
  induction d with
  | zero =>
    intro n0 fuel hsum _ hfuel
    obtain ⟨f, rfl⟩ : ∃ f, fuel = f + 1 := ⟨fuel - 1, by omega⟩
    have hn2 : n < 4294967296 := hn
    have hmod : (n0 + 1) % 4294967296 = n := by omega
    simp [getUserNameLoop, hmod, hfree]
  | succ d ih =>
    intro n0 fuel hsum hused hfuel
    obtain ⟨f, rfl⟩ : ∃ f, fuel = f + 1 := ⟨fuel - 1, by omega⟩
    have hn2 : n < 4294967296 := hn
    have hmod : (n0 + 1) % 4294967296 = n0 + 1 := by omega
    have hmem : untitledName (n0 + 1) ∈ s := hused (n0 + 1) (by omega) (by omega)
    have hrest := ih (n0 + 1) f (by omega) (fun k h1 h2 => hused k (by omega) h2) (by omega)
    simp [getUserNameLoop, hmod, hmem, hrest]

/-- Among the names `untitled1` ... `untitled<L+1>` one is not in a list of `L` names;
the least such number. -/
theorem least_free_untitled (s : List String) :
    ∃ n, 1 ≤ n ∧ n ≤ s.length + 1 ∧ untitledName n ∉ s ∧
      ∀ k, 1 ≤ k → k < n → untitledName k ∈ s := by
  have hex : ∃ n, 1 ≤ n ∧ n ≤ s.length + 1 ∧ untitledName n ∉ s := by
    by_contra hno
    have hall : ∀ k, 1 ≤ k → k ≤ s.length + 1 → untitledName k ∈ s := by
      intro k h1 h2
      by_contra hk
      exact hno ⟨k, h1, h2, hk⟩
    have hnd : ((List.range (s.length + 1)).map (fun i => untitledName (i + 1))).Nodup := by
      refine List.Nodup.map ?_ (List.nodup_range _)
      intro a b hab
      have := untitledName_injective _ _ hab
      omega
    have hsub : (List.range (s.length + 1)).map (fun i => untitledName (i + 1)) ⊆ s := by
      intro x hx
      obtain ⟨i, hi, rfl⟩ := List.mem_map.mp hx
      have := List.mem_range.mp hi
      exact hall (i + 1) (by omega) (by omega)
    have hle := (List.subperm_of_subset hnd hsub).length_le
    simp at hle
  classical
  refine ⟨Nat.find hex, (Nat.find_spec hex).1, (Nat.find_spec hex).2.1,
    (Nat.find_spec hex).2.2, ?_⟩
  intro k h1 hk
  by_contra hmem
  have hmin := Nat.find_min hex hk
  apply hmin
  exact ⟨h1, by have := (Nat.find_spec hex).2.1; omega, hmem⟩

theorem MSXMotherBoard.getUserName_run (userNames : UserNames) (hwName : String) (n fuel : Nat)
    (h1 : 1 ≤ n) (hn : n < 2 ^ 32) (hfree : untitledName n ∉ userNames hwName)
    (hused : ∀ k, 1 ≤ k → k < n → untitledName k ∈ userNames hwName) (hfuel : n ≤ fuel) :
    MSXMotherBoard.getUserName fuel userNames hwName =
      some (fun k => if k = hwName then userNames hwName ++ [untitledName n] else userNames k,
        untitledName n) := by
  have hloop := getUserNameLoop_finds (userNames hwName) n hfree hn (n - 1) 0 fuel (by omega)
    (fun k hk1 hk2 => hused k (by omega) hk2) (by omega)
  simp [MSXMotherBoard.getUserName, hloop]

/-- C30: for every hardware name whose list of user names in use is shorter than the
range of the `unsigned` counter, there is a least positive `n` whose name
`untitled<n>` is not in use, and `getUserName` returns, for any fuel of at least
the length of the list plus one, that name, appends it to the list of that
hardware name and leaves the lists of the other hardware names unchanged.  A
second call returns a different name.  `freeUserName` of the returned name
gives back the lists as they were before, and `getUserName` then hands out the
same name again. -/
theorem getUserName_least_free (userNames : UserNames) (hwName : String)
    (hlen : (userNames hwName).length + 2 < 2 ^ 32) :
    ∃ n, 1 ≤ n ∧ untitledName n ∉ userNames hwName ∧
      (∀ k, 1 ≤ k → k < n → untitledName k ∈ userNames hwName) ∧
      ∀ fuel, (userNames hwName).length + 1 ≤ fuel →
        ∃ un1, MSXMotherBoard.getUserName fuel userNames hwName = some (un1, untitledName n) ∧
          un1 hwName = userNames hwName ++ [untitledName n] ∧
          (∀ other, other ≠ hwName → un1 other = userNames other) ∧
          (∀ fuel2, (userNames hwName).length + 2 ≤ fuel2 →
            ∃ un2 name2, MSXMotherBoard.getUserName fuel2 un1 hwName = some (un2, name2) ∧
              name2 ≠ untitledName n) ∧
          ∃ un3, MSXMotherBoard.freeUserName un1 hwName (untitledName n) = some un3 ∧
            un3 hwName = userNames hwName ∧
            (∀ other, other ≠ hwName → un3 other = userNames other) ∧
            ∃ un4, MSXMotherBoard.getUserName fuel un3 hwName = some (un4, untitledName n) := by
  obtain ⟨n, h1, hle, hfree, hused⟩ := least_free_untitled (userNames hwName)
  have hlen2 : (userNames hwName).length + 2 < 4294967296 := hlen
  have hn : n < 2 ^ 32 := by
    show n < 4294967296
    omega
  refine ⟨n, h1, hfree, hused, ?_⟩
  intro fuel hfuel
  have hrun := MSXMotherBoard.getUserName_run userNames hwName n fuel h1 hn hfree hused (by omega)
  refine ⟨_, hrun, by simp, fun other ho => by simp [ho], ?_, ?_⟩
  · intro fuel2 hfuel2
    obtain ⟨n2, g1, gle, gfree, gused⟩ := least_free_untitled (userNames hwName ++ [untitledName n])
    have gle2 : n2 ≤ (userNames hwName).length + 2 := by simpa using gle
    have hn2 : n2 < 2 ^ 32 := by
      show n2 < 4294967296
      omega
    have hrun2 := MSXMotherBoard.getUserName_run
      (fun k => if k = hwName then userNames hwName ++ [untitledName n] else userNames k)
      hwName n2 fuel2 g1 hn2 (by simpa using gfree) (by simpa using gused) (by omega)
    refine ⟨_, _, hrun2, ?_⟩
    intro heq
    apply gfree
    rw [heq]
    simp
  · refine ⟨fun k => if k = hwName then userNames hwName else userNames k, ?_, by simp,
      fun other ho => by simp [ho], ?_⟩
    · simp only [MSXMotherBoard.freeUserName, if_true, rfind_unguarded_concat,
        move_pop_back_concat]
      congr 1
      funext k
      by_cases hk : k = hwName <;> simp [hk]
    · have hrun3 := MSXMotherBoard.getUserName_run
        (fun k => if k = hwName then userNames hwName else userNames k)
        hwName n fuel h1 hn (by simpa using hfree) (by simpa using hused) (by omega)
      exact ⟨_, hrun3⟩

/-- C30 on a board where `untitled1` and `untitled3` are in use for `diskdrive`: the
next name is `untitled2`. -/
theorem getUserName_least_free_witness :
    (userNamesExample "diskdrive").length + 2 < 2 ^ 32 ∧
    getUserNameLoop (userNamesExample "diskdrive") 3 0 = some "untitled2" ∧
    ∃ n, 1 ≤ n ∧ untitledName n ∉ userNamesExample "diskdrive" ∧
      ∀ fuel, (userNamesExample "diskdrive").length + 1 ≤ fuel →
        ∃ un1, MSXMotherBoard.getUserName fuel userNamesExample "diskdrive"
          = some (un1, untitledName n) := by
  refine ⟨by decide, by decide, ?_⟩
  obtain ⟨n, h1, hfree, _, hrun⟩ :=
    getUserName_least_free userNamesExample "diskdrive" (by decide)
  refine ⟨n, h1, hfree, ?_⟩
  intro fuel hfuel
  obtain ⟨un1, h, _⟩ := hrun fuel hfuel
  exact ⟨un1, h⟩

end openmsx
